import Mathlib

/-!
Verification of the opencode-feishu-bridge task-execution core against its
specification.  The development shallowly embeds the relevant TypeScript
source (`src/executor/opencode-executor.ts`, the bridge orchestrator and the
message-handler response formatter) as executable Lean definitions and proves
or refutes the frozen behavioural claims about them.

Strings are modelled as `List Char` (`Str`), mirroring JavaScript strings at
code-point granularity.  JavaScript string primitives used by the source
(`trim`, `replace(/\s+/g, ' ')`, `split`, `substring`, `includes`,
`toLowerCase`) are given direct executable models below.
-/

/-- Character strings, the model of JavaScript strings. -/
abbrev Str := List Char

/-- Whitespace class of JavaScript regular expressions and `String.trim`
(ASCII whitespace plus NBSP and BOM; wider Unicode space classes are not
produced by any string in this code base). -/
def jsWs (c : Char) : Bool :=
  c = ' ' || c = '\t' || c = '\n' || c = '\r' ||
  c = Char.ofNat 11 || c = Char.ofNat 12 || c = Char.ofNat 0xa0 || c = Char.ofNat 0xfeff

/-- Model of JavaScript `String.prototype.trim`: drop whitespace from both
ends. -/
def jsTrim (l : Str) : Str := List.rdropWhile jsWs (l.dropWhile jsWs)

/-- Model of `replace(/\s+/g, ' ')`: every maximal whitespace run becomes a
single space.  The boolean argument records whether the previous character
was part of a whitespace run. -/
def collapseWsGo : Bool → Str → Str
  | _, [] => []
  | prevWs, c :: cs =>
    if jsWs c then
      if prevWs then collapseWsGo true cs else ' ' :: collapseWsGo true cs
    else c :: collapseWsGo false cs

/-- Model of `replace(/\s+/g, ' ')`. -/
def collapseWs (l : Str) : Str := collapseWsGo false l

/-- Model of `split('\n')`. -/
def splitNl : Str → List Str
  | [] => [[]]
  | c :: cs =>
    if c = '\n' then [] :: splitNl cs
    else
      match splitNl cs with
      | [] => [[c]]
      | p :: ps => (c :: p) :: ps

/-- Model of `split(/\r?\n/)`: split at every `'\n'`, additionally dropping a
`'\r'` that immediately precedes the `'\n'`. -/
def splitRn : Str → List Str
  | [] => [[]]
  | ['\r'] =>
      (match splitRn [] with
       | [] => [['\r']]
       | p :: ps => ('\r' :: p) :: ps)
  | '\r' :: '\n' :: cs => [] :: splitRn cs
  | c :: cs =>
    if c = '\n' then [] :: splitRn cs
    else
      match splitRn cs with
      | [] => [[c]]
      | p :: ps => (c :: p) :: ps

/-- Model of JavaScript `String.prototype.toLowerCase`, ASCII range (the only
case-bearing characters appearing in the embedded strings). -/
def jsToLower (l : Str) : Str := l.map Char.toLower

/-- Does `p` occur as a contiguous substring of `l`?  Model of
`String.prototype.includes`. -/
def strIncludes (l p : Str) : Bool :=
  (List.range (l.length + 1)).any (fun i => (l.drop i).take p.length = p)

/-- Decimal rendering of a natural number, as produced by JavaScript template
interpolation of a non-negative integer. -/
def natToStr (n : Nat) : Str := Nat.toDigits 10 n

/-- Model of `Array.prototype.join(sep)`. -/
def jsJoin (sep : Str) : List Str → Str
  | [] => []
  | [x] => x
  | x :: xs => x ++ sep ++ jsJoin sep xs

/-! ### JSON values and a model of the host JSON parser

`JSON.parse` / `JSON.stringify` are host primitives.  `jsonParse` models
`JSON.parse` on the grammar actually exchanged with the agent subprocess
(objects, arrays, strings with simple escapes, decimal numbers, booleans,
null); any other input is a parse failure, as it is for `JSON.parse`. -/

inductive Json where
  | null
  | bool (b : Bool)
  | num (q : ℚ)
  | str (s : Str)
  | arr (elems : List Json)
  | obj (fields : List (Str × Json))

/-- Object field access `parsed.key` (`undefined` as `none`). -/
def jget : Json → Str → Option Json
  | Json.obj fields, k => (fields.find? (fun f => f.1 == k)).map (·.2)
  | _, _ => none

/-- Reads `typeof v === 'string' ? v : undefined`. -/
def jstr? : Option Json → Option Str
  | some (Json.str s) => some s
  | _ => none

/-- String-literal body: consumes up to the closing quote, decoding the simple
escapes.  Returns the decoded content and the remaining input. -/
def parseStrBody : Str → Option (Str × Str)
  | [] => none
  | '\\' :: e :: rest =>
      (match e with
       | '"' => (parseStrBody rest).map (fun p => ('"' :: p.1, p.2))
       | '\\' => (parseStrBody rest).map (fun p => ('\\' :: p.1, p.2))
       | '/' => (parseStrBody rest).map (fun p => ('/' :: p.1, p.2))
       | 'n' => (parseStrBody rest).map (fun p => ('\n' :: p.1, p.2))
       | 't' => (parseStrBody rest).map (fun p => ('\t' :: p.1, p.2))
       | 'r' => (parseStrBody rest).map (fun p => ('\r' :: p.1, p.2))
       | _ => none)
  | '"' :: rest => some ([], rest)
  | c :: rest => (parseStrBody rest).map (fun p => (c :: p.1, p.2))

def digitsToNat (l : Str) : Nat :=
  l.foldl (fun n c => n * 10 + (c.toNat - '0'.toNat)) 0

/-- Decimal number literal (optional sign, integer part, optional fraction). -/
def parseNumLit (l : Str) : Option (ℚ × Str) :=
  let signed := match l with
    | '-' :: r => (true, r)
    | _ => (false, l)
  let ds := signed.2.takeWhile Char.isDigit
  if ds.isEmpty then none
  else
    let ip : ℚ := (digitsToNat ds : ℚ)
    let rest := signed.2.drop ds.length
    match rest with
    | '.' :: r2 =>
        let fs := r2.takeWhile Char.isDigit
        if fs.isEmpty then none
        else
          let q : ℚ := ip + (digitsToNat fs : ℚ) / ((10 : ℚ) ^ fs.length)
          some (if signed.1 then -q else q, r2.drop fs.length)
    | _ => some (if signed.1 then -ip else ip, rest)

mutual

/-- Fuel-indexed JSON value parser. -/
def parseJsonVal : Nat → Str → Option (Json × Str)
  | 0, _ => none
  | fuel + 1, l =>
    match l.dropWhile jsWs with
    | 'n' :: 'u' :: 'l' :: 'l' :: r => some (Json.null, r)
    | 't' :: 'r' :: 'u' :: 'e' :: r => some (Json.bool true, r)
    | 'f' :: 'a' :: 'l' :: 's' :: 'e' :: r => some (Json.bool false, r)
    | '"' :: r => (parseStrBody r).map (fun p => (Json.str p.1, p.2))
    | '[' :: r =>
        (match r.dropWhile jsWs with
         | ']' :: r2 => some (Json.arr [], r2)
         | _ => (parseArrItems fuel r).map (fun p => (Json.arr p.1, p.2)))
    | '{' :: r =>
        (match r.dropWhile jsWs with
         | '}' :: r2 => some (Json.obj [], r2)
         | _ => (parseObjItems fuel r).map (fun p => (Json.obj p.1, p.2)))
    | l2 => (parseNumLit l2).map (fun p => (Json.num p.1, p.2))

/-- Comma-separated array items, terminated by `']'`. -/
def parseArrItems : Nat → Str → Option (List Json × Str)
  | 0, _ => none
  | fuel + 1, l =>
    match parseJsonVal fuel l with
    | none => none
    | some (v, rest) =>
        match rest.dropWhile jsWs with
        | ',' :: r2 => (parseArrItems fuel r2).map (fun p => (v :: p.1, p.2))
        | ']' :: r2 => some ([v], r2)
        | _ => none

/-- Comma-separated `"key": value` fields, terminated by `'}'`. -/
def parseObjItems : Nat → Str → Option (List (Str × Json) × Str)
  | 0, _ => none
  | fuel + 1, l =>
    match l.dropWhile jsWs with
    | '"' :: r =>
        (match parseStrBody r with
         | none => none
         | some (k, r2) =>
             match r2.dropWhile jsWs with
             | ':' :: r3 =>
                 (match parseJsonVal fuel r3 with
                  | none => none
                  | some (v, r4) =>
                      match r4.dropWhile jsWs with
                      | ',' :: r5 => (parseObjItems fuel r5).map (fun p => ((k, v) :: p.1, p.2))
                      | '}' :: r5 => some ([(k, v)], r5)
                      | _ => none)
             | _ => none)
    | _ => none

end

/-- Model of `JSON.parse`: parse one value and require only whitespace to
remain. -/
def jsonParse (l : Str) : Option Json :=
  match parseJsonVal (l.length + 1) l with
  | some (j, rest) => if (rest.dropWhile jsWs).isEmpty then some j else none
  | none => none

/-- Association-list lookup keyed by task id (model of `Map.get`). -/
def alLookup {A : Type} (l : List (Nat × A)) (tid : Nat) : Option A :=
  (l.find? (fun p => p.1 == tid)).map (·.2)

/-- Association-list in-place value update (model of mutating the object
held in a `Map`). -/
def alUpdate {A : Type} (l : List (Nat × A)) (tid : Nat) (f : A → A) : List (Nat × A) :=
  l.map (fun p => if p.1 = tid then (p.1, f p.2) else p)

/-! ### Process Executor model (`src/executor/opencode-executor.ts`)

The executor is embedded as a deterministic step function over an explicit
state.  Environment behaviour (subprocess stdout/stderr chunks, process
`close`/`error` events, spawn success or failure, timer firings, the passage
of time) is supplied as labelled actions.  Task ids are modelled as the
values of a fresh counter (the source draws ids from a timestamp and
`Math.random`; only their uniqueness is relevant).  `TaskInfo` objects live
in a heap keyed by id, modelling the fact that the store, the queue and the
running-task table all alias one JavaScript object per task; fields not
inspected by any verified property (user/chat/message ids, model selection,
argument construction) are omitted. -/

inductive TStatus where
  | pending
  | running
  | completed
  | failed
  | cancelled
deriving DecidableEq

structure TaskInfo where
  id : Nat
  status : TStatus
  command : Str
  output : List Str
  progress : Option Str
  error : Option Str
  exitCode : Option Int
  opencodeSessionId : Option Str
  createdAt : Nat
  startedAt : Option Nat
  completedAt : Option Nat
  duration : Option Nat
deriving DecidableEq

/-- Per-running-task bookkeeping (the source's `RunningTask`, with the
process handle itself abstracted away and the idle timer represented by its
absolute deadline). -/
structure RMeta where
  startTime : Nat
  timeoutMs : Nat
  deadline : Option Nat
  finalized : Bool
  stdoutBuffer : Str
  lastProgressSignature : Str
  output : List Str
deriving DecidableEq

/-- Lifecycle events emitted by the executor (`task:*`). -/
inductive Event where
  | queued (tid : Nat)
  | started (tid : Nat)
  | session (tid : Nat) (sid : Str)
  | progress (tid : Nat) (text : Str)
  | completed (tid : Nat)
  | errored (tid : Nat) (msg : Str)
  | cancelled (tid : Nat) (reason : Str)
deriving DecidableEq

/-- The configuration slice the executor reads. -/
structure Cfg where
  maxConcurrentTasks : Nat
  timeout : Int
  progressStatusOnly : Bool
deriving DecidableEq

/-- Effective idle window: `Number.isFinite(t) && t > 0 ? Math.floor(t) : 0`. -/
def cfgTimeoutMs (cfg : Cfg) : Nat :=
  if cfg.timeout > 0 then cfg.timeout.toNat else 0

structure ExecState where
  cfg : Cfg
  maxConcurrent : Nat
  heap : List (Nat × TaskInfo)
  storeIds : List Nat
  queue : List Nat
  running : List (Nat × RMeta)
  runningCount : Nat
  nextId : Nat
  now : Nat
  events : List Event
deriving DecidableEq

/-- Constructor: `maxConcurrent = config.opencode.maxConcurrentTasks || 5`. -/
def initState (cfg : Cfg) : ExecState :=
  { cfg := cfg
    maxConcurrent := if cfg.maxConcurrentTasks = 0 then 5 else cfg.maxConcurrentTasks
    heap := []
    storeIds := []
    queue := []
    running := []
    runningCount := 0
    nextId := 0
    now := 0
    events := [] }

def lookupInfo (s : ExecState) (tid : Nat) : Option TaskInfo := alLookup s.heap tid

def lookupRt (s : ExecState) (tid : Nat) : Option RMeta := alLookup s.running tid

def runningIds (s : ExecState) : List Nat := s.running.map Prod.fst

def updateInfo (s : ExecState) (tid : Nat) (f : TaskInfo → TaskInfo) : ExecState :=
  { s with heap := alUpdate s.heap tid f }

def updateRt (s : ExecState) (tid : Nat) (f : RMeta → RMeta) : ExecState :=
  { s with running := alUpdate s.running tid f }

def emitE (s : ExecState) (e : Event) : ExecState :=
  { s with events := s.events ++ [e] }

/-- `pruneTaskStore`: evict oldest store keys beyond `MAX_TASK_STORE` (500). -/
def pruneTaskStore (l : List Nat) : List Nat := l.drop (l.length - 500)

/-- `markTaskActivity`: no-op once finalized or when the idle window is
disabled; otherwise rearm the single-shot idle timer. -/
def markTaskActivity (s : ExecState) (tid : Nat) : ExecState :=
  match lookupRt s tid with
  | none => s
  | some rt =>
      if rt.finalized || rt.timeoutMs = 0 then s
      else updateRt s tid (fun r => { r with deadline := some (s.now + r.timeoutMs) })

/-- `handleTaskOutput`: accumulate an output fragment and refresh the
`progress` field (truncated preview beyond 500 characters). -/
def handleTaskOutput (s : ExecState) (tid : Nat) (out : Str) : ExecState :=
  if out.isEmpty then s
  else
    let s1 := updateRt s tid (fun r => { r with output := r.output ++ [out] })
    updateInfo s1 tid (fun i =>
      { i with
        output := i.output ++ [out]
        progress := some (if out.length > 500 then out.take 500 ++ ".".toList ++ ".".toList ++ ".".toList else out) })

/-- `emitProgress`: whitespace-normalise, deduplicate against the previous
progress signature, and emit `task:progress`. -/
def emitProgress (s : ExecState) (tid : Nat) (text : Str) : ExecState :=
  let normalized := jsTrim (collapseWs text)
  if normalized.isEmpty then s
  else
    let signature := jsToLower normalized
    match lookupRt s tid with
    | none => s
    | some rt =>
        if signature == rt.lastProgressSignature then s
        else
          let s1 := updateRt s tid (fun r => { r with lastProgressSignature := signature })
          emitE s1 (Event.progress tid normalized)

/-- `extractStepKind`: `part.type`, lowercased. -/
def extractStepKind (parsed : Json) : Str :=
  match jstr? (jget parsed "part".toList >>= fun part => jget part "type".toList) with
  | some t => jsToLower t
  | none => []

def pickFirstString (values : List (Option Json)) : Option Str :=
  match values with
  | [] => none
  | v :: rest =>
      match jstr? v with
      | some sv => if (jsTrim sv).isEmpty then pickFirstString rest else some (jsTrim sv)
      | none => pickFirstString rest

def pickFirstDefined (values : List (Option Json)) : Option Json :=
  match values with
  | [] => none
  | some Json.null :: rest => pickFirstDefined rest
  | some v :: _ => some v
  | none :: rest => pickFirstDefined rest

/-- `summarizeToolInput`. -/
def summarizeToolInput (input : Option Json) : Option Str :=
  match input with
  | some (Json.str sv) =>
      let compact := jsTrim (collapseWs sv)
      if compact.isEmpty then none
      else if compact.length > 80 then some (compact.take 80 ++ "...".toList)
      else some compact
  | some (Json.obj fields) =>
      let knownKeys := ["command", "query", "pattern", "path", "file", "url", "name", "repo", "task"].map String.toList
      let fromKnown := knownKeys.foldl (fun acc key =>
        match acc with
        | some r => some r
        | none =>
            match jstr? (jget (Json.obj fields) key) with
            | some v =>
                let compactValue := jsTrim (collapseWs v)
                if compactValue.isEmpty then none
                else
                  let preview := if compactValue.length > 60 then compactValue.take 60 ++ "...".toList else compactValue
                  some (key ++ "=".toList ++ preview)
            | none => none) none
      match fromKnown with
      | some r => some r
      | none =>
          let keys := (fields.map (·.1)).take 3
          if keys.isEmpty then none
          else some ("参数: ".toList ++ jsJoin ", ".toList keys)
  | _ => none

/-- `extractToolUse`. -/
def extractToolUse (parsed : Json) : Option (Option Str × Str × Option Str) :=
  match jget parsed "part".toList with
  | none => none
  | some part =>
      match part with
      | Json.obj _ =>
          let state := match jget part "state".toList with
            | some (Json.obj fs) => some (Json.obj fs)
            | _ => none
          let tool := pickFirstString
            [jget part "title".toList, jget part "tool".toList, jget part "name".toList,
             state >>= fun st => jget st "title".toList,
             state >>= fun st => jget st "tool".toList,
             state >>= fun st => jget st "name".toList]
          let status := match pickFirstString [jget part "status".toList, state >>= fun st => jget st "status".toList] with
            | some sv => jsToLower sv
            | none => "running".toList
          let detail := summarizeToolInput (pickFirstDefined [jget part "input".toList, state >>= fun st => jget st "input".toList])
          some (tool, status, detail)
      | _ => none

/-- `extractSessionId`: top-level `sessionID`, else `part.sessionID`. -/
def extractSessionId (parsed : Json) : Option Str :=
  match jstr? (jget parsed "sessionID".toList) with
  | some direct => if (jsTrim direct).isEmpty then none else some (jsTrim direct)
  | none =>
      match jget parsed "part".toList with
      | some part =>
          match jstr? (jget part "sessionID".toList) with
          | some nested => if (jsTrim nested).isEmpty then none else some (jsTrim nested)
          | none => none
      | none => none

/-- `extractTextPart`: `type === 'text'` and nonblank `part.text` (returned
untrimmed). -/
def extractTextPart (parsed : Json) : Option Str :=
  match jstr? (jget parsed "type".toList) with
  | some t =>
      if t = "text".toList then
        match jget parsed "part".toList with
        | some part =>
            match jstr? (jget part "text".toList) with
            | some text => if (jsTrim text).isEmpty then none else some text
            | none => none
        | none => none
      else none
  | none => none

/-- `handleStructuredProgressEvent`: status-only progress strings for
`step_start` / `step_finish` / `tool_use` events. -/
def handleStructuredProgressEvent (s : ExecState) (tid : Nat) (parsed : Json) : ExecState :=
  if !s.cfg.progressStatusOnly then s
  else
    match jstr? (jget parsed "type".toList) with
    | none => s
    | some t =>
        if t.isEmpty then s
        else if t = "step_start".toList then
          let stepKind := extractStepKind parsed
          if stepKind = "reasoning".toList then emitProgress s tid "🧠 正在分析任务".toList
          else if stepKind = "tool".toList then emitProgress s tid "🛠️ 正在准备调用工具".toList
          else emitProgress s tid "🔄 正在处理步骤".toList
        else if t = "step_finish".toList then
          let stepKind := extractStepKind parsed
          if stepKind = "tool".toList then emitProgress s tid "✅ 工具步骤完成".toList
          else if stepKind = "reasoning".toList then emitProgress s tid "✅ 分析完成，正在整理结果".toList
          else emitProgress s tid "✅ 阶段执行完成".toList
        else if t = "tool_use".toList then
          match extractToolUse parsed with
          | none => emitProgress s tid "🛠️ 正在调用工具".toList
          | some (tool, status, detail) =>
              let toolLabel := tool.getD "工具".toList
              let suffix := match detail with
                | some d => "：".toList ++ d
                | none => []
              if status = "failed".toList || status = "error".toList || status = "cancelled".toList then
                emitProgress s tid ("⚠️ ".toList ++ toolLabel ++ " 调用异常".toList ++ suffix)
              else if status = "completed".toList || status = "success".toList || status = "done".toList then
                emitProgress s tid ("✅ ".toList ++ toolLabel ++ " 已完成".toList)
              else
                emitProgress s tid ("🛠️ 正在调用 ".toList ++ toolLabel ++ suffix)
        else s

/-- `handleStdoutLine`. -/
def handleStdoutLine (s : ExecState) (tid : Nat) (line : Str) : ExecState :=
  let trimmed := jsTrim line
  if trimmed.isEmpty then s
  else
    match jsonParse trimmed with
    | none => handleTaskOutput s tid trimmed
    | some parsed =>
        let s1 := handleStructuredProgressEvent s tid parsed
        let s2 :=
          match extractSessionId parsed with
          | some sessionId =>
              match lookupInfo s1 tid with
              | some info =>
                  if info.opencodeSessionId ≠ some sessionId then
                    emitE (updateInfo s1 tid (fun i => { i with opencodeSessionId := some sessionId }))
                      (Event.session tid sessionId)
                  else s1
              | none => s1
          | none => s1
        match extractTextPart parsed with
        | some text => handleTaskOutput s2 tid text
        | none => s2

/-- `handleTaskStdout`: buffer the chunk and process every complete line. -/
def handleTaskStdout (s : ExecState) (tid : Nat) (data : Str) : ExecState :=
  if data.isEmpty then s
  else
    match lookupRt s tid with
    | none => s
    | some rt =>
        let s1 := markTaskActivity s tid
        let pieces := splitNl (rt.stdoutBuffer ++ data)
        let complete := pieces.dropLast
        let remainder := (pieces.getLast?).getD []
        let s2 := updateRt s1 tid (fun r => { r with stdoutBuffer := remainder })
        complete.foldl (fun acc line => handleStdoutLine acc tid line) s2

/-- `handleTaskStderr`. -/
def handleTaskStderr (s : ExecState) (tid : Nat) (data : Str) : ExecState :=
  let s1 := markTaskActivity s tid
  let s2 := handleTaskOutput s1 tid data
  if s.cfg.progressStatusOnly then
    emitProgress s2 tid "⚠️ 收到错误输出，正在继续处理".toList
  else s2

/-- `flushStdoutBuffer`. -/
def flushStdoutBuffer (s : ExecState) (tid : Nat) : ExecState :=
  match lookupRt s tid with
  | none => s
  | some rt =>
      let remaining := jsTrim rt.stdoutBuffer
      let s1 := if remaining.length > 0 then handleStdoutLine s tid remaining else s
      updateRt s1 tid (fun r => { r with stdoutBuffer := [] })

/-- `cleanupTask`: drop the running entry and release the slot. -/
def cleanupTask (s : ExecState) (tid : Nat) : ExecState :=
  { s with
    running := s.running.filter (fun p => p.1 ≠ tid)
    runningCount := s.runningCount - 1 }

/-- `cancelTask`: no-op for ids not in the running table; otherwise mark
cancelled, emit `task:cancelled` immediately, and signal the process (the
signalling itself has no state-machine effect). -/
def cancelTask (s : ExecState) (tid : Nat) (reason : Str) : ExecState :=
  match lookupRt s tid with
  | none => s
  | some _ =>
      let s1 := updateInfo s tid (fun i =>
        { i with status := TStatus.cancelled, error := some ("Cancelled: ".toList ++ reason) })
      emitE s1 (Event.cancelled tid reason)

/-- Outcome argument of `finalizeTask`. -/
structure FinalizeParams where
  status : TStatus
  code : Option Int
  error : Option Str
deriving DecidableEq

/-- `startTask`: mark running, emit `task:started`, then spawn.  A spawn
failure immediately fails the task and releases the slot without queue
advancement; on success the running entry is created and the idle timer
armed. -/
def bumpCount (s : ExecState) : ExecState := { s with runningCount := s.runningCount + 1 }

/-- `Math.max(0, runningCount - 1)` (natural subtraction models the clamp). -/
def dropCount (s : ExecState) : ExecState := { s with runningCount := s.runningCount - 1 }

def pushRunning (s : ExecState) (tid : Nat) (rt : RMeta) : ExecState :=
  { s with running := s.running ++ [(tid, rt)] }

/-- The fresh `RunningTask` bookkeeping created by `startTask`. -/
def freshRMeta (s : ExecState) : RMeta :=
  { startTime := s.now
    timeoutMs := cfgTimeoutMs s.cfg
    deadline := none
    finalized := false
    stdoutBuffer := []
    lastProgressSignature := []
    output := [] }

def startTask (s : ExecState) (tid : Nat) (spawnOk : Bool) : ExecState :=
  match lookupInfo s tid with
  | none => s
  | some _ =>
      let s1 := updateInfo s tid (fun i => { i with status := TStatus.running, startedAt := some s.now })
      let s3 := emitE (bumpCount s1) (Event.started tid)
      if !spawnOk then
        let s4 := updateInfo s3 tid (fun i =>
          { i with
            status := TStatus.failed
            error := some "spawn failed".toList
            completedAt := some s3.now
            duration := some (s3.now - i.createdAt) })
        emitE (dropCount s4) (Event.errored tid "spawn failed".toList)
      else
        markTaskActivity (pushRunning s3 tid (freshRMeta s3)) tid

/-- `processQueue`: start the queue head if a slot is free. -/
def processQueue (s : ExecState) (spawnOk : Bool) : ExecState :=
  if s.queue.isEmpty || s.runningCount ≥ s.maxConcurrent then s
  else
    match s.queue with
    | [] => s
    | next :: rest => startTask { s with queue := rest } next spawnOk

/-- `finalizeTask`: idempotent terminal transition; emits the terminal event
(`task:completed` / `task:error`; cancellation was already announced by
`cancelTask`), releases the slot and advances the queue. -/
def finalizeTask (s : ExecState) (tid : Nat) (rt : RMeta) (p : FinalizeParams)
    (spawnOkNext : Bool) : ExecState :=
  if rt.finalized then s
  else
    let s1 := updateRt s tid (fun r => { r with finalized := true, deadline := none })
    let s2 := updateInfo s1 tid (fun i =>
      { i with
        completedAt := some s1.now
        duration := some (s1.now - rt.startTime)
        exitCode := match p.code with
          | some c => some c
          | none => i.exitCode })
    let s3 :=
      if p.status = TStatus.completed then
        emitE (updateInfo s2 tid (fun i => { i with status := TStatus.completed })) (Event.completed tid)
      else if p.status = TStatus.failed then
        let msg := p.error.getD "Unknown task error".toList
        emitE (updateInfo s2 tid (fun i => { i with status := TStatus.failed, error := some msg }))
          (Event.errored tid msg)
      else
        updateInfo s2 tid (fun i => { i with status := TStatus.cancelled })
    let s4 := cleanupTask s3 tid
    processQueue s4 spawnOkNext

/-- Decimal rendering of an exit code (`null` when absent), as interpolated
into the failure message. -/
def codeToStr : Option Int → Str
  | none => "null".toList
  | some c => if c < 0 then '-' :: natToStr c.natAbs else natToStr c.natAbs

/-- The `close` handler: flush buffered stdout, then finalize according to
the recorded status and exit code. -/
def procClose (s : ExecState) (tid : Nat) (code : Option Int) (spawnOkNext : Bool) : ExecState :=
  match lookupRt s tid with
  | none => s
  | some _ =>
      let s1 := flushStdoutBuffer s tid
      match lookupRt s1 tid, lookupInfo s1 tid with
      | some rt1, some info =>
          if info.status = TStatus.cancelled then
            finalizeTask s1 tid rt1 { status := TStatus.cancelled, code := code, error := none } spawnOkNext
          else if code = some 0 then
            finalizeTask s1 tid rt1 { status := TStatus.completed, code := code, error := none } spawnOkNext
          else
            finalizeTask s1 tid rt1
              { status := TStatus.failed, code := code,
                error := some ("Process exited with code ".toList ++ codeToStr code) } spawnOkNext
      | _, _ => s1

/-- The `error` handler: finalize as failed. -/
def procError (s : ExecState) (tid : Nat) (msg : Str) (spawnOkNext : Bool) : ExecState :=
  match lookupRt s tid with
  | none => s
  | some rt =>
      finalizeTask s tid rt { status := TStatus.failed, code := none, error := some msg } spawnOkNext

/-- The idle-timer callback: fires only at or past the armed deadline, checks
the task is still live, and cancels with the no-progress reason. -/
def timerFire (s : ExecState) (tid : Nat) : ExecState :=
  match lookupRt s tid with
  | none => s
  | some rt =>
      match rt.deadline with
      | none => s
      | some d =>
          if s.now < d then s
          else
            let s1 := updateRt s tid (fun r => { r with deadline := none })
            if rt.finalized then s1
            else cancelTask s1 tid "timeout_no_progress".toList

/-- Insert the freshly created task object into the store (with pruning) and
advance the id counter. -/
def registerTask (s : ExecState) (tid : Nat) (info : TaskInfo) : ExecState :=
  { s with
    nextId := tid + 1
    heap := s.heap ++ [(tid, info)]
    storeIds := pruneTaskStore (s.storeIds ++ [tid]) }

def pushQueue (s : ExecState) (tid : Nat) : ExecState :=
  { s with queue := s.queue ++ [tid] }

/-- `execute`: create the task record, store it, and either enqueue (at the
concurrency limit) or start it. -/
def execute (s : ExecState) (command : Str) (spawnOk : Bool) : ExecState :=
  let tid := s.nextId
  let info : TaskInfo :=
    { id := tid
      status := TStatus.pending
      command := command
      output := []
      progress := none
      error := none
      exitCode := none
      opencodeSessionId := none
      createdAt := s.now
      startedAt := none
      completedAt := none
      duration := none }
  let s1 := registerTask s tid info
  if s1.runningCount ≥ s1.maxConcurrent then
    emitE (pushQueue s1 tid) (Event.queued tid)
  else
    startTask s1 tid spawnOk

/-- Environment/driver actions. -/
inductive Act where
  | execute (command : Str) (spawnOk : Bool)
  | cancel (tid : Nat) (reason : Str)
  | stdoutChunk (tid : Nat) (data : Str)
  | stderrChunk (tid : Nat) (data : Str)
  | procError (tid : Nat) (msg : Str) (spawnOkNext : Bool)
  | procClose (tid : Nat) (code : Option Int) (spawnOkNext : Bool)
  | timerFire (tid : Nat)
  | tick (dt : Nat)
deriving DecidableEq

def step (s : ExecState) : Act → ExecState
  | Act.execute command spawnOk => execute s command spawnOk
  | Act.cancel tid reason => cancelTask s tid reason
  | Act.stdoutChunk tid data => handleTaskStdout s tid data
  | Act.stderrChunk tid data =>
      (match lookupRt s tid with
       | none => s
       | some _ => handleTaskStderr s tid data)
  | Act.procError tid msg spawnOkNext => procError s tid msg spawnOkNext
  | Act.procClose tid code spawnOkNext => procClose s tid code spawnOkNext
  | Act.timerFire tid => timerFire s tid
  | Act.tick dt => { s with now := s.now + dt }

/-- A run of the executor from a fresh instance. -/
def run (cfg : Cfg) (acts : List Act) : ExecState :=
  acts.foldl step (initState cfg)

/-- The watchdog cancellation reason string. -/
def timeoutReason : Str := "timeout_no_progress".toList

/-- Every armed idle-timer deadline lies strictly in the future, and only
tasks with a positive idle window ever have an armed deadline. -/
def DeadOk (s : ExecState) : Prop :=
  ∀ t rt d, lookupRt s t = some rt → rt.deadline = some d →
    s.now < d ∧ 0 < rt.timeoutMs

/-- No watchdog cancellation event is present. -/
def NoTO (evs : List Event) : Prop :=
  ∀ tid, Event.cancelled tid timeoutReason ∉ evs

/-- An environment action is "prompt" at the current state: a clock advance
never reaches an armed idle deadline (fresh output keeps arriving within the
idle window), and the environment never cancels with the watchdog's reserved
reason string. -/
def promptAct (s : ExecState) : Act → Bool
  | Act.tick dt => s.running.all (fun p =>
      match p.2.deadline with
      | none => true
      | some d => decide (s.now + dt < d))
  | Act.cancel _ reason => !(reason == timeoutReason)
  | _ => true

/-- Every action of a trace is prompt at the state where it is applied. -/
def promptTrace (s : ExecState) : List Act → Bool
  | [] => true
  | a :: rest => promptAct s a && promptTrace (step s a) rest

/-! ### Response formatter (`MessageHandler.toConciseResult` and helpers) -/

/-- Concise-result length budget (`CONCISE_MAX_LENGTH`). -/
def conciseMaxLength : Nat := 900

/-- Concise-result line budget (`CONCISE_MAX_LINES`). -/
def conciseMaxLines : Nat := 6

/-- Sentence-ending characters of the split pattern
`/(?<=[。！？!?\.])\s+/`. -/
def isSentenceEnder (c : Char) : Bool :=
  c = '。' || c = '！' || c = '？' || c = '!' || c = '?' || c = '.'

/-- Sentence splitting: a separator is a maximal whitespace run immediately
preceded by a sentence ender.  `prevEnder` records whether the previously
consumed character (still part of the current piece) is an ender; `inSep`
records that a separator run is being consumed. -/
def splitSentGo : Bool → Bool → Str → List Str
  | _, _, [] => [[]]
  | prevEnder, inSep, c :: cs =>
    if inSep && jsWs c then splitSentGo false true cs
    else if prevEnder && jsWs c then [] :: splitSentGo false true cs
    else
      match splitSentGo (isSentenceEnder c) false cs with
      | [] => [[c]]
      | p :: ps => (c :: p) :: ps

def splitSentences (l : Str) : List Str := splitSentGo false false l

/-- Test of `/^(\d+[.)]|[-*•])\s+/`. -/
def testListMarker (l : Str) : Bool :=
  let ds := l.takeWhile Char.isDigit
  if !ds.isEmpty then
    match l.drop ds.length with
    | c :: rest => (c = '.' || c = ')') && !(rest.takeWhile jsWs).isEmpty
    | [] => false
  else
    match l with
    | c :: rest => (c = '-' || c = '*' || c = '•') && !(rest.takeWhile jsWs).isEmpty
    | [] => false

/-- `replace(/^(\d+[.)]|[-*•])\s+/, '')`. -/
def stripListMarker (l : Str) : Str :=
  if testListMarker l then
    let ds := l.takeWhile Char.isDigit
    let rest := if ds.isEmpty then l.drop 1 else l.drop (ds.length + 1)
    rest.drop (rest.takeWhile jsWs).length
  else l

/-- Test of `/^#{1,maxN}\s+/` (backtracking over the hash count is immaterial
because any shorter hash prefix is followed by `'#'`, not whitespace). -/
def testHeading (maxN : Nat) (l : Str) : Bool :=
  let hs := l.takeWhile (fun c => c = '#')
  decide (1 ≤ hs.length) && decide (hs.length ≤ maxN) &&
    !((l.drop hs.length).takeWhile jsWs).isEmpty

/-- `replace(/^#{1,maxN}\s+/, '')`. -/
def stripHeading (maxN : Nat) (l : Str) : Str :=
  if testHeading maxN l then
    let rest := l.drop (l.takeWhile (fun c => c = '#')).length
    rest.drop (rest.takeWhile jsWs).length
  else l

/-- Line filter of the highlight scan:
`/^(\d+[.)]|[-*•])\s+/.test(line) || /^#{1,3}\s+/.test(line)`. -/
def isHighlightCandidate (line : Str) : Bool :=
  testListMarker line || testHeading 3 line

/-- `normalizeHighlightLine`. -/
def normalizeHighlightLine (line : Str) : Str :=
  let stripped := jsTrim (collapseWs (stripHeading 6 (stripListMarker line)))
  if stripped.isEmpty then []
  else if stripped.length ≤ 140 then stripped
  else stripped.take 140 ++ "...".toList

/-- The `push` closure of `extractHighlights`: normalise and deduplicate. -/
def highlightPush (hl : List Str) (value : Str) : List Str :=
  let normalized := normalizeHighlightLine value
  if normalized.isEmpty then hl
  else if hl.contains normalized then hl
  else hl ++ [normalized]

/-- First loop of `extractHighlights`: structured lines. -/
def highlightLinePhase (maxCount : Nat) : List Str → List Str → List Str
  | [], hl => hl
  | line :: rest, hl =>
      if hl.length ≥ maxCount then hl
      else highlightLinePhase maxCount rest
        (if isHighlightCandidate line then highlightPush hl line else hl)

/-- Second loop of `extractHighlights`: leading sentences. -/
def highlightSentencePhase (maxCount : Nat) : List Str → List Str → List Str
  | [], hl => hl
  | sentence :: rest, hl =>
      if hl.length ≥ maxCount then hl
      else highlightSentencePhase maxCount rest (highlightPush hl sentence)

/-- `extractHighlights`. -/
def extractHighlights (output : Str) (maxCount : Nat) : List Str :=
  if output.isEmpty then []
  else
    let lines := ((splitRn output).map jsTrim).filter (fun l => !l.isEmpty)
    let hl := highlightLinePhase maxCount lines []
    if hl.length ≥ maxCount then hl
    else
      let compact := jsTrim (collapseWs output)
      let sentences := ((splitSentences compact).map jsTrim).filter (fun l => !l.isEmpty)
      highlightSentencePhase maxCount sentences hl

/-- `highlights.map((line, index) => `${index + 1}. ${line}`)`. -/
def numberHighlights : Nat → List Str → List Str
  | _, [] => []
  | i, h :: t => (natToStr (i + 1) ++ ". ".toList ++ h) :: numberHighlights (i + 1) t

/-- `normalized.split('\n').map(trim).filter(Boolean)`. -/
def linesOf (normalized : Str) : List Str :=
  ((splitNl normalized).map jsTrim).filter (fun l => !l.isEmpty)

/-- Fallback loop of `toConciseResult`: first (at most) six distinct lines. -/
def uniqueLinesFold (maxCount : Nat) : List Str → List Str → List Str
  | [], acc => acc
  | line :: rest, acc =>
      let acc1 := if acc.contains line then acc else acc ++ [line]
      if acc1.length ≥ maxCount then acc1 else uniqueLinesFold maxCount rest acc1

/-- `toConciseResult`. -/
def toConciseResult (text : Str) : Str :=
  let normalized := jsTrim text
  if normalized.isEmpty then []
  else
    let lines := linesOf normalized
    if normalized.length ≤ conciseMaxLength && lines.length ≤ conciseMaxLines then normalized
    else
      let highlights := extractHighlights normalized conciseMaxLines
      if !highlights.isEmpty then
        jsJoin ['\n'] (numberHighlights 0 highlights)
      else
        let fallback := jsTrim (jsJoin ['\n'] (uniqueLinesFold conciseMaxLines lines []))
        if fallback.isEmpty then
          if normalized.length > conciseMaxLength then normalized.take conciseMaxLength ++ "...".toList
          else normalized
        else
          if fallback.length > conciseMaxLength then fallback.take conciseMaxLength ++ "...".toList
          else fallback

/-! ### Intent classification (`classifyIntent` / `parseIntentClassification`) -/

inductive IntentLabel where
  | chat
  | task
deriving DecidableEq

structure IntentResult where
  label : IntentLabel
  confidence : ℚ
  raw : Str
deriving DecidableEq

/-- Effective classification timeout:
`Math.max(3000, config.opencode.intentRoutingTimeout || 15000)` (`||`
replaces the falsy `0`). -/
def intentEffectiveTimeout (configured : Int) : Int :=
  max 3000 (if configured = 0 then 15000 else configured)

/-- `extractTextFromJsonEvents`. -/
def extractTextFromJsonEvents (rawOutput : Str) : Str :=
  let lines := ((splitRn rawOutput).map jsTrim).filter (fun l => !l.isEmpty)
  if lines.isEmpty then []
  else
    let textChunks := lines.foldl (fun acc line =>
      match jsonParse line with
      | some parsed =>
          match extractTextPart parsed with
          | some text => acc ++ [text]
          | none => acc
      | none => acc ++ [line]) []
    jsTrim (jsJoin ['\n'] textChunks)

/-- Global case-insensitive removal of a fixed pattern
(`replace(/pat/gi, '')`), fuel-indexed by the input length. -/
def removeAllCIGo (pat : Str) : Nat → Str → Str
  | _, [] => []
  | 0, l => l
  | fuel + 1, c :: cs =>
      if jsToLower ((c :: cs).take pat.length) == jsToLower pat then
        removeAllCIGo pat fuel ((c :: cs).drop pat.length)
      else c :: removeAllCIGo pat fuel cs

def removeAllCI (pat l : Str) : Str := removeAllCIGo pat l.length l

/-- `cleaned.match(/\{[\s\S]*\}/)`: greedy, so the match runs from the first
`'{'` to the last `'}'` (when one follows); otherwise no match. -/
def braceSliceCandidate (cleaned : Str) : Str :=
  match cleaned.findIdx? (fun c => c = '{') with
  | none => cleaned
  | some start =>
      let rest := cleaned.drop start
      match rest.reverse.findIdx? (fun c => c = '}') with
      | none => cleaned
      | some backIdx => rest.take (rest.length - backIdx)

/-- Host `String()` rendering of a JSON value, as fed to `parseFloat` for a
non-number `confidence`; arrays are rendered opaquely (only finiteness of the
parse result is relevant to any verified property). -/
def jsStringOfJson : Json → Str
  | Json.null => "null".toList
  | Json.bool true => "true".toList
  | Json.bool false => "false".toList
  | Json.str s => s
  | Json.num _ => []
  | Json.arr _ => "[array]".toList
  | Json.obj _ => "[object Object]".toList

/-- Host `parseFloat` on a rendered value (`none` = `NaN`); leading
whitespace skipped, trailing garbage ignored. -/
def parseFloatStr (l : Str) : Option ℚ :=
  match parseNumLit (l.dropWhile jsWs) with
  | some (q, _) => some q
  | none => none

/-- `parseFloat(String(confidenceRaw ?? '0.5'))`. -/
def parseFloatOfJson : Option Json → Option ℚ
  | none => some (1 / 2)
  | some Json.null => some (1 / 2)
  | some j => parseFloatStr (jsStringOfJson j)

/-- `parseIntentClassification`. -/
def parseIntentClassification (rawText : Str) : Option IntentResult :=
  if rawText.isEmpty then none
  else
    let cleaned := jsTrim (removeAllCI "```".toList (removeAllCI "```json".toList rawText))
    let candidate := braceSliceCandidate cleaned
    match jsonParse candidate with
    | some parsed =>
        let labelRaw := match jstr? (jget parsed "label".toList) with
          | some sv => jsToLower sv
          | none => []
        if labelRaw ≠ "chat".toList ∧ labelRaw ≠ "task".toList then none
        else
          let confidenceValue : Option ℚ :=
            match jget parsed "confidence".toList with
            | some (Json.num q) => some q
            | other => parseFloatOfJson other
          let confidence : ℚ :=
            match confidenceValue with
            | some v => max 0 (min 1 v)
            | none => 1 / 2
          some { label := if labelRaw = "chat".toList then IntentLabel.chat else IntentLabel.task
                 confidence := confidence
                 raw := cleaned }
    | none =>
        let lower := jsToLower cleaned
        if strIncludes lower "chat".toList && !strIncludes lower "task".toList then
          some { label := IntentLabel.chat, confidence := 3 / 5, raw := cleaned }
        else if strIncludes lower "task".toList || strIncludes lower "任务".toList then
          some { label := IntentLabel.task, confidence := 3 / 5, raw := cleaned }
        else none

/-- The possible environment outcomes of one `classifyIntent` invocation. -/
inductive IntentOutcome where
  | spawnFail (msg : Str)
  | timedOut
  | procErr (msg : Str)
  | close (code : Option Int) (stdout : Str) (stderr : Str)

/-- `classifyIntent`: the settled result as a function of the environment
outcome of the single-shot invocation. -/
def classifyIntent (out : IntentOutcome) : IntentResult :=
  match out with
  | IntentOutcome.spawnFail msg => { label := IntentLabel.task, confidence := 0, raw := msg }
  | IntentOutcome.timedOut => { label := IntentLabel.task, confidence := 0, raw := "timeout".toList }
  | IntentOutcome.procErr msg => { label := IntentLabel.task, confidence := 0, raw := msg }
  | IntentOutcome.close _ stdout stderr =>
      let extractedText := extractTextFromJsonEvents stdout
      match parseIntentClassification extractedText with
      | some parsed => parsed
      | none =>
          { label := IntentLabel.task
            confidence := 0
            raw := if extractedText.isEmpty then jsTrim stderr else extractedText }

/-! ### Bridge session maps (orchestrator; `/new` and `/model reset`) -/

structure BridgeState where
  opencodeSessionByBridgeSession : Str → Option Str
  sessionModelByBridgeSession : Str → Option Str
  lastKnownModelByBridgeSession : Str → Option Str
  pendingFilesBySession : Str → Option (List Str)

def mapDelete {α : Type} (m : Str → Option α) (k : Str) : Str → Option α :=
  fun x => if x = k then none else m x

/-- `resetBridgeSession` (the `/new` path): clears the stored
agent-conversation id and the pending-file queue; the physical file deletion
is a filesystem side effect outside the state model. -/
def resetBridgeSession (st : BridgeState) (sessionId : Str) : BridgeState :=
  { st with
    opencodeSessionByBridgeSession := mapDelete st.opencodeSessionByBridgeSession sessionId
    pendingFilesBySession := mapDelete st.pendingFilesBySession sessionId }

/-- The `action === 'reset'` branch of `handleModelCommand`
(`/model reset`). -/
def handleModelReset (st : BridgeState) (sessionId : Str) : BridgeState :=
  { st with
    sessionModelByBridgeSession := mapDelete st.sessionModelByBridgeSession sessionId
    lastKnownModelByBridgeSession := mapDelete st.lastKnownModelByBridgeSession sessionId
    opencodeSessionByBridgeSession := mapDelete st.opencodeSessionByBridgeSession sessionId }

/-- JavaScript `a || b` on optional strings (empty string is falsy). -/
def jsOrStr (a b : Option Str) : Option Str :=
  match a with
  | some v => if v.isEmpty then b else some v
  | none => b

/-- `resolvePreferredModelForSession`. -/
def resolvePreferredModelForSession (st : BridgeState) (sessionId : Str) : Option Str :=
  jsOrStr (st.sessionModelByBridgeSession sessionId) (st.lastKnownModelByBridgeSession sessionId)

/-! ### Event classification and executor invariants -/

/-- Is `e` a completion/failure terminal event for task `tid`?  (Cancelled
events are emitted by `cancelTask`, outside `finalizeTask`, and are treated
separately.) -/
def isCE (tid : Nat) : Event → Bool
  | Event.completed t => t == tid
  | Event.errored t _ => t == tid
  | _ => false

def hasCE (tid : Nat) (evs : List Event) : Bool := evs.any (isCE tid)

def countCE (tid : Nat) (evs : List Event) : Nat := (evs.filter (isCE tid)).length

/-- Is `e` an event about task `tid` (of any kind)? -/
def eventFor (tid : Nat) : Event → Bool
  | Event.queued t => t == tid
  | Event.started t => t == tid
  | Event.session t _ => t == tid
  | Event.progress t _ => t == tid
  | Event.completed t => t == tid
  | Event.errored t _ => t == tid
  | Event.cancelled t _ => t == tid

/-- Number of `task:progress` events for `tid`. -/
def countProgress (tid : Nat) (evs : List Event) : Nat :=
  (evs.filter (fun e => match e with
    | Event.progress t _ => t == tid
    | _ => false)).length

/-- Number of terminal events (completed, failed or cancelled) for `tid`. -/
def countTerminal (tid : Nat) (evs : List Event) : Nat :=
  (evs.filter (fun e => match e with
    | Event.completed t => t == tid
    | Event.errored t _ => t == tid
    | Event.cancelled t _ => t == tid
    | _ => false)).length

/-- Frame of the stdout/stderr output layer acting on task `tid`: everything
but that task's volatile output fields is untouched, and only `session` /
`progress` events for `tid` are appended. -/
structure Frame (tid : Nat) (s s' : ExecState) : Prop where
  cfg : s'.cfg = s.cfg
  maxC : s'.maxConcurrent = s.maxConcurrent
  queue : s'.queue = s.queue
  count : s'.runningCount = s.runningCount
  nextId : s'.nextId = s.nextId
  now : s'.now = s.now
  storeIds : s'.storeIds = s.storeIds
  heapIds : s'.heap.map Prod.fst = s.heap.map Prod.fst
  runIds : s'.running.map Prod.fst = s.running.map Prod.fst
  status : ∀ t, (lookupInfo s' t).map TaskInfo.status = (lookupInfo s t).map TaskInfo.status
  rtMeta : ∀ t, (lookupRt s' t).map (fun rt => (rt.finalized, rt.timeoutMs, rt.deadline)) =
    (lookupRt s t).map (fun rt => (rt.finalized, rt.timeoutMs, rt.deadline))
  events : ∃ delta, s'.events = s.events ++ delta ∧
    ∀ e ∈ delta, (∃ sid, e = Event.session tid sid) ∨ (∃ x, e = Event.progress tid x)

/-- Weak frame: as `Frame` but allowing the idle-timer deadline of `tid` to
move (this is what `markTaskActivity` does). -/
structure FrameW (tid : Nat) (s s' : ExecState) : Prop where
  cfg : s'.cfg = s.cfg
  maxC : s'.maxConcurrent = s.maxConcurrent
  queue : s'.queue = s.queue
  count : s'.runningCount = s.runningCount
  nextId : s'.nextId = s.nextId
  now : s'.now = s.now
  storeIds : s'.storeIds = s.storeIds
  heapIds : s'.heap.map Prod.fst = s.heap.map Prod.fst
  runIds : s'.running.map Prod.fst = s.running.map Prod.fst
  status : ∀ t, (lookupInfo s' t).map TaskInfo.status = (lookupInfo s t).map TaskInfo.status
  rtMeta : ∀ t, (lookupRt s' t).map (fun rt => (rt.finalized, rt.timeoutMs)) =
    (lookupRt s t).map (fun rt => (rt.finalized, rt.timeoutMs))
  events : ∃ delta, s'.events = s.events ++ delta ∧
    ∀ e ∈ delta, (∃ sid, e = Event.session tid sid) ∨ (∃ x, e = Event.progress tid x)

/-- The reachable-state invariant of the executor. -/
structure ExecInv (s : ExecState) : Prop where
  countEq : s.runningCount = s.running.length
  countLe : s.running.length ≤ s.maxConcurrent
  runNodup : (runningIds s).Nodup
  queueNodup : s.queue.Nodup
  disj : ∀ tid ∈ s.queue, tid ∉ runningIds s
  runFresh : ∀ tid ∈ runningIds s, tid < s.nextId
  queueFresh : ∀ tid ∈ s.queue, tid < s.nextId
  heapFresh : ∀ t ∈ s.heap.map Prod.fst, t < s.nextId
  heapNodup : (s.heap.map Prod.fst).Nodup
  runInHeap : ∀ tid ∈ runningIds s, (lookupInfo s tid).isSome = true
  queueInHeap : ∀ tid ∈ s.queue, (lookupInfo s tid).isSome = true
  rtTimeout : ∀ t rt, lookupRt s t = some rt → rt.timeoutMs = cfgTimeoutMs s.cfg
  rtNotFinal : ∀ t rt, lookupRt s t = some rt → rt.finalized = false
  ceGone : ∀ tid, hasCE tid s.events = true →
    tid < s.nextId ∧ tid ∉ runningIds s ∧ tid ∉ s.queue

/-! ### Generic facts about the string primitives -/

theorem head?_dropWhile_not (p : Char → Bool) (l : Str) (c : Char)
    (h : (l.dropWhile p).head? = some c) : p c = false := by
  induction l with
  | nil => simp at h
  | cons a as ih =>
      by_cases hp : p a
      · rw [List.dropWhile_cons_of_pos hp] at h; exact ih h
      · rw [List.dropWhile_cons_of_neg hp] at h
        simp at h
        rw [← h]
        simp [hp]

theorem head?_of_isPrefix {l m : Str} {c : Char} (hp : l <+: m)
    (h : l.head? = some c) : m.head? = some c := by
  rcases hp with ⟨t, rfl⟩
  cases l with
  | nil => simp at h
  | cons a as => simpa using h

theorem jsTrim_prefix_dropWhile (l : Str) : jsTrim l <+: l.dropWhile jsWs :=
  List.rdropWhile_prefix jsWs (l.dropWhile jsWs)

theorem jsTrim_sublist (l : Str) : List.Sublist (jsTrim l) l :=
  ((jsTrim_prefix_dropWhile l).sublist).trans (List.dropWhile_suffix jsWs).sublist

/-- A nonempty trimmed string starts with a non-whitespace character. -/
theorem jsTrim_head_not_ws (l : Str) (c : Char) (h : (jsTrim l).head? = some c) :
    jsWs c = false :=
  head?_dropWhile_not jsWs l c (head?_of_isPrefix (jsTrim_prefix_dropWhile l) h)

/-- A nonempty trimmed string ends with a non-whitespace character. -/
theorem jsTrim_getLast_not_ws (l : Str) (c : Char) (h : (jsTrim l).getLast? = some c) :
    jsWs c = false := by
  have hne : jsTrim l ≠ [] := by
    intro hnil; rw [hnil] at h; simp at h
  have hlast : ¬ jsWs ((jsTrim l).getLast hne) = true :=
    List.rdropWhile_last_not jsWs (l.dropWhile jsWs) hne
  rw [List.getLast?_eq_getLast _ hne] at h
  have : (jsTrim l).getLast hne = c := by injection h
  rw [this] at hlast
  simpa using hlast

theorem jsTrim_eq_self (l : Str)
    (h1 : ∀ c, l.head? = some c → jsWs c = false)
    (h2 : ∀ c, l.getLast? = some c → jsWs c = false) :
    jsTrim l = l := by
  unfold jsTrim
  have hdw : l.dropWhile jsWs = l := by
    rw [List.dropWhile_eq_self_iff]
    intro hl
    have : l.head? = some (l.get ⟨0, hl⟩) := by
      cases l with
      | nil => simp at hl
      | cons a as => rfl
    simpa using h1 _ this
  rw [hdw, List.rdropWhile_eq_self_iff]
  intro hl
  have : l.getLast? = some (l.getLast hl) := List.getLast?_eq_getLast _ hl
  simpa using h2 _ this

/-- `jsTrim` is idempotent. -/
theorem jsTrim_idem (l : Str) : jsTrim (jsTrim l) = jsTrim l :=
  jsTrim_eq_self _ (jsTrim_head_not_ws l) (jsTrim_getLast_not_ws l)

theorem jsTrim_nil : jsTrim [] = [] := rfl

/-- `jsTrim l` is empty exactly when `l` is all whitespace. -/
theorem jsTrim_eq_nil_iff (l : Str) : jsTrim l = [] ↔ ∀ c ∈ l, jsWs c = true := by
  unfold jsTrim
  rw [List.rdropWhile_eq_nil_iff]
  constructor
  · intro h c hc
    have hsplit : l.takeWhile jsWs ++ l.dropWhile jsWs = l :=
      List.takeWhile_append_dropWhile jsWs l
    rw [← hsplit] at hc
    rcases List.mem_append.mp hc with h1 | h2
    · exact List.mem_takeWhile_imp h1
    · exact h c h2
  · intro h c hc
    exact h c ((List.dropWhile_suffix jsWs).subset hc)

theorem collapseWsGo_cons_ws_true (a : Char) (as : Str) (h : jsWs a = true) :
    collapseWsGo true (a :: as) = collapseWsGo true as := by
  simp [collapseWsGo, h]

theorem collapseWsGo_cons_ws_false (a : Char) (as : Str) (h : jsWs a = true) :
    collapseWsGo false (a :: as) = ' ' :: collapseWsGo true as := by
  simp [collapseWsGo, h]

theorem collapseWsGo_cons_not_ws (b : Bool) (a : Char) (as : Str) (h : jsWs a = false) :
    collapseWsGo b (a :: as) = a :: collapseWsGo false as := by
  simp [collapseWsGo, h]

/-- Every character of the collapsed string is either a space or a
non-whitespace character of the original. -/
theorem collapseWsGo_mem (b : Bool) (l : Str) :
    ∀ c ∈ collapseWsGo b l, c = ' ' ∨ (c ∈ l ∧ jsWs c = false) := by
  induction l generalizing b with
  | nil => intro c hc; simp [collapseWsGo] at hc
  | cons a as ih =>
      intro c hc
      by_cases hws : jsWs a
      · have hc' : c ∈ collapseWsGo true as ∨ c = ' ' := by
          rcases Bool.eq_false_or_eq_true b with hb | hb <;> subst hb
          · rw [collapseWsGo_cons_ws_true a as hws] at hc
            exact Or.inl hc
          · rw [collapseWsGo_cons_ws_false a as hws] at hc
            rcases List.mem_cons.mp hc with rfl | hm
            · exact Or.inr rfl
            · exact Or.inl hm
        rcases hc' with hm | rfl
        · rcases ih true c hm with h | ⟨hmem, hn⟩
          · exact Or.inl h
          · exact Or.inr ⟨List.mem_cons_of_mem a hmem, hn⟩
        · exact Or.inl rfl
      · rw [collapseWsGo_cons_not_ws b a as (by simpa using hws)] at hc
        rcases List.mem_cons.mp hc with heq | hc'
        · rw [heq]
          exact Or.inr ⟨List.mem_cons_self a as, by simpa using hws⟩
        · rcases ih false c hc' with h | ⟨hm, hn⟩
          · exact Or.inl h
          · exact Or.inr ⟨List.mem_cons_of_mem a hm, hn⟩

/-- Collapsing whitespace never produces a newline. -/
theorem collapseWs_no_nl (l : Str) : '\n' ∉ collapseWs l := by
  intro h
  rcases collapseWsGo_mem false l '\n' h with h1 | ⟨_, h2⟩
  · exact absurd h1 (by decide)
  · exact absurd h2 (by decide)

/-- Collapsing whitespace preserves the existence of a non-whitespace
character. -/
theorem collapseWsGo_exists (b : Bool) (l : Str)
    (h : ∃ c ∈ l, jsWs c = false) : ∃ c ∈ collapseWsGo b l, jsWs c = false := by
  induction l generalizing b with
  | nil => rcases h with ⟨c, hc, _⟩; simp at hc
  | cons a as ih =>
      by_cases hws : jsWs a
      · have h' : ∃ c ∈ as, jsWs c = false := by
          rcases h with ⟨c, hc, hn⟩
          rcases List.mem_cons.mp hc with rfl | hc'
          · rw [hws] at hn; simp at hn
          · exact ⟨c, hc', hn⟩
        rcases ih true h' with ⟨c, hc, hn⟩
        rcases Bool.eq_false_or_eq_true b with hb | hb <;> subst hb
        · rw [collapseWsGo_cons_ws_true a as hws]
          exact ⟨c, hc, hn⟩
        · rw [collapseWsGo_cons_ws_false a as hws]
          exact ⟨c, List.mem_cons_of_mem _ hc, hn⟩
      · rw [collapseWsGo_cons_not_ws b a as (by simpa using hws)]
        exact ⟨a, List.mem_cons_self a _, by simpa using hws⟩

/-- `splitNl` always yields at least one piece. -/
theorem splitNl_ne_nil (l : Str) : splitNl l ≠ [] := by
  cases l with
  | nil => simp [splitNl]
  | cons c cs =>
      by_cases h : c = '\n'
      · simp [splitNl, h]
      · simp only [splitNl, if_neg h]
        cases splitNl cs <;> simp

theorem splitNl_cons_not_nl (c : Char) (cs : Str) (h : c ≠ '\n') :
    splitNl (c :: cs) =
      match splitNl cs with
      | [] => [[c]]
      | p :: ps => (c :: p) :: ps := by
  simp [splitNl, h]

/-- A newline-free string is a single piece. -/
theorem splitNl_no_nl (l : Str) (h : '\n' ∉ l) : splitNl l = [l] := by
  induction l with
  | nil => rfl
  | cons c cs ih =>
      have hc : c ≠ '\n' := fun hc => h (hc ▸ List.mem_cons_self c cs)
      have hcs : '\n' ∉ cs := fun hm => h (List.mem_cons_of_mem c hm)
      rw [splitNl_cons_not_nl c cs hc, ih hcs]

theorem splitNl_append (x r : Str) (hx : '\n' ∉ x) :
    splitNl (x ++ '\n' :: r) = x :: splitNl r := by
  induction x with
  | nil => simp [splitNl]
  | cons c cs ih =>
      have hc : c ≠ '\n' := fun hc => hx (hc ▸ List.mem_cons_self c cs)
      have hcs : '\n' ∉ cs := fun hm => hx (List.mem_cons_of_mem c hm)
      rw [List.cons_append, splitNl_cons_not_nl c _ hc, ih hcs]

theorem jsJoin_cons_cons (sep x y : Str) (t : List Str) :
    jsJoin sep (x :: y :: t) = x ++ sep ++ jsJoin sep (y :: t) := rfl

/-- Splitting a newline-join of newline-free pieces recovers the pieces. -/
theorem splitNl_jsJoin (ps : List Str) (h : ∀ p ∈ ps, '\n' ∉ p) (hne : ps ≠ []) :
    splitNl (jsJoin ['\n'] ps) = ps := by
  induction ps with
  | nil => exact absurd rfl hne
  | cons x xs ih =>
      cases xs with
      | nil => exact splitNl_no_nl x (h x (List.mem_cons_self x []))
      | cons y t =>
          rw [jsJoin_cons_cons]
          have : x ++ ['\n'] ++ jsJoin ['\n'] (y :: t) = x ++ '\n' :: jsJoin ['\n'] (y :: t) := by
            simp
          rw [this, splitNl_append _ _ (h x (List.mem_cons_self x _))]
          rw [ih (fun p hp => h p (List.mem_cons_of_mem x hp)) (by simp)]

/-- Crude length bound for a join: each piece at most `m` characters. -/
theorem jsJoin_length_le (sep : Str) (ps : List Str) (m : Nat)
    (h : ∀ p ∈ ps, p.length ≤ m) :
    (jsJoin sep ps).length ≤ ps.length * (m + sep.length) := by
  induction ps with
  | nil => simp [jsJoin]
  | cons x xs ih =>
      cases xs with
      | nil =>
          have := h x (List.mem_cons_self x [])
          simpa [jsJoin] using this.trans (Nat.le_add_right m sep.length)
      | cons y t =>
          rw [jsJoin_cons_cons]
          have hx := h x (List.mem_cons_self x _)
          have ht := ih (fun p hp => h p (List.mem_cons_of_mem x hp))
          simp only [List.length_append, List.length_cons]
          calc x.length + sep.length + (jsJoin sep (y :: t)).length
              ≤ (m + sep.length) + (y :: t).length * (m + sep.length) := by
                omega
            _ = ((y :: t).length + 1) * (m + sep.length) := by ring
            _ = (y :: t).length.succ * (m + sep.length) := by rfl

theorem jsJoin_head? (sep x : Str) (xs : List Str) (hx : x ≠ []) :
    (jsJoin sep (x :: xs)).head? = x.head? := by
  cases xs with
  | nil => rfl
  | cons y t =>
      rw [jsJoin_cons_cons, List.append_assoc]
      exact List.head?_append_of_ne_nil _ hx

/-- The last piece is a suffix of the join. -/
theorem jsJoin_last_suffix (sep : Str) :
    ∀ (ps : List Str) (hne : ps ≠ []), (ps.getLast hne) <:+ jsJoin sep ps := by
  intro ps
  induction ps with
  | nil => intro h; exact absurd rfl h
  | cons x xs ih =>
      intro hne
      cases xs with
      | nil => simp [jsJoin]
      | cons y t =>
          rw [jsJoin_cons_cons]
          have h2 := ih (by simp)
          rw [List.getLast_cons (by simp : (y :: t) ≠ [])]
          exact h2.trans (List.suffix_append _ _)

theorem jsJoin_getLast? (sep : Str) (ps : List Str) (hne : ps ≠ [])
    (hlast : ps.getLast hne ≠ []) :
    (jsJoin sep ps).getLast? = (ps.getLast hne).getLast? := by
  rcases jsJoin_last_suffix sep ps hne with ⟨pre, hpre⟩
  rw [← hpre]
  exact List.getLast?_append_of_ne_nil _ hlast

/-! ### Claim C8: session reset vs. model reset -/

/-- Confidence bound for any successfully parsed classification. -/
theorem parseIntent_confidence_bounds (rawText : Str) (r : IntentResult)
    (h : parseIntentClassification rawText = some r) :
    0 ≤ r.confidence ∧ r.confidence ≤ 1 := by
  unfold parseIntentClassification at h
  by_cases hraw : rawText.isEmpty
  · rw [if_pos hraw] at h; exact absurd h (by simp)
  · rw [if_neg hraw] at h
    simp only [] at h
    split at h
    · split at h
      · exact absurd h (by simp)
      · rcases Option.some.inj h with rfl
        simp only []
        split
        · constructor
          · exact le_max_left 0 _
          · exact max_le (by norm_num) (min_le_left 1 _)
        · norm_num
    · split at h
      · rcases Option.some.inj h with rfl
        norm_num
      · split at h
        · rcases Option.some.inj h with rfl
          norm_num
        · exact absurd h (by simp)

/-- C8: for a (user, chat) pair, `/new` (`resetBridgeSession`) clears the
stored agent-conversation id but leaves the per-session model preference
(and the resolved preferred model) unchanged, while `/model reset` clears
the model preference, the last-known model and the agent-conversation id. -/
theorem c8_session_reset_scope (st : BridgeState) (sessionId : Str) :
    (resetBridgeSession st sessionId).opencodeSessionByBridgeSession sessionId = none ∧
    (∀ k, (resetBridgeSession st sessionId).sessionModelByBridgeSession k =
      st.sessionModelByBridgeSession k) ∧
    (∀ k, (resetBridgeSession st sessionId).lastKnownModelByBridgeSession k =
      st.lastKnownModelByBridgeSession k) ∧
    (∀ k, resolvePreferredModelForSession (resetBridgeSession st sessionId) k =
      resolvePreferredModelForSession st k) ∧
    (handleModelReset st sessionId).sessionModelByBridgeSession sessionId = none ∧
    (handleModelReset st sessionId).lastKnownModelByBridgeSession sessionId = none ∧
    (handleModelReset st sessionId).opencodeSessionByBridgeSession sessionId = none ∧
    resolvePreferredModelForSession (handleModelReset st sessionId) sessionId = none := by
  refine ⟨by simp [resetBridgeSession, mapDelete], fun k => rfl, fun k => rfl, fun k => rfl,
    by simp [handleModelReset, mapDelete], by simp [handleModelReset, mapDelete],
    by simp [handleModelReset, mapDelete], ?_⟩
  simp [resolvePreferredModelForSession, handleModelReset, mapDelete, jsOrStr]

/-! ### Claim C6: classifyIntent fails soft, timeout floor, clamped result -/

/-- C6: every failure mode of `classifyIntent` (spawn failure, timeout,
process error, unparsable output) yields `label = task, confidence = 0`; the
effective timeout never drops below the 3000 ms floor; and every result has
confidence within `[0, 1]` and a label that is `chat` or `task`. -/
theorem c6_classify_intent_soft_fail :
    (∀ msg, (classifyIntent (IntentOutcome.spawnFail msg)).label = IntentLabel.task ∧
      (classifyIntent (IntentOutcome.spawnFail msg)).confidence = 0) ∧
    ((classifyIntent IntentOutcome.timedOut).label = IntentLabel.task ∧
      (classifyIntent IntentOutcome.timedOut).confidence = 0) ∧
    (∀ msg, (classifyIntent (IntentOutcome.procErr msg)).label = IntentLabel.task ∧
      (classifyIntent (IntentOutcome.procErr msg)).confidence = 0) ∧
    (∀ code stdout stderr,
      parseIntentClassification (extractTextFromJsonEvents stdout) = none →
      (classifyIntent (IntentOutcome.close code stdout stderr)).label = IntentLabel.task ∧
      (classifyIntent (IntentOutcome.close code stdout stderr)).confidence = 0) ∧
    (∀ configured : Int, 3000 ≤ intentEffectiveTimeout configured) ∧
    (∀ out, 0 ≤ (classifyIntent out).confidence ∧ (classifyIntent out).confidence ≤ 1 ∧
      ((classifyIntent out).label = IntentLabel.chat ∨ (classifyIntent out).label = IntentLabel.task)) := by
  refine ⟨fun msg => ⟨rfl, rfl⟩, ⟨rfl, rfl⟩, fun msg => ⟨rfl, rfl⟩, ?_, ?_, ?_⟩
  · intro code stdout stderr h
    constructor <;> simp [classifyIntent, h]
  · intro configured
    exact le_max_left 3000 _
  · intro out
    cases out with
    | spawnFail msg => exact ⟨by norm_num [classifyIntent], by norm_num [classifyIntent], Or.inr rfl⟩
    | timedOut => exact ⟨by norm_num [classifyIntent], by norm_num [classifyIntent], Or.inr rfl⟩
    | procErr msg => exact ⟨by norm_num [classifyIntent], by norm_num [classifyIntent], Or.inr rfl⟩
    | close code stdout stderr =>
        rcases hp : parseIntentClassification (extractTextFromJsonEvents stdout) with _ | r
        · refine ⟨?_, ?_, Or.inr ?_⟩ <;> simp [classifyIntent, hp]
        · have hb := parseIntent_confidence_bounds _ _ hp
          refine ⟨?_, ?_, ?_⟩
          · simpa [classifyIntent, hp] using hb.1
          · simpa [classifyIntent, hp] using hb.2
          · have : (classifyIntent (IntentOutcome.close code stdout stderr)).label = r.label := by
              simp [classifyIntent, hp]
            rw [this]
            cases r.label
            · exact Or.inl rfl
            · exact Or.inr rfl

/-- Witness: the soft-fail conjunct of C6 applied at concrete unparsable
output. -/
theorem c6_classify_intent_soft_fail_witness :
    (classifyIntent (IntentOutcome.close (some 0) "zzz".toList "".toList)).label = IntentLabel.task ∧
    (classifyIntent (IntentOutcome.close (some 0) "zzz".toList "".toList)).confidence = 0 :=
  c6_classify_intent_soft_fail.2.2.2.1 (some 0) "zzz".toList "".toList (by decide)

/-! ### Association-list and state-update bookkeeping lemmas -/

theorem alLookup_cons {A : Type} (p : Nat × A) (l : List (Nat × A)) (tid : Nat) :
    alLookup (p :: l) tid = if p.1 = tid then some p.2 else alLookup l tid := by
  unfold alLookup
  by_cases h : p.1 = tid
  · have hb : (p.1 == tid) = true := by simp [h]
    simp [List.find?_cons, hb, h]
  · have hb : (p.1 == tid) = false := by simp [h]
    simp [List.find?_cons, hb, h]

theorem alUpdate_cons {A : Type} (p : Nat × A) (l : List (Nat × A)) (tid : Nat) (f : A → A) :
    alUpdate (p :: l) tid f = (if p.1 = tid then (p.1, f p.2) else p) :: alUpdate l tid f := rfl

theorem alUpdate_fst {A : Type} (l : List (Nat × A)) (tid : Nat) (f : A → A) :
    (alUpdate l tid f).map Prod.fst = l.map Prod.fst := by
  induction l with
  | nil => rfl
  | cons p t ih =>
      rw [alUpdate_cons]
      by_cases h : p.1 = tid <;> simp [h, ih]

theorem alLookup_alUpdate {A : Type} (l : List (Nat × A)) (tid : Nat) (f : A → A) (t : Nat) :
    alLookup (alUpdate l tid f) t =
      if tid = t then (alLookup l t).map f else alLookup l t := by
  induction l with
  | nil => by_cases h : tid = t <;> simp [alUpdate, alLookup, h]
  | cons p rest ih =>
      rw [alUpdate_cons]
      by_cases hp : p.1 = tid
      · rw [if_pos hp]
        by_cases ht : tid = t
        · rw [alLookup_cons, alLookup_cons]
          simp only [hp, ht, if_pos rfl, if_true]
          simp [if_pos (hp.trans ht)]
        · rw [alLookup_cons, alLookup_cons, if_neg ht]
          have : ¬p.1 = t := by rw [hp]; exact ht
          rw [if_neg this, if_neg this, ih, if_neg ht]
      · rw [if_neg hp]
        by_cases hpt : p.1 = t
        · have htt : ¬tid = t := fun he => hp (by rw [hpt, he])
          rw [alLookup_cons, alLookup_cons, if_pos hpt, if_pos hpt, if_neg htt]
        · rw [alLookup_cons, alLookup_cons, if_neg hpt, if_neg hpt, ih]

theorem alLookup_isSome_iff {A : Type} (l : List (Nat × A)) (tid : Nat) :
    (alLookup l tid).isSome = true ↔ tid ∈ l.map Prod.fst := by
  induction l with
  | nil => simp [alLookup]
  | cons p rest ih =>
      rw [alLookup_cons]
      by_cases h : p.1 = tid
      · simp [h]
      · simp only [if_neg h, List.map_cons, List.mem_cons, ih]
        constructor
        · exact Or.inr
        · rintro (he | hm)
          · exact absurd he.symm h
          · exact hm

theorem alLookup_eq_none_of_not_mem {A : Type} (l : List (Nat × A)) (tid : Nat)
    (h : tid ∉ l.map Prod.fst) : alLookup l tid = none := by
  cases hl : alLookup l tid with
  | none => rfl
  | some v =>
      exact absurd ((alLookup_isSome_iff l tid).mp (by simp [hl])) h

theorem alUpdate_of_not_mem {A : Type} (l : List (Nat × A)) (tid : Nat) (f : A → A)
    (h : tid ∉ l.map Prod.fst) : alUpdate l tid f = l := by
  induction l with
  | nil => rfl
  | cons p rest ih =>
      rw [alUpdate_cons]
      have hp : ¬p.1 = tid := fun he => h (by simp [← he])
      rw [if_neg hp, ih (fun hm => h (List.mem_cons_of_mem _ hm))]

theorem alLookup_append {A : Type} (l1 l2 : List (Nat × A)) (tid : Nat) :
    alLookup (l1 ++ l2) tid =
      match alLookup l1 tid with
      | some v => some v
      | none => alLookup l2 tid := by
  induction l1 with
  | nil => simp [alLookup]
  | cons p rest ih =>
      rw [List.cons_append, alLookup_cons, alLookup_cons]
      by_cases h : p.1 = tid
      · simp [h]
      · simp only [if_neg h, ih]

theorem alLookup_filterNe {A : Type} (l : List (Nat × A)) (tid t : Nat) :
    alLookup (l.filter (fun p => p.1 ≠ tid)) t =
      if t = tid then none else alLookup l t := by
  induction l with
  | nil => by_cases h : t = tid <;> simp [alLookup, h]
  | cons p rest ih =>
      by_cases hp : p.1 = tid
      · rw [List.filter_cons_of_neg (by simp [hp]), ih]
        by_cases ht : t = tid
        · rw [if_pos ht, if_pos ht]
        · rw [if_neg ht, if_neg ht, alLookup_cons, if_neg (fun he => ht (by rw [← he, hp]))]
      · rw [List.filter_cons_of_pos (by simp [hp]), alLookup_cons]
        by_cases hpt : p.1 = t
        · have : ¬t = tid := fun he => hp (hpt.trans he)
          rw [if_pos hpt, if_neg this, alLookup_cons, if_pos hpt]
        · rw [if_neg hpt, ih]
          by_cases ht : t = tid
          · rw [if_pos ht, if_pos ht]
          · rw [if_neg ht, if_neg ht, alLookup_cons, if_neg hpt]

theorem filterNe_fst {A : Type} (l : List (Nat × A)) (tid : Nat) :
    (l.filter (fun p => p.1 ≠ tid)).map Prod.fst =
      (l.map Prod.fst).filter (fun t => t ≠ tid) := by
  induction l with
  | nil => rfl
  | cons p rest ih =>
      by_cases hp : p.1 = tid
      · rw [List.filter_cons_of_neg (by simp [hp]), List.map_cons,
          List.filter_cons_of_neg (by simp [hp]), ih]
      · rw [List.filter_cons_of_pos (by simp [hp]), List.map_cons, List.map_cons,
          List.filter_cons_of_pos (by simp [hp]), ih]

theorem length_filterNe_of_nodup {A : Type} (l : List (Nat × A)) (tid : Nat)
    (hn : (l.map Prod.fst).Nodup) (hm : tid ∈ l.map Prod.fst) :
    (l.filter (fun p => p.1 ≠ tid)).length = l.length - 1 := by
  induction l with
  | nil => simp at hm
  | cons p rest ih =>
      rw [List.map_cons, List.nodup_cons] at hn
      rcases List.mem_cons.mp hm with he | hm'
      · rw [List.filter_cons_of_neg (by simp [he.symm])]
        have : rest.filter (fun p => p.1 ≠ tid) = rest := by
          apply List.filter_eq_self.mpr
          intro q hq
          simp only [ne_eq, decide_eq_true_eq]
          intro hq1
          apply hn.1
          have hq2 : q.1 = p.1 := by rw [hq1, ← he]
          rw [← hq2]
          exact List.mem_map_of_mem Prod.fst hq
        rw [this]
        simp
      · have hne : p.1 ≠ tid := fun he => hn.1 (he ▸ hm')
        rw [List.filter_cons_of_pos (by simp [hne])]
        have hlen := ih hn.2 hm'
        have : rest.length ≥ 1 := by
          cases rest with
          | nil => simp at hm'
          | cons _ _ => simp
        simp only [List.length_cons, hlen]
        omega

/-! ### State-projection lemmas for the executor primitives -/

@[simp] theorem updateInfo_cfg (s : ExecState) (tid : Nat) (f : TaskInfo → TaskInfo) :
    (updateInfo s tid f).cfg = s.cfg := rfl

@[simp] theorem updateInfo_maxC (s : ExecState) (tid : Nat) (f : TaskInfo → TaskInfo) :
    (updateInfo s tid f).maxConcurrent = s.maxConcurrent := rfl

@[simp] theorem updateInfo_queue (s : ExecState) (tid : Nat) (f : TaskInfo → TaskInfo) :
    (updateInfo s tid f).queue = s.queue := rfl

@[simp] theorem updateInfo_count (s : ExecState) (tid : Nat) (f : TaskInfo → TaskInfo) :
    (updateInfo s tid f).runningCount = s.runningCount := rfl

@[simp] theorem updateInfo_nextId (s : ExecState) (tid : Nat) (f : TaskInfo → TaskInfo) :
    (updateInfo s tid f).nextId = s.nextId := rfl

@[simp] theorem updateInfo_now (s : ExecState) (tid : Nat) (f : TaskInfo → TaskInfo) :
    (updateInfo s tid f).now = s.now := rfl

@[simp] theorem updateInfo_storeIds (s : ExecState) (tid : Nat) (f : TaskInfo → TaskInfo) :
    (updateInfo s tid f).storeIds = s.storeIds := rfl

@[simp] theorem updateInfo_running (s : ExecState) (tid : Nat) (f : TaskInfo → TaskInfo) :
    (updateInfo s tid f).running = s.running := rfl

@[simp] theorem updateInfo_events (s : ExecState) (tid : Nat) (f : TaskInfo → TaskInfo) :
    (updateInfo s tid f).events = s.events := rfl

@[simp] theorem updateInfo_heap (s : ExecState) (tid : Nat) (f : TaskInfo → TaskInfo) :
    (updateInfo s tid f).heap = alUpdate s.heap tid f := rfl

@[simp] theorem updateRt_cfg (s : ExecState) (tid : Nat) (f : RMeta → RMeta) :
    (updateRt s tid f).cfg = s.cfg := rfl

@[simp] theorem updateRt_maxC (s : ExecState) (tid : Nat) (f : RMeta → RMeta) :
    (updateRt s tid f).maxConcurrent = s.maxConcurrent := rfl

@[simp] theorem updateRt_queue (s : ExecState) (tid : Nat) (f : RMeta → RMeta) :
    (updateRt s tid f).queue = s.queue := rfl

@[simp] theorem updateRt_count (s : ExecState) (tid : Nat) (f : RMeta → RMeta) :
    (updateRt s tid f).runningCount = s.runningCount := rfl

@[simp] theorem updateRt_nextId (s : ExecState) (tid : Nat) (f : RMeta → RMeta) :
    (updateRt s tid f).nextId = s.nextId := rfl

@[simp] theorem updateRt_now (s : ExecState) (tid : Nat) (f : RMeta → RMeta) :
    (updateRt s tid f).now = s.now := rfl

@[simp] theorem updateRt_storeIds (s : ExecState) (tid : Nat) (f : RMeta → RMeta) :
    (updateRt s tid f).storeIds = s.storeIds := rfl

@[simp] theorem updateRt_heap (s : ExecState) (tid : Nat) (f : RMeta → RMeta) :
    (updateRt s tid f).heap = s.heap := rfl

@[simp] theorem updateRt_events (s : ExecState) (tid : Nat) (f : RMeta → RMeta) :
    (updateRt s tid f).events = s.events := rfl

@[simp] theorem updateRt_running (s : ExecState) (tid : Nat) (f : RMeta → RMeta) :
    (updateRt s tid f).running = alUpdate s.running tid f := rfl

@[simp] theorem emitE_cfg (s : ExecState) (e : Event) : (emitE s e).cfg = s.cfg := rfl

@[simp] theorem emitE_maxC (s : ExecState) (e : Event) :
    (emitE s e).maxConcurrent = s.maxConcurrent := rfl

@[simp] theorem emitE_queue (s : ExecState) (e : Event) : (emitE s e).queue = s.queue := rfl

@[simp] theorem emitE_count (s : ExecState) (e : Event) :
    (emitE s e).runningCount = s.runningCount := rfl

@[simp] theorem emitE_nextId (s : ExecState) (e : Event) : (emitE s e).nextId = s.nextId := rfl

@[simp] theorem emitE_now (s : ExecState) (e : Event) : (emitE s e).now = s.now := rfl

@[simp] theorem emitE_storeIds (s : ExecState) (e : Event) :
    (emitE s e).storeIds = s.storeIds := rfl

@[simp] theorem emitE_heap (s : ExecState) (e : Event) : (emitE s e).heap = s.heap := rfl

@[simp] theorem emitE_running (s : ExecState) (e : Event) : (emitE s e).running = s.running := rfl

@[simp] theorem emitE_events (s : ExecState) (e : Event) :
    (emitE s e).events = s.events ++ [e] := rfl

theorem lookupInfo_updateInfo (s : ExecState) (tid : Nat) (f : TaskInfo → TaskInfo) (t : Nat) :
    lookupInfo (updateInfo s tid f) t =
      if tid = t then (lookupInfo s t).map f else lookupInfo s t := by
  unfold lookupInfo
  rw [updateInfo_heap, alLookup_alUpdate]

theorem lookupRt_updateRt (s : ExecState) (tid : Nat) (f : RMeta → RMeta) (t : Nat) :
    lookupRt (updateRt s tid f) t =
      if tid = t then (lookupRt s t).map f else lookupRt s t := by
  unfold lookupRt
  rw [updateRt_running, alLookup_alUpdate]

@[simp] theorem lookupRt_updateInfo (s : ExecState) (tid : Nat) (f : TaskInfo → TaskInfo) (t : Nat) :
    lookupRt (updateInfo s tid f) t = lookupRt s t := rfl

@[simp] theorem lookupInfo_updateRt (s : ExecState) (tid : Nat) (f : RMeta → RMeta) (t : Nat) :
    lookupInfo (updateRt s tid f) t = lookupInfo s t := rfl

@[simp] theorem lookupRt_emitE (s : ExecState) (e : Event) (t : Nat) :
    lookupRt (emitE s e) t = lookupRt s t := rfl

@[simp] theorem lookupInfo_emitE (s : ExecState) (e : Event) (t : Nat) :
    lookupInfo (emitE s e) t = lookupInfo s t := rfl

theorem runningIds_updateRt (s : ExecState) (tid : Nat) (f : RMeta → RMeta) :
    runningIds (updateRt s tid f) = runningIds s := by
  unfold runningIds
  rw [updateRt_running, alUpdate_fst]

@[simp] theorem runningIds_updateInfo (s : ExecState) (tid : Nat) (f : TaskInfo → TaskInfo) :
    runningIds (updateInfo s tid f) = runningIds s := rfl

@[simp] theorem runningIds_emitE (s : ExecState) (e : Event) :
    runningIds (emitE s e) = runningIds s := rfl

/-! ### Frame lemmas for the output layer -/

theorem Frame.toW {tid : Nat} {s s' : ExecState} (h : Frame tid s s') : FrameW tid s s' := by
  refine ⟨h.cfg, h.maxC, h.queue, h.count, h.nextId, h.now, h.storeIds, h.heapIds, h.runIds,
    h.status, ?_, h.events⟩
  intro t
  have := h.rtMeta t
  cases h1 : lookupRt s' t <;> cases h2 : lookupRt s t <;> rw [h1, h2] at this <;>
    simp at this ⊢
  · exact ⟨this.1, this.2.1⟩

theorem frame_rfl (tid : Nat) (s : ExecState) : Frame tid s s :=
  ⟨rfl, rfl, rfl, rfl, rfl, rfl, rfl, rfl, rfl, fun _ => rfl, fun _ => rfl,
    ⟨[], by simp, by simp⟩⟩

theorem frame_trans (tid : Nat) (s s' s'' : ExecState)
    (h1 : Frame tid s s') (h2 : Frame tid s' s'') : Frame tid s s'' := by
  refine ⟨h2.cfg.trans h1.cfg, h2.maxC.trans h1.maxC, h2.queue.trans h1.queue,
    h2.count.trans h1.count, h2.nextId.trans h1.nextId, h2.now.trans h1.now,
    h2.storeIds.trans h1.storeIds, h2.heapIds.trans h1.heapIds, h2.runIds.trans h1.runIds,
    fun t => (h2.status t).trans (h1.status t), fun t => (h2.rtMeta t).trans (h1.rtMeta t), ?_⟩
  rcases h1.events with ⟨d1, he1, hp1⟩
  rcases h2.events with ⟨d2, he2, hp2⟩
  exact ⟨d1 ++ d2, by rw [he2, he1, List.append_assoc], fun e he => by
    rcases List.mem_append.mp he with h | h
    · exact hp1 e h
    · exact hp2 e h⟩

theorem frameW_rfl (tid : Nat) (s : ExecState) : FrameW tid s s :=
  ⟨rfl, rfl, rfl, rfl, rfl, rfl, rfl, rfl, rfl, fun _ => rfl, fun _ => rfl,
    ⟨[], by simp, by simp⟩⟩

theorem frameW_trans (tid : Nat) (s s' s'' : ExecState)
    (h1 : FrameW tid s s') (h2 : FrameW tid s' s'') : FrameW tid s s'' := by
  refine ⟨h2.cfg.trans h1.cfg, h2.maxC.trans h1.maxC, h2.queue.trans h1.queue,
    h2.count.trans h1.count, h2.nextId.trans h1.nextId, h2.now.trans h1.now,
    h2.storeIds.trans h1.storeIds, h2.heapIds.trans h1.heapIds, h2.runIds.trans h1.runIds,
    fun t => (h2.status t).trans (h1.status t), fun t => (h2.rtMeta t).trans (h1.rtMeta t), ?_⟩
  rcases h1.events with ⟨d1, he1, hp1⟩
  rcases h2.events with ⟨d2, he2, hp2⟩
  exact ⟨d1 ++ d2, by rw [he2, he1, List.append_assoc], fun e he => by
    rcases List.mem_append.mp he with h | h
    · exact hp1 e h
    · exact hp2 e h⟩

theorem frame_updateRt (tid t : Nat) (s : ExecState) (f : RMeta → RMeta)
    (hf : ∀ rt, ((f rt).finalized, (f rt).timeoutMs, (f rt).deadline) =
      (rt.finalized, rt.timeoutMs, rt.deadline)) :
    Frame tid s (updateRt s t f) := by
  refine ⟨rfl, rfl, rfl, rfl, rfl, rfl, rfl, rfl, ?_, fun _ => rfl, ?_, ⟨[], by simp, by simp⟩⟩
  · rw [updateRt_running, alUpdate_fst]
  · intro t'
    rw [lookupRt_updateRt]
    by_cases h : t = t'
    · rw [if_pos h]
      cases lookupRt s t' with
      | none => rfl
      | some rt => simpa using hf rt
    · rw [if_neg h]

theorem frame_updateInfo (tid t : Nat) (s : ExecState) (f : TaskInfo → TaskInfo)
    (hf : ∀ i, (f i).status = i.status) :
    Frame tid s (updateInfo s t f) := by
  refine ⟨rfl, rfl, rfl, rfl, rfl, rfl, rfl, ?_, rfl, ?_, fun _ => rfl, ⟨[], by simp, by simp⟩⟩
  · rw [updateInfo_heap, alUpdate_fst]
  · intro t'
    rw [lookupInfo_updateInfo]
    by_cases h : t = t'
    · rw [if_pos h]
      cases lookupInfo s t' with
      | none => rfl
      | some i => simpa using hf i
    · rw [if_neg h]

theorem frame_emit_session (tid : Nat) (s : ExecState) (sid : Str) :
    Frame tid s (emitE s (Event.session tid sid)) := by
  refine ⟨rfl, rfl, rfl, rfl, rfl, rfl, rfl, rfl, rfl, fun _ => rfl, fun _ => rfl, ?_⟩
  exact ⟨[Event.session tid sid], by simp, by simp⟩

theorem frame_emit_progress (tid : Nat) (s : ExecState) (x : Str) :
    Frame tid s (emitE s (Event.progress tid x)) := by
  refine ⟨rfl, rfl, rfl, rfl, rfl, rfl, rfl, rfl, rfl, fun _ => rfl, fun _ => rfl, ?_⟩
  exact ⟨[Event.progress tid x], by simp, by simp⟩

theorem frame_handleTaskOutput (tid : Nat) (s : ExecState) (out : Str) :
    Frame tid s (handleTaskOutput s tid out) := by
  unfold handleTaskOutput
  by_cases h : out.isEmpty
  · rw [if_pos h]; exact frame_rfl tid s
  · rw [if_neg h]
    refine frame_trans tid s (updateRt s tid (fun r => { r with output := r.output ++ [out] })) _ ?_ ?_
    · exact frame_updateRt tid tid s (fun r => { r with output := r.output ++ [out] })
        (fun rt => rfl)
    · exact frame_updateInfo tid tid _ (fun i =>
        { i with
          output := i.output ++ [out]
          progress := some (if out.length > 500 then out.take 500 ++ ".".toList ++ ".".toList ++ ".".toList else out) })
        (fun i => rfl)

theorem frame_emitProgress (tid : Nat) (s : ExecState) (text : Str) :
    Frame tid s (emitProgress s tid text) := by
  unfold emitProgress
  by_cases h : (jsTrim (collapseWs text)).isEmpty
  · rw [if_pos h]; exact frame_rfl tid s
  · rw [if_neg h]
    simp only []
    cases hrt : lookupRt s tid with
    | none => exact frame_rfl tid s
    | some rt =>
        simp only []
        by_cases hsig : (jsToLower (jsTrim (collapseWs text)) == rt.lastProgressSignature) = true
        · rw [if_pos hsig]; exact frame_rfl tid s
        · rw [if_neg hsig]
          refine frame_trans tid s
            (updateRt s tid (fun r => { r with lastProgressSignature := jsToLower (jsTrim (collapseWs text)) })) _ ?_ ?_
          · exact frame_updateRt tid tid s
              (fun r => { r with lastProgressSignature := jsToLower (jsTrim (collapseWs text)) })
              (fun rt => rfl)
          · exact frame_emit_progress tid _ (jsTrim (collapseWs text))

theorem frame_handleStructuredProgressEvent (tid : Nat) (s : ExecState) (parsed : Json) :
    Frame tid s (handleStructuredProgressEvent s tid parsed) := by
  unfold handleStructuredProgressEvent
  repeat' first
    | exact frame_rfl tid s
    | exact frame_emitProgress tid s _
    | split
    | simp only []

theorem frame_handleStdoutLine (tid : Nat) (s : ExecState) (line : Str) :
    Frame tid s (handleStdoutLine s tid line) := by
  unfold handleStdoutLine
  by_cases h : (jsTrim line).isEmpty
  · rw [if_pos h]; exact frame_rfl tid s
  · rw [if_neg h]
    simp only []
    cases hp : jsonParse (jsTrim line) with
    | none => exact frame_handleTaskOutput tid s (jsTrim line)
    | some parsed =>
        simp only []
        have h1 : Frame tid s (handleStructuredProgressEvent s tid parsed) :=
          frame_handleStructuredProgressEvent tid s parsed
        rcases hsid : extractSessionId parsed with _ | sid <;> simp only []
        · rcases htext : extractTextPart parsed with _ | txt <;> simp only []
          · exact h1
          · exact frame_trans tid s _ _ h1 (frame_handleTaskOutput tid _ txt)
        · cases hli : lookupInfo (handleStructuredProgressEvent s tid parsed) tid with
          | none =>
              rcases htext : extractTextPart parsed with _ | txt <;> simp only []
              · exact h1
              · exact frame_trans tid s _ _ h1 (frame_handleTaskOutput tid _ txt)
          | some info =>
              simp only []
              by_cases hne : info.opencodeSessionId ≠ some sid
              · rw [if_pos hne]
                have h2 : Frame tid s
                    (emitE (updateInfo (handleStructuredProgressEvent s tid parsed) tid
                      (fun i => { i with opencodeSessionId := some sid })) (Event.session tid sid)) := by
                  refine frame_trans tid s _ _ h1 ?_
                  refine frame_trans tid _ _ _ ?_ (frame_emit_session tid _ sid)
                  exact frame_updateInfo tid tid _ _ (fun i => rfl)
                rcases htext : extractTextPart parsed with _ | txt <;> simp only []
                · exact h2
                · exact frame_trans tid s _ _ h2 (frame_handleTaskOutput tid _ txt)
              · rw [if_neg hne]
                rcases htext : extractTextPart parsed with _ | txt <;> simp only []
                · exact h1
                · exact frame_trans tid s _ _ h1 (frame_handleTaskOutput tid _ txt)

theorem frame_foldl_lines (tid : Nat) (lines : List Str) :
    ∀ s : ExecState, Frame tid s (lines.foldl (fun acc line => handleStdoutLine acc tid line) s) := by
  induction lines with
  | nil => intro s; exact frame_rfl tid s
  | cons l rest ih =>
      intro s
      rw [List.foldl_cons]
      exact frame_trans tid s _ _ (frame_handleStdoutLine tid s l) (ih _)

theorem frame_flushStdoutBuffer (tid : Nat) (s : ExecState) :
    Frame tid s (flushStdoutBuffer s tid) := by
  unfold flushStdoutBuffer
  cases hrt : lookupRt s tid with
  | none => exact frame_rfl tid s
  | some rt =>
      simp only []
      by_cases h : (jsTrim rt.stdoutBuffer).length > 0
      · rw [if_pos h]
        refine frame_trans tid s _ _ (frame_handleStdoutLine tid s (jsTrim rt.stdoutBuffer)) ?_
        exact frame_updateRt tid tid _ (fun r => { r with stdoutBuffer := [] }) (fun r => rfl)
      · rw [if_neg h]
        exact frame_updateRt tid tid _ (fun r => { r with stdoutBuffer := [] }) (fun r => rfl)

theorem frameW_updateRt (tid t : Nat) (s : ExecState) (f : RMeta → RMeta)
    (hf : ∀ rt, ((f rt).finalized, (f rt).timeoutMs) = (rt.finalized, rt.timeoutMs)) :
    FrameW tid s (updateRt s t f) := by
  refine ⟨rfl, rfl, rfl, rfl, rfl, rfl, rfl, rfl, ?_, fun _ => rfl, ?_, ⟨[], by simp, by simp⟩⟩
  · rw [updateRt_running, alUpdate_fst]
  · intro t'
    rw [lookupRt_updateRt]
    by_cases h : t = t'
    · rw [if_pos h]
      cases lookupRt s t' with
      | none => rfl
      | some rt => simpa using hf rt
    · rw [if_neg h]

theorem frameW_markTaskActivity (tid : Nat) (s : ExecState) :
    FrameW tid s (markTaskActivity s tid) := by
  unfold markTaskActivity
  cases hrt : lookupRt s tid with
  | none => exact frameW_rfl tid s
  | some rt =>
      simp only []
      by_cases h : (rt.finalized || decide (rt.timeoutMs = 0)) = true
      · rw [if_pos h]; exact frameW_rfl tid s
      · rw [if_neg h]
        exact frameW_updateRt tid tid s _ (fun r => rfl)

theorem frameW_handleTaskStdout (tid : Nat) (s : ExecState) (data : Str) :
    FrameW tid s (handleTaskStdout s tid data) := by
  unfold handleTaskStdout
  by_cases h : data.isEmpty
  · rw [if_pos h]; exact frameW_rfl tid s
  · rw [if_neg h]
    cases hrt : lookupRt s tid with
    | none => exact frameW_rfl tid s
    | some rt =>
        simp only []
        refine frameW_trans tid s (markTaskActivity s tid) _ (frameW_markTaskActivity tid s) ?_
        refine frameW_trans tid _
          (updateRt (markTaskActivity s tid) tid
            (fun r => { r with stdoutBuffer := ((splitNl (rt.stdoutBuffer ++ data)).getLast?).getD [] })) _
          ?_ ?_
        · exact frameW_updateRt tid tid _ _ (fun r => rfl)
        · exact (frame_foldl_lines tid _ _).toW

theorem frameW_handleTaskStderr (tid : Nat) (s : ExecState) (data : Str) :
    FrameW tid s (handleTaskStderr s tid data) := by
  unfold handleTaskStderr
  simp only []
  by_cases h : s.cfg.progressStatusOnly = true
  · rw [if_pos h]
    refine frameW_trans tid s (markTaskActivity s tid) _ (frameW_markTaskActivity tid s) ?_
    refine frameW_trans tid _ (handleTaskOutput (markTaskActivity s tid) tid data) _
      (frame_handleTaskOutput tid _ data).toW ?_
    exact (frame_emitProgress tid _ _).toW
  · rw [if_neg h]
    refine frameW_trans tid s (markTaskActivity s tid) _ (frameW_markTaskActivity tid s) ?_
    exact (frame_handleTaskOutput tid _ data).toW

/-! ### Further bookkeeping lemmas for the invariant proof -/

theorem alLookup_append_sing {A : Type} (l : List (Nat × A)) (tid : Nat) (v : A)
    (h : tid ∉ l.map Prod.fst) : alLookup (l ++ [(tid, v)]) tid = some v := by
  rw [alLookup_append, alLookup_eq_none_of_not_mem l tid h]
  simp [alLookup_cons]

theorem filterNe_alUpdate {A : Type} (l : List (Nat × A)) (tid : Nat) (f : A → A) :
    (alUpdate l tid f).filter (fun p => p.1 ≠ tid) = l.filter (fun p => p.1 ≠ tid) := by
  induction l with
  | nil => rfl
  | cons p rest ih =>
      rw [alUpdate_cons]
      by_cases h : p.1 = tid
      · rw [if_pos h, List.filter_cons_of_neg (by simp [h]), List.filter_cons_of_neg (by simp [h]), ih]
      · rw [if_neg h, List.filter_cons_of_pos (by simp [h]), List.filter_cons_of_pos (by simp [h]), ih]

theorem hasCE_append (tid : Nat) (a b : List Event) :
    hasCE tid (a ++ b) = (hasCE tid a || hasCE tid b) := by
  unfold hasCE
  exact List.any_append

@[simp] theorem isCE_queued (tid t : Nat) : isCE tid (Event.queued t) = false := rfl

@[simp] theorem isCE_started (tid t : Nat) : isCE tid (Event.started t) = false := rfl

@[simp] theorem isCE_session (tid t : Nat) (sid : Str) :
    isCE tid (Event.session t sid) = false := rfl

@[simp] theorem isCE_progress (tid t : Nat) (x : Str) :
    isCE tid (Event.progress t x) = false := rfl

@[simp] theorem isCE_cancelled (tid t : Nat) (r : Str) :
    isCE tid (Event.cancelled t r) = false := rfl

@[simp] theorem isCE_completed (tid t : Nat) :
    isCE tid (Event.completed t) = (t == tid) := rfl

@[simp] theorem isCE_errored (tid t : Nat) (m : Str) :
    isCE tid (Event.errored t m) = (t == tid) := rfl

theorem hasCE_singleton_not (tid : Nat) (e : Event) (h : isCE tid e = false) :
    hasCE tid [e] = false := by
  simp [hasCE, h]

theorem lookupInfo_updateInfo_isSome (s : ExecState) (tid : Nat) (f : TaskInfo → TaskInfo)
    (t : Nat) : (lookupInfo (updateInfo s tid f) t).isSome = (lookupInfo s t).isSome := by
  rw [lookupInfo_updateInfo]
  by_cases h : tid = t
  · rw [if_pos h]; cases lookupInfo s t <;> rfl
  · rw [if_neg h]

/-- The weak frame preserves the executor invariant. -/
theorem frameW_preserves_inv {tid : Nat} {s s' : ExecState}
    (hf : FrameW tid s s') (hi : ExecInv s) : ExecInv s' := by
  have hrids : runningIds s' = runningIds s := hf.runIds
  have hlen : s'.running.length = s.running.length := by
    have := congrArg List.length hf.runIds
    simpa using this
  rcases hf.events with ⟨delta, hde, hdp⟩
  have hnoCE : ∀ t, hasCE t delta = false := by
    intro t
    rw [Bool.eq_false_iff]
    intro hc
    rcases List.any_eq_true.mp hc with ⟨e, he, hce⟩
    rcases hdp e he with ⟨sid, rfl⟩ | ⟨x, rfl⟩ <;> simp at hce
  refine ⟨?_, ?_, ?_, ?_, ?_, ?_, ?_, ?_, ?_, ?_, ?_, ?_, ?_, ?_⟩
  · rw [hf.count, hlen, hi.countEq]
  · rw [hlen, hf.maxC]; exact hi.countLe
  · rw [hrids]; exact hi.runNodup
  · rw [hf.queue]; exact hi.queueNodup
  · rw [hf.queue, hrids]; exact hi.disj
  · rw [hrids, hf.nextId]; exact hi.runFresh
  · rw [hf.queue, hf.nextId]; exact hi.queueFresh
  · rw [hf.heapIds, hf.nextId]; exact hi.heapFresh
  · rw [hf.heapIds]; exact hi.heapNodup
  · intro t ht
    rw [hrids] at ht
    have := hf.status t
    have hs := hi.runInHeap t ht
    cases h1 : lookupInfo s' t <;> cases h2 : lookupInfo s t <;>
      rw [h1, h2] at this <;> simp_all
  · intro t ht
    rw [hf.queue] at ht
    have := hf.status t
    have hs := hi.queueInHeap t ht
    cases h1 : lookupInfo s' t <;> cases h2 : lookupInfo s t <;>
      rw [h1, h2] at this <;> simp_all
  · intro t rt hrt
    have := hf.rtMeta t
    rw [hrt] at this
    cases h2 : lookupRt s t <;> rw [h2] at this <;> simp at this
    rw [hf.cfg]
    rcases this with ⟨_, h3⟩
    rw [h3]
    exact hi.rtTimeout t _ h2
  · intro t rt hrt
    have := hf.rtMeta t
    rw [hrt] at this
    cases h2 : lookupRt s t <;> rw [h2] at this <;> simp at this
    rw [this.1]
    exact hi.rtNotFinal t _ h2
  · intro t ht
    rw [hde, hasCE_append, hnoCE t, Bool.or_false] at ht
    have := hi.ceGone t ht
    rw [hf.nextId, hrids, hf.queue]
    exact this

theorem inv_initState (cfg : Cfg) : ExecInv (initState cfg) := by
  refine ⟨rfl, ?_, ?_, ?_, ?_, ?_, ?_, ?_, ?_, ?_, ?_, ?_, ?_, ?_⟩ <;>
    simp [initState, runningIds, lookupRt, alLookup, hasCE]

theorem inv_tick (s : ExecState) (dt : Nat) (hi : ExecInv s) :
    ExecInv { s with now := s.now + dt } := by
  refine ⟨hi.countEq, hi.countLe, hi.runNodup, hi.queueNodup, hi.disj, hi.runFresh,
    hi.queueFresh, hi.heapFresh, hi.heapNodup, hi.runInHeap, hi.queueInHeap, ?_, ?_, hi.ceGone⟩
  · exact hi.rtTimeout
  · exact hi.rtNotFinal

theorem inv_cancelTask (s : ExecState) (tid : Nat) (reason : Str) (hi : ExecInv s) :
    ExecInv (cancelTask s tid reason) := by
  unfold cancelTask
  cases hrt : lookupRt s tid with
  | none => exact hi
  | some rt =>
      refine ⟨?_, ?_, ?_, ?_, ?_, ?_, ?_, ?_, ?_, ?_, ?_, ?_, ?_, ?_⟩
      · simpa using hi.countEq
      · simpa using hi.countLe
      · simpa [runningIds] using hi.runNodup
      · simpa using hi.queueNodup
      · simpa [runningIds] using hi.disj
      · simpa [runningIds] using hi.runFresh
      · simpa using hi.queueFresh
      · simpa [alUpdate_fst] using hi.heapFresh
      · simpa [alUpdate_fst] using hi.heapNodup
      · intro t ht
        rw [show runningIds (emitE (updateInfo s tid _) (Event.cancelled tid reason)) = runningIds s from rfl] at ht
        simpa [lookupInfo_updateInfo_isSome] using hi.runInHeap t ht
      · intro t ht
        simp only [emitE_queue, updateInfo_queue] at ht
        simpa [lookupInfo_updateInfo_isSome] using hi.queueInHeap t ht
      · intro t rt' hrt'
        simp only [lookupRt_emitE, lookupRt_updateInfo] at hrt'
        simpa using hi.rtTimeout t rt' hrt'
      · intro t rt' hrt'
        simp only [lookupRt_emitE, lookupRt_updateInfo] at hrt'
        exact hi.rtNotFinal t rt' hrt'
      · intro t ht
        simp only [emitE_events, updateInfo_events] at ht
        rw [hasCE_append, hasCE_singleton_not t _ (by simp), Bool.or_false] at ht
        have := hi.ceGone t ht
        simpa [runningIds] using this

theorem inv_timerFire (s : ExecState) (tid : Nat) (hi : ExecInv s) :
    ExecInv (timerFire s tid) := by
  unfold timerFire
  cases hrt : lookupRt s tid with
  | none => exact hi
  | some rt =>
      simp only []
      cases hd : rt.deadline with
      | none => exact hi
      | some d =>
          simp only []
          by_cases hn : s.now < d
          · rw [if_pos hn]; exact hi
          · rw [if_neg hn]
            have h1 : ExecInv (updateRt s tid (fun r => { r with deadline := none })) :=
              frameW_preserves_inv (frameW_updateRt tid tid s _ (fun r => rfl)) hi
            by_cases hfin : rt.finalized = true
            · rw [if_pos hfin]; exact h1
            · rw [if_neg hfin]
              exact inv_cancelTask _ tid _ h1


/-! ### Projections of the structural state transformers -/

@[simp] theorem bumpCount_cfg (s : ExecState) : (bumpCount s).cfg = s.cfg := rfl

@[simp] theorem bumpCount_maxC (s : ExecState) : (bumpCount s).maxConcurrent = s.maxConcurrent := rfl

@[simp] theorem bumpCount_queue (s : ExecState) : (bumpCount s).queue = s.queue := rfl

@[simp] theorem bumpCount_count (s : ExecState) :
    (bumpCount s).runningCount = s.runningCount + 1 := rfl

@[simp] theorem bumpCount_nextId (s : ExecState) : (bumpCount s).nextId = s.nextId := rfl

@[simp] theorem bumpCount_now (s : ExecState) : (bumpCount s).now = s.now := rfl

@[simp] theorem bumpCount_storeIds (s : ExecState) : (bumpCount s).storeIds = s.storeIds := rfl

@[simp] theorem bumpCount_heap (s : ExecState) : (bumpCount s).heap = s.heap := rfl

@[simp] theorem bumpCount_running (s : ExecState) : (bumpCount s).running = s.running := rfl

@[simp] theorem bumpCount_events (s : ExecState) : (bumpCount s).events = s.events := rfl

@[simp] theorem dropCount_cfg (s : ExecState) : (dropCount s).cfg = s.cfg := rfl

@[simp] theorem dropCount_maxC (s : ExecState) : (dropCount s).maxConcurrent = s.maxConcurrent := rfl

@[simp] theorem dropCount_queue (s : ExecState) : (dropCount s).queue = s.queue := rfl

@[simp] theorem dropCount_count (s : ExecState) :
    (dropCount s).runningCount = s.runningCount - 1 := rfl

@[simp] theorem dropCount_nextId (s : ExecState) : (dropCount s).nextId = s.nextId := rfl

@[simp] theorem dropCount_now (s : ExecState) : (dropCount s).now = s.now := rfl

@[simp] theorem dropCount_storeIds (s : ExecState) : (dropCount s).storeIds = s.storeIds := rfl

@[simp] theorem dropCount_heap (s : ExecState) : (dropCount s).heap = s.heap := rfl

@[simp] theorem dropCount_running (s : ExecState) : (dropCount s).running = s.running := rfl

@[simp] theorem dropCount_events (s : ExecState) : (dropCount s).events = s.events := rfl

@[simp] theorem pushRunning_cfg (s : ExecState) (tid : Nat) (rt : RMeta) :
    (pushRunning s tid rt).cfg = s.cfg := rfl

@[simp] theorem pushRunning_maxC (s : ExecState) (tid : Nat) (rt : RMeta) :
    (pushRunning s tid rt).maxConcurrent = s.maxConcurrent := rfl

@[simp] theorem pushRunning_queue (s : ExecState) (tid : Nat) (rt : RMeta) :
    (pushRunning s tid rt).queue = s.queue := rfl

@[simp] theorem pushRunning_count (s : ExecState) (tid : Nat) (rt : RMeta) :
    (pushRunning s tid rt).runningCount = s.runningCount := rfl

@[simp] theorem pushRunning_nextId (s : ExecState) (tid : Nat) (rt : RMeta) :
    (pushRunning s tid rt).nextId = s.nextId := rfl

@[simp] theorem pushRunning_now (s : ExecState) (tid : Nat) (rt : RMeta) :
    (pushRunning s tid rt).now = s.now := rfl

@[simp] theorem pushRunning_storeIds (s : ExecState) (tid : Nat) (rt : RMeta) :
    (pushRunning s tid rt).storeIds = s.storeIds := rfl

@[simp] theorem pushRunning_heap (s : ExecState) (tid : Nat) (rt : RMeta) :
    (pushRunning s tid rt).heap = s.heap := rfl

@[simp] theorem pushRunning_running (s : ExecState) (tid : Nat) (rt : RMeta) :
    (pushRunning s tid rt).running = s.running ++ [(tid, rt)] := rfl

@[simp] theorem pushRunning_events (s : ExecState) (tid : Nat) (rt : RMeta) :
    (pushRunning s tid rt).events = s.events := rfl

@[simp] theorem registerTask_cfg (s : ExecState) (tid : Nat) (info : TaskInfo) :
    (registerTask s tid info).cfg = s.cfg := rfl

@[simp] theorem registerTask_maxC (s : ExecState) (tid : Nat) (info : TaskInfo) :
    (registerTask s tid info).maxConcurrent = s.maxConcurrent := rfl

@[simp] theorem registerTask_queue (s : ExecState) (tid : Nat) (info : TaskInfo) :
    (registerTask s tid info).queue = s.queue := rfl

@[simp] theorem registerTask_count (s : ExecState) (tid : Nat) (info : TaskInfo) :
    (registerTask s tid info).runningCount = s.runningCount := rfl

@[simp] theorem registerTask_nextId (s : ExecState) (tid : Nat) (info : TaskInfo) :
    (registerTask s tid info).nextId = tid + 1 := rfl

@[simp] theorem registerTask_now (s : ExecState) (tid : Nat) (info : TaskInfo) :
    (registerTask s tid info).now = s.now := rfl

@[simp] theorem registerTask_heap (s : ExecState) (tid : Nat) (info : TaskInfo) :
    (registerTask s tid info).heap = s.heap ++ [(tid, info)] := rfl

@[simp] theorem registerTask_running (s : ExecState) (tid : Nat) (info : TaskInfo) :
    (registerTask s tid info).running = s.running := rfl

@[simp] theorem registerTask_events (s : ExecState) (tid : Nat) (info : TaskInfo) :
    (registerTask s tid info).events = s.events := rfl

@[simp] theorem pushQueue_cfg (s : ExecState) (tid : Nat) :
    (pushQueue s tid).cfg = s.cfg := rfl

@[simp] theorem pushQueue_maxC (s : ExecState) (tid : Nat) :
    (pushQueue s tid).maxConcurrent = s.maxConcurrent := rfl

@[simp] theorem pushQueue_queue (s : ExecState) (tid : Nat) :
    (pushQueue s tid).queue = s.queue ++ [tid] := rfl

@[simp] theorem pushQueue_count (s : ExecState) (tid : Nat) :
    (pushQueue s tid).runningCount = s.runningCount := rfl

@[simp] theorem pushQueue_nextId (s : ExecState) (tid : Nat) :
    (pushQueue s tid).nextId = s.nextId := rfl

@[simp] theorem pushQueue_now (s : ExecState) (tid : Nat) :
    (pushQueue s tid).now = s.now := rfl

@[simp] theorem pushQueue_heap (s : ExecState) (tid : Nat) :
    (pushQueue s tid).heap = s.heap := rfl

@[simp] theorem pushQueue_running (s : ExecState) (tid : Nat) :
    (pushQueue s tid).running = s.running := rfl

@[simp] theorem pushQueue_events (s : ExecState) (tid : Nat) :
    (pushQueue s tid).events = s.events := rfl

@[simp] theorem cleanupTask_cfg (s : ExecState) (tid : Nat) :
    (cleanupTask s tid).cfg = s.cfg := rfl

@[simp] theorem cleanupTask_maxC (s : ExecState) (tid : Nat) :
    (cleanupTask s tid).maxConcurrent = s.maxConcurrent := rfl

@[simp] theorem cleanupTask_queue (s : ExecState) (tid : Nat) :
    (cleanupTask s tid).queue = s.queue := rfl

@[simp] theorem cleanupTask_count (s : ExecState) (tid : Nat) :
    (cleanupTask s tid).runningCount = s.runningCount - 1 := rfl

@[simp] theorem cleanupTask_nextId (s : ExecState) (tid : Nat) :
    (cleanupTask s tid).nextId = s.nextId := rfl

@[simp] theorem cleanupTask_now (s : ExecState) (tid : Nat) :
    (cleanupTask s tid).now = s.now := rfl

@[simp] theorem cleanupTask_heap (s : ExecState) (tid : Nat) :
    (cleanupTask s tid).heap = s.heap := rfl

@[simp] theorem cleanupTask_running (s : ExecState) (tid : Nat) :
    (cleanupTask s tid).running = s.running.filter (fun p => p.1 ≠ tid) := rfl

@[simp] theorem cleanupTask_events (s : ExecState) (tid : Nat) :
    (cleanupTask s tid).events = s.events := rfl

theorem runningIds_pushRunning (s : ExecState) (tid : Nat) (rt : RMeta) :
    runningIds (pushRunning s tid rt) = runningIds s ++ [tid] := by
  unfold runningIds
  rw [pushRunning_running, List.map_append]
  rfl

theorem lookupRt_pushRunning (s : ExecState) (tid : Nat) (rt : RMeta) (t : Nat) :
    lookupRt (pushRunning s tid rt) t =
      match lookupRt s t with
      | some v => some v
      | none => if tid = t then some rt else none := by
  unfold lookupRt
  rw [pushRunning_running, alLookup_append]
  cases alLookup s.running t with
  | some v => rfl
  | none =>
      simp only []
      rw [alLookup_cons]
      by_cases h : tid = t
      · rw [if_pos h, if_pos h]
      · rw [if_neg h, if_neg h]
        rfl

theorem lookupInfo_registerTask (s : ExecState) (tid : Nat) (info : TaskInfo) (t : Nat) :
    lookupInfo (registerTask s tid info) t =
      match lookupInfo s t with
      | some v => some v
      | none => if tid = t then some info else none := by
  unfold lookupInfo
  rw [registerTask_heap, alLookup_append]
  cases alLookup s.heap t with
  | some v => rfl
  | none =>
      simp only []
      rw [alLookup_cons]
      by_cases h : tid = t
      · rw [if_pos h, if_pos h]
      · rw [if_neg h, if_neg h]
        rfl

@[simp] theorem lookupInfo_bumpCount (s : ExecState) (t : Nat) :
    lookupInfo (bumpCount s) t = lookupInfo s t := rfl

@[simp] theorem lookupInfo_dropCount (s : ExecState) (t : Nat) :
    lookupInfo (dropCount s) t = lookupInfo s t := rfl

@[simp] theorem lookupInfo_pushRunning (s : ExecState) (tid : Nat) (rt : RMeta) (t : Nat) :
    lookupInfo (pushRunning s tid rt) t = lookupInfo s t := rfl

@[simp] theorem lookupInfo_pushQueue (s : ExecState) (tid : Nat) (t : Nat) :
    lookupInfo (pushQueue s tid) t = lookupInfo s t := rfl

@[simp] theorem lookupInfo_cleanupTask (s : ExecState) (tid : Nat) (t : Nat) :
    lookupInfo (cleanupTask s tid) t = lookupInfo s t := rfl

@[simp] theorem lookupRt_bumpCount (s : ExecState) (t : Nat) :
    lookupRt (bumpCount s) t = lookupRt s t := rfl

@[simp] theorem lookupRt_dropCount (s : ExecState) (t : Nat) :
    lookupRt (dropCount s) t = lookupRt s t := rfl

@[simp] theorem lookupRt_registerTask (s : ExecState) (tid : Nat) (info : TaskInfo) (t : Nat) :
    lookupRt (registerTask s tid info) t = lookupRt s t := rfl

@[simp] theorem lookupRt_pushQueue (s : ExecState) (tid : Nat) (t : Nat) :
    lookupRt (pushQueue s tid) t = lookupRt s t := rfl

@[simp] theorem runningIds_bumpCount (s : ExecState) :
    runningIds (bumpCount s) = runningIds s := rfl

@[simp] theorem runningIds_dropCount (s : ExecState) :
    runningIds (dropCount s) = runningIds s := rfl

@[simp] theorem runningIds_registerTask (s : ExecState) (tid : Nat) (info : TaskInfo) :
    runningIds (registerTask s tid info) = runningIds s := rfl

@[simp] theorem runningIds_pushQueue (s : ExecState) (tid : Nat) :
    runningIds (pushQueue s tid) = runningIds s := rfl

theorem runningIds_cleanupTask (s : ExecState) (tid : Nat) :
    runningIds (cleanupTask s tid) = (runningIds s).filter (fun t => t ≠ tid) := by
  unfold runningIds
  rw [cleanupTask_running, filterNe_fst]

theorem inv_startTask (s : ExecState) (tid : Nat) (b : Bool) (hi : ExecInv s)
    (hnr : tid ∉ runningIds s) (hnq : tid ∉ s.queue) (hfr : tid < s.nextId)
    (hce : hasCE tid s.events = false) (hcap : s.runningCount < s.maxConcurrent) :
    ExecInv (startTask s tid b) := by
  unfold startTask
  cases hli : lookupInfo s tid with
  | none => exact hi
  | some info =>
      simp only []
      by_cases hb : (!b) = true
      · rw [if_pos hb]
        refine ⟨?_, ?_, ?_, ?_, ?_, ?_, ?_, ?_, ?_, ?_, ?_, ?_, ?_, ?_⟩
        · simpa using hi.countEq
        · simpa using hi.countLe
        · simpa [runningIds] using hi.runNodup
        · simpa using hi.queueNodup
        · simpa [runningIds] using hi.disj
        · simpa [runningIds] using hi.runFresh
        · simpa using hi.queueFresh
        · simpa [alUpdate_fst] using hi.heapFresh
        · simpa [alUpdate_fst] using hi.heapNodup
        · intro t ht
          have ht' : t ∈ runningIds s := by simpa [runningIds] using ht
          have h0 := hi.runInHeap t ht'
          simpa [lookupInfo_updateInfo_isSome] using h0
        · intro t ht
          have ht' : t ∈ s.queue := by simpa using ht
          have h0 := hi.queueInHeap t ht'
          simpa [lookupInfo_updateInfo_isSome] using h0
        · intro t rt hrt
          simp only [lookupRt_emitE, lookupRt_dropCount, lookupRt_updateInfo,
            lookupRt_bumpCount] at hrt
          simpa using hi.rtTimeout t rt hrt
        · intro t rt hrt
          simp only [lookupRt_emitE, lookupRt_dropCount, lookupRt_updateInfo,
            lookupRt_bumpCount] at hrt
          exact hi.rtNotFinal t rt hrt
        · intro t ht
          have ht' : hasCE t ((s.events ++ [Event.started tid]) ++
              [Event.errored tid "spawn failed".toList]) = true := by
            simpa using ht
          rw [hasCE_append, hasCE_append] at ht'
          rw [hasCE_singleton_not t (Event.started tid) (by simp)] at ht'
          simp only [Bool.or_false] at ht'
          rcases Bool.or_eq_true_iff.mp ht' with hold | hnew
          · have := hi.ceGone t hold
            simpa [runningIds] using this
          · have htid : t = tid := by
              simp [hasCE, isCE] at hnew
              exact hnew.symm
            subst htid
            refine ⟨by simpa using hfr, by simpa [runningIds] using hnr, by simpa using hnq⟩
      · rw [if_neg hb]
        have hinv4 : ExecInv (pushRunning (emitE (bumpCount (updateInfo s tid
            (fun i => { i with status := TStatus.running, startedAt := some s.now })))
            (Event.started tid)) tid
            (freshRMeta (emitE (bumpCount (updateInfo s tid
              (fun i => { i with status := TStatus.running, startedAt := some s.now })))
              (Event.started tid)))) := by
          refine ⟨?_, ?_, ?_, ?_, ?_, ?_, ?_, ?_, ?_, ?_, ?_, ?_, ?_, ?_⟩
          · simp [hi.countEq]
          · simp
            have hcnt := hi.countEq
            omega
          · rw [runningIds_pushRunning]
            simp only [runningIds_emitE, runningIds_bumpCount, runningIds_updateInfo]
            rw [List.nodup_append]
            exact ⟨hi.runNodup, List.nodup_singleton tid, by
              intro a ha hb2
              simp at hb2
              subst hb2
              exact hnr ha⟩
          · simpa using hi.queueNodup
          · intro t ht
            have ht' : t ∈ s.queue := by simpa using ht
            rw [runningIds_pushRunning]
            simp only [runningIds_emitE, runningIds_bumpCount, runningIds_updateInfo]
            intro hmem
            rcases List.mem_append.mp hmem with h1 | h2
            · exact hi.disj t ht' h1
            · simp at h2
              subst h2
              exact hnq ht'
          · intro t ht
            rw [runningIds_pushRunning] at ht
            simp only [runningIds_emitE, runningIds_bumpCount, runningIds_updateInfo] at ht
            simp only [pushRunning_nextId, emitE_nextId, bumpCount_nextId, updateInfo_nextId]
            rcases List.mem_append.mp ht with h1 | h2
            · exact hi.runFresh t h1
            · simp at h2
              subst h2
              exact hfr
          · intro t ht
            have ht' : t ∈ s.queue := by simpa using ht
            simpa using hi.queueFresh t ht'
          · simpa [alUpdate_fst] using hi.heapFresh
          · simpa [alUpdate_fst] using hi.heapNodup
          · intro t ht
            rw [runningIds_pushRunning] at ht
            simp only [runningIds_emitE, runningIds_bumpCount, runningIds_updateInfo] at ht
            have hsome : (lookupInfo s t).isSome = true := by
              rcases List.mem_append.mp ht with h1 | h2
              · exact hi.runInHeap t h1
              · simp at h2
                subst h2
                simp [hli]
            simpa [lookupInfo_updateInfo_isSome] using hsome
          · intro t ht
            have ht' : t ∈ s.queue := by simpa using ht
            simpa [lookupInfo_updateInfo_isSome] using hi.queueInHeap t ht'
          · intro t rt hrt
            rw [lookupRt_pushRunning] at hrt
            simp only [lookupRt_emitE, lookupRt_bumpCount, lookupRt_updateInfo] at hrt
            cases h2 : lookupRt s t with
            | some rt0 =>
                rw [h2] at hrt
                rcases Option.some.inj hrt with rfl
                simpa using hi.rtTimeout t rt0 h2
            | none =>
                rw [h2] at hrt
                simp only [] at hrt
                by_cases he : tid = t
                · rw [if_pos he] at hrt
                  rcases Option.some.inj hrt with rfl
                  simp [freshRMeta]
                · rw [if_neg he] at hrt
                  exact absurd hrt (by simp)
          · intro t rt hrt
            rw [lookupRt_pushRunning] at hrt
            simp only [lookupRt_emitE, lookupRt_bumpCount, lookupRt_updateInfo] at hrt
            cases h2 : lookupRt s t with
            | some rt0 =>
                rw [h2] at hrt
                rcases Option.some.inj hrt with rfl
                exact hi.rtNotFinal t rt0 h2
            | none =>
                rw [h2] at hrt
                simp only [] at hrt
                by_cases he : tid = t
                · rw [if_pos he] at hrt
                  rcases Option.some.inj hrt with rfl
                  rfl
                · rw [if_neg he] at hrt
                  exact absurd hrt (by simp)
          · intro t ht
            have ht' : hasCE t (s.events ++ [Event.started tid]) = true := by simpa using ht
            rw [hasCE_append, hasCE_singleton_not t _ (by simp), Bool.or_false] at ht'
            have hgone := hi.ceGone t ht'
            have htne : t ≠ tid := by
              intro he
              subst he
              rw [ht'] at hce
              exact absurd hce (by simp)
            refine ⟨by simpa using hgone.1, ?_, by simpa using hgone.2.2⟩
            rw [runningIds_pushRunning]
            simp only [runningIds_emitE, runningIds_bumpCount, runningIds_updateInfo]
            intro hmem
            rcases List.mem_append.mp hmem with h1 | h2
            · exact hgone.2.1 h1
            · simp at h2
              exact htne h2
        exact frameW_preserves_inv (frameW_markTaskActivity tid _) hinv4

theorem inv_setQueueTail (s : ExecState) (next : Nat) (rest : List Nat)
    (hq : s.queue = next :: rest) (hi : ExecInv s) : ExecInv { s with queue := rest } := by
  refine ⟨hi.countEq, hi.countLe, hi.runNodup, ?_, ?_, hi.runFresh, ?_, hi.heapFresh,
    hi.heapNodup, hi.runInHeap, ?_, hi.rtTimeout, hi.rtNotFinal, ?_⟩
  · have := hi.queueNodup
    rw [hq] at this
    exact (List.nodup_cons.mp this).2
  · intro t ht
    exact hi.disj t (by rw [hq]; exact List.mem_cons_of_mem next ht)
  · intro t ht
    exact hi.queueFresh t (by rw [hq]; exact List.mem_cons_of_mem next ht)
  · intro t ht
    exact hi.queueInHeap t (by rw [hq]; exact List.mem_cons_of_mem next ht)
  · intro t ht
    have h0 := hi.ceGone t ht
    exact ⟨h0.1, h0.2.1, fun hm => h0.2.2 (by rw [hq]; exact List.mem_cons_of_mem next hm)⟩

theorem inv_processQueue (s : ExecState) (b : Bool) (hi : ExecInv s) :
    ExecInv (processQueue s b) := by
  unfold processQueue
  by_cases hg : (s.queue.isEmpty || decide (s.runningCount ≥ s.maxConcurrent)) = true
  · rw [if_pos hg]; exact hi
  · rw [if_neg hg]
    cases hq : s.queue with
    | nil => exact hi
    | cons next rest =>
        simp only []
        have hcap : s.runningCount < s.maxConcurrent := by
          rcases Bool.or_eq_false_iff.mp (Bool.eq_false_iff.mpr hg) with ⟨_, h2⟩
          simpa using of_decide_eq_false h2
        have hmem : next ∈ s.queue := by rw [hq]; exact List.mem_cons_self next rest
        have hs' : ExecInv { s with queue := rest } := inv_setQueueTail s next rest hq hi
        have hce : hasCE next s.events = false := by
          cases hc : hasCE next s.events with
          | false => rfl
          | true => exact absurd hmem (hi.ceGone next hc).2.2
        refine inv_startTask _ next b hs' ?_ ?_ ?_ ?_ ?_
        · exact fun hm => hi.disj next hmem hm
        · show next ∉ rest
          have := hi.queueNodup
          rw [hq] at this
          exact (List.nodup_cons.mp this).1
        · exact hi.queueFresh next hmem
        · exact hce
        · exact hcap

theorem length_alUpdate {A : Type} (l : List (Nat × A)) (tid : Nat) (f : A → A) :
    (alUpdate l tid f).length = l.length := List.length_map l _

/-- Removing a running entry (`cleanupTask`) restores the invariant from a
state whose task `tid` may already be finalized and may already carry its
terminal event. -/
theorem inv_cleanupTask_of (s3 : ExecState) (tid : Nat)
    (hmem : tid ∈ s3.running.map Prod.fst)
    (countEq : s3.runningCount = s3.running.length)
    (countLe : s3.running.length ≤ s3.maxConcurrent)
    (runNodup : (runningIds s3).Nodup)
    (queueNodup : s3.queue.Nodup)
    (disj : ∀ t ∈ s3.queue, t ∉ runningIds s3)
    (runFresh : ∀ t ∈ runningIds s3, t < s3.nextId)
    (queueFresh : ∀ t ∈ s3.queue, t < s3.nextId)
    (heapFresh : ∀ t ∈ s3.heap.map Prod.fst, t < s3.nextId)
    (heapNodup : (s3.heap.map Prod.fst).Nodup)
    (runInHeap : ∀ t ∈ runningIds s3, (lookupInfo s3 t).isSome = true)
    (queueInHeap : ∀ t ∈ s3.queue, (lookupInfo s3 t).isSome = true)
    (rtTimeout : ∀ t rt, t ≠ tid → lookupRt s3 t = some rt → rt.timeoutMs = cfgTimeoutMs s3.cfg)
    (rtNotFinal : ∀ t rt, t ≠ tid → lookupRt s3 t = some rt → rt.finalized = false)
    (ceGone : ∀ t, hasCE t s3.events = true →
      t < s3.nextId ∧ (t ∉ runningIds s3 ∨ t = tid) ∧ t ∉ s3.queue) :
    ExecInv (cleanupTask s3 tid) := by
  have hids : runningIds (cleanupTask s3 tid) = (runningIds s3).filter (fun t => t ≠ tid) :=
    runningIds_cleanupTask s3 tid
  have hmem' : tid ∈ runningIds s3 := hmem
  have hnotin : ∀ t, t ∈ runningIds (cleanupTask s3 tid) → t ∈ runningIds s3 ∧ t ≠ tid := by
    intro t ht
    rw [hids] at ht
    refine ⟨List.mem_of_mem_filter ht, ?_⟩
    have := List.of_mem_filter ht
    simpa using this
  refine ⟨?_, ?_, ?_, ?_, ?_, ?_, ?_, ?_, ?_, ?_, ?_, ?_, ?_, ?_⟩
  · rw [cleanupTask_count, countEq]
    show s3.running.length - 1 = _
    rw [cleanupTask_running, length_filterNe_of_nodup s3.running tid runNodup hmem]
  · rw [cleanupTask_running, cleanupTask_maxC,
      length_filterNe_of_nodup s3.running tid runNodup hmem]
    exact le_trans (Nat.sub_le _ _) countLe
  · rw [hids]
    exact runNodup.filter _
  · simpa using queueNodup
  · intro t ht hm
    rcases hnotin t hm with ⟨hm1, _⟩
    exact disj t (by simpa using ht) hm1
  · intro t ht
    rcases hnotin t ht with ⟨hm1, _⟩
    simpa using runFresh t hm1
  · intro t ht
    simpa using queueFresh t (by simpa using ht)
  · intro t ht
    simpa using heapFresh t (by simpa using ht)
  · simpa using heapNodup
  · intro t ht
    rcases hnotin t ht with ⟨hm1, _⟩
    simpa using runInHeap t hm1
  · intro t ht
    simpa using queueInHeap t (by simpa using ht)
  · intro t rt hrt
    rw [show lookupRt (cleanupTask s3 tid) t =
      alLookup (s3.running.filter (fun p => p.1 ≠ tid)) t from rfl, alLookup_filterNe] at hrt
    by_cases he : t = tid
    · rw [if_pos he] at hrt
      exact absurd hrt (by simp)
    · rw [if_neg he] at hrt
      simpa using rtTimeout t rt he hrt
  · intro t rt hrt
    rw [show lookupRt (cleanupTask s3 tid) t =
      alLookup (s3.running.filter (fun p => p.1 ≠ tid)) t from rfl, alLookup_filterNe] at hrt
    by_cases he : t = tid
    · rw [if_pos he] at hrt
      exact absurd hrt (by simp)
    · rw [if_neg he] at hrt
      exact rtNotFinal t rt he hrt
  · intro t ht
    have h0 := ceGone t (by simpa using ht)
    refine ⟨by simpa using h0.1, ?_, by simpa using h0.2.2⟩
    rw [hids]
    intro hm
    have hmem2 := List.mem_of_mem_filter hm
    have hne : t ≠ tid := by
      have := List.of_mem_filter hm
      simpa using this
    rcases h0.2.1 with hno | heq
    · exact hno hmem2
    · exact hne heq

theorem inv_finalizeTask (s : ExecState) (tid : Nat) (rt : RMeta) (p : FinalizeParams)
    (b : Bool) (hi : ExecInv s) (hrt : lookupRt s tid = some rt) :
    ExecInv (finalizeTask s tid rt p b) := by
  unfold finalizeTask
  by_cases hfin : rt.finalized = true
  · rw [if_pos hfin]; exact hi
  · rw [if_neg hfin]
    simp only []
    have hmem : tid ∈ s.running.map Prod.fst :=
      (alLookup_isSome_iff s.running tid).mp
        (by rw [show alLookup s.running tid = lookupRt s tid from rfl, hrt]; rfl)
    have hcommon : ∀ (s3 : ExecState) (delta : List Event),
        s3.cfg = s.cfg → s3.maxConcurrent = s.maxConcurrent → s3.queue = s.queue →
        s3.runningCount = s.runningCount → s3.nextId = s.nextId →
        s3.running = alUpdate s.running tid (fun r => { r with finalized := true, deadline := none }) →
        s3.events = s.events ++ delta →
        (∀ e ∈ delta, ∀ t, isCE t e = true → t = tid) →
        (∀ t, (lookupInfo s3 t).isSome = (lookupInfo s t).isSome) →
        s3.heap.map Prod.fst = s.heap.map Prod.fst →
        ExecInv (processQueue (cleanupTask s3 tid) b) := by
      intro s3 delta hcfg hmaxc hqueue hcount hnext hrun hevents hdelta hinfo hheap
      have hrtl : ∀ t, t ≠ tid → lookupRt s3 t = lookupRt s t := by
        intro t ht
        rw [show lookupRt s3 t = alLookup s3.running t from rfl, hrun, alLookup_alUpdate,
          if_neg (fun he => ht he.symm)]
        rfl
      refine inv_processQueue _ b ?_
      refine inv_cleanupTask_of s3 tid ?_ ?_ ?_ ?_ ?_ ?_ ?_ ?_ ?_ ?_ ?_ ?_ ?_ ?_ ?_
      · rw [hrun, alUpdate_fst]; exact hmem
      · rw [hcount, hrun, length_alUpdate, hi.countEq]
      · rw [hrun, length_alUpdate, hmaxc]; exact hi.countLe
      · show (s3.running.map Prod.fst).Nodup
        rw [hrun, alUpdate_fst]; exact hi.runNodup
      · rw [hqueue]; exact hi.queueNodup
      · intro t ht
        rw [hqueue] at ht
        show t ∉ s3.running.map Prod.fst
        rw [hrun, alUpdate_fst]
        exact hi.disj t ht
      · intro t ht
        have h1 : t ∈ s.running.map Prod.fst := by
          rw [show runningIds s3 = s3.running.map Prod.fst from rfl, hrun, alUpdate_fst] at ht
          exact ht
        rw [hnext]
        exact hi.runFresh t h1
      · intro t ht
        rw [hqueue] at ht
        rw [hnext]
        exact hi.queueFresh t ht
      · intro t ht
        rw [hheap] at ht
        rw [hnext]
        exact hi.heapFresh t ht
      · rw [hheap]; exact hi.heapNodup
      · intro t ht
        have h1 : t ∈ s.running.map Prod.fst := by
          rw [show runningIds s3 = s3.running.map Prod.fst from rfl, hrun, alUpdate_fst] at ht
          exact ht
        rw [hinfo t]
        exact hi.runInHeap t h1
      · intro t ht
        rw [hqueue] at ht
        rw [hinfo t]
        exact hi.queueInHeap t ht
      · intro t rt' htne hrt'
        rw [hrtl t htne] at hrt'
        rw [hcfg]
        exact hi.rtTimeout t rt' hrt'
      · intro t rt' htne hrt'
        rw [hrtl t htne] at hrt'
        exact hi.rtNotFinal t rt' hrt'
      · intro t ht
        rw [hevents, hasCE_append] at ht
        rcases Bool.or_eq_true_iff.mp ht with hold | hnew
        · have h0 := hi.ceGone t hold
          refine ⟨by rw [hnext]; exact h0.1, Or.inl ?_, by rw [hqueue]; exact h0.2.2⟩
          show t ∉ s3.running.map Prod.fst
          rw [hrun, alUpdate_fst]
          exact h0.2.1
        · have hteq : t = tid := by
            rcases List.any_eq_true.mp hnew with ⟨e, he, hce⟩
            exact hdelta e he t hce
          subst hteq
          refine ⟨by rw [hnext]; exact hi.runFresh t hmem, Or.inr rfl, ?_⟩
          rw [hqueue]
          exact fun hm => hi.disj t hm hmem
    by_cases hst1 : p.status = TStatus.completed
    · rw [if_pos hst1]
      refine hcommon _ [Event.completed tid] rfl rfl rfl rfl rfl rfl rfl ?_ ?_ ?_
      · intro e he t hce
        rcases List.mem_singleton.mp he with rfl
        have h1 : tid = t := by simpa using hce
        exact h1.symm
      · intro t
        simp only [lookupInfo_emitE]
        rw [lookupInfo_updateInfo_isSome, lookupInfo_updateInfo_isSome]
        rfl
      · simp [alUpdate_fst]
    · rw [if_neg hst1]
      by_cases hst2 : p.status = TStatus.failed
      · rw [if_pos hst2]
        refine hcommon _ [Event.errored tid (p.error.getD "Unknown task error".toList)]
          rfl rfl rfl rfl rfl rfl rfl ?_ ?_ ?_
        · intro e he t hce
          rcases List.mem_singleton.mp he with rfl
          have h1 : tid = t := by simpa using hce
          exact h1.symm
        · intro t
          simp only [lookupInfo_emitE]
          rw [lookupInfo_updateInfo_isSome, lookupInfo_updateInfo_isSome]
          rfl
        · simp [alUpdate_fst]
      · rw [if_neg hst2]
        refine hcommon _ [] rfl rfl rfl rfl rfl rfl (by simp) ?_ ?_ ?_
        · intro e he
          simp at he
        · intro t
          rw [lookupInfo_updateInfo_isSome, lookupInfo_updateInfo_isSome]
          rfl
        · simp [alUpdate_fst]

theorem inv_procClose (s : ExecState) (tid : Nat) (code : Option Int) (b : Bool)
    (hi : ExecInv s) : ExecInv (procClose s tid code b) := by
  unfold procClose
  cases hrt : lookupRt s tid with
  | none => exact hi
  | some rt0 =>
      simp only []
      have hi1 : ExecInv (flushStdoutBuffer s tid) :=
        frameW_preserves_inv (frame_flushStdoutBuffer tid s).toW hi
      cases hrt1 : lookupRt (flushStdoutBuffer s tid) tid with
      | none =>
          cases hinfo : lookupInfo (flushStdoutBuffer s tid) tid <;> exact hi1
      | some rt1 =>
          cases hinfo : lookupInfo (flushStdoutBuffer s tid) tid with
          | none => exact hi1
          | some info =>
              simp only []
              split
              · exact inv_finalizeTask _ tid rt1 _ b hi1 hrt1
              · split
                · exact inv_finalizeTask _ tid rt1 _ b hi1 hrt1
                · exact inv_finalizeTask _ tid rt1 _ b hi1 hrt1

theorem inv_procError (s : ExecState) (tid : Nat) (msg : Str) (b : Bool)
    (hi : ExecInv s) : ExecInv (procError s tid msg b) := by
  unfold procError
  cases hrt : lookupRt s tid with
  | none => exact hi
  | some rt => exact inv_finalizeTask s tid rt _ b hi hrt

theorem inv_execute (s : ExecState) (cmd : Str) (b : Bool) (hi : ExecInv s) :
    ExecInv (execute s cmd b) := by
  unfold execute
  simp only []
  have hfreshheap : s.nextId ∉ s.heap.map Prod.fst := by
    intro hm
    exact absurd (hi.heapFresh s.nextId hm) (lt_irrefl _)
  have hfreshrun : s.nextId ∉ runningIds s := by
    intro hm
    exact absurd (hi.runFresh s.nextId hm) (lt_irrefl _)
  have hfreshqueue : s.nextId ∉ s.queue := by
    intro hm
    exact absurd (hi.queueFresh s.nextId hm) (lt_irrefl _)
  have hfreshce : hasCE s.nextId s.events = false := by
    cases hc : hasCE s.nextId s.events with
    | false => rfl
    | true => exact absurd (hi.ceGone s.nextId hc).1 (lt_irrefl _)
  have hheapids : ∀ info : TaskInfo, (s.heap ++ [(s.nextId, info)]).map Prod.fst
      = s.heap.map Prod.fst ++ [s.nextId] := by
    intro info
    rw [List.map_append]
    rfl
  have hi1 : ∀ info : TaskInfo, ExecInv (registerTask s s.nextId info) := by
    intro info
    refine ⟨by simpa using hi.countEq, by simpa using hi.countLe,
      by simpa [runningIds] using hi.runNodup, by simpa using hi.queueNodup,
      by simpa [runningIds] using hi.disj, ?_, ?_, ?_, ?_, ?_, ?_, ?_, ?_, ?_⟩
    · intro t ht
      have := hi.runFresh t (by simpa [runningIds] using ht)
      simp only [registerTask_nextId]
      omega
    · intro t ht
      have := hi.queueFresh t (by simpa using ht)
      simp only [registerTask_nextId]
      omega
    · intro t ht
      rw [registerTask_heap, hheapids] at ht
      simp only [registerTask_nextId]
      rcases List.mem_append.mp ht with h1 | h2
      · have := hi.heapFresh t h1
        omega
      · simp at h2
        omega
    · rw [registerTask_heap, hheapids]
      rw [List.nodup_append]
      exact ⟨hi.heapNodup, List.nodup_singleton _, by
        intro a ha hb2
        simp at hb2
        subst hb2
        exact hfreshheap ha⟩
    · intro t ht
      have ht' : t ∈ runningIds s := by simpa [runningIds] using ht
      rw [lookupInfo_registerTask]
      cases h2 : lookupInfo s t with
      | none =>
          have := hi.runInHeap t ht'
          rw [h2] at this
          simp at this
      | some v => rfl
    · intro t ht
      have ht' : t ∈ s.queue := by simpa using ht
      rw [lookupInfo_registerTask]
      cases h2 : lookupInfo s t with
      | none =>
          have := hi.queueInHeap t ht'
          rw [h2] at this
          simp at this
      | some v => rfl
    · intro t rt hrt
      simp only [lookupRt_registerTask] at hrt
      simpa using hi.rtTimeout t rt hrt
    · intro t rt hrt
      simp only [lookupRt_registerTask] at hrt
      exact hi.rtNotFinal t rt hrt
    · intro t ht
      have h0 := hi.ceGone t (by simpa using ht)
      refine ⟨?_, by simpa [runningIds] using h0.2.1, by simpa using h0.2.2⟩
      simp only [registerTask_nextId]
      omega
  split
  · -- queued branch
    refine ⟨?_, ?_, ?_, ?_, ?_, ?_, ?_, ?_, ?_, ?_, ?_, ?_, ?_, ?_⟩
    · simpa using hi.countEq
    · simpa using hi.countLe
    · simpa [runningIds] using hi.runNodup
    · simp only [emitE_queue, pushQueue_queue, registerTask_queue]
      rw [List.nodup_append]
      exact ⟨hi.queueNodup, List.nodup_singleton _, by
        intro a ha hb2
        simp at hb2
        subst hb2
        exact hfreshqueue ha⟩
    · intro t ht
      simp only [emitE_queue, pushQueue_queue, registerTask_queue] at ht
      rcases List.mem_append.mp ht with h1 | h2
      · simpa [runningIds] using hi.disj t h1
      · simp at h2
        subst h2
        simpa [runningIds] using hfreshrun
    · intro t ht
      have := hi.runFresh t (by simpa [runningIds] using ht)
      simp only [emitE_nextId, pushQueue_nextId, registerTask_nextId]
      omega
    · intro t ht
      simp only [emitE_queue, pushQueue_queue, registerTask_queue] at ht
      simp only [emitE_nextId, pushQueue_nextId, registerTask_nextId]
      rcases List.mem_append.mp ht with h1 | h2
      · have := hi.queueFresh t h1
        omega
      · simp at h2
        omega
    · intro t ht
      simp only [emitE_heap, pushQueue_heap, registerTask_heap, hheapids] at ht
      simp only [emitE_nextId, pushQueue_nextId, registerTask_nextId]
      rcases List.mem_append.mp ht with h1 | h2
      · have := hi.heapFresh t h1
        omega
      · simp at h2
        omega
    · simp only [emitE_heap, pushQueue_heap, registerTask_heap, hheapids]
      rw [List.nodup_append]
      exact ⟨hi.heapNodup, List.nodup_singleton _, by
        intro a ha hb2
        simp at hb2
        subst hb2
        exact hfreshheap ha⟩
    · intro t ht
      have ht' : t ∈ runningIds s := by simpa [runningIds] using ht
      have h0 := hi.runInHeap t ht'
      rw [lookupInfo_emitE, lookupInfo_pushQueue, lookupInfo_registerTask]
      cases h2 : lookupInfo s t with
      | none =>
          rw [h2] at h0
          simp at h0
      | some v => rfl
    · intro t ht
      simp only [emitE_queue, pushQueue_queue, registerTask_queue] at ht
      rw [lookupInfo_emitE, lookupInfo_pushQueue, lookupInfo_registerTask]
      rcases List.mem_append.mp ht with h1 | h2
      · have h0 := hi.queueInHeap t h1
        cases h2 : lookupInfo s t with
        | none =>
            rw [h2] at h0
            simp at h0
        | some v => rfl
      · simp at h2
        subst h2
        rw [show lookupInfo s s.nextId = alLookup s.heap s.nextId from rfl,
          alLookup_eq_none_of_not_mem s.heap s.nextId hfreshheap]
        simp
    · intro t rt hrt
      simp only [lookupRt_emitE, lookupRt_pushQueue, lookupRt_registerTask] at hrt
      simpa using hi.rtTimeout t rt hrt
    · intro t rt hrt
      simp only [lookupRt_emitE, lookupRt_pushQueue, lookupRt_registerTask] at hrt
      exact hi.rtNotFinal t rt hrt
    · intro t ht
      have ht' : hasCE t (s.events ++ [Event.queued s.nextId]) = true := by simpa using ht
      rw [hasCE_append, hasCE_singleton_not t _ (by simp), Bool.or_false] at ht'
      have h0 := hi.ceGone t ht'
      refine ⟨?_, by simpa [runningIds] using h0.2.1, ?_⟩
      · simp only [emitE_nextId, pushQueue_nextId, registerTask_nextId]
        omega
      · simp only [emitE_queue, pushQueue_queue, registerTask_queue]
        intro hm
        rcases List.mem_append.mp hm with h1 | h2
        · exact h0.2.2 h1
        · simp at h2
          subst h2
          exact absurd h0.1 (lt_irrefl _)
  · -- immediate start branch
    rename_i hcap
    refine inv_startTask _ s.nextId b (hi1 _) ?_ ?_ ?_ ?_ ?_
    · simpa [runningIds] using hfreshrun
    · simpa using hfreshqueue
    · simp
    · simpa using hfreshce
    · simpa using Nat.lt_of_not_le (fun hle => hcap (by simpa using hle))

theorem inv_step (s : ExecState) (a : Act) (hi : ExecInv s) : ExecInv (step s a) := by
  cases a with
  | execute cmd b => exact inv_execute s cmd b hi
  | cancel tid r => exact inv_cancelTask s tid r hi
  | stdoutChunk tid d =>
      exact frameW_preserves_inv (frameW_handleTaskStdout tid s d) hi
  | stderrChunk tid d =>
      have hstep : step s (Act.stderrChunk tid d) =
          (match lookupRt s tid with
           | none => s
           | some _ => handleTaskStderr s tid d) := rfl
      rw [hstep]
      cases lookupRt s tid with
      | none => exact hi
      | some rt => exact frameW_preserves_inv (frameW_handleTaskStderr tid s d) hi
  | procError tid m b => exact inv_procError s tid m b hi
  | procClose tid code b => exact inv_procClose s tid code b hi
  | timerFire tid => exact inv_timerFire s tid hi
  | tick dt => exact inv_tick s dt hi

theorem inv_foldl (acts : List Act) : ∀ s : ExecState, ExecInv s → ExecInv (acts.foldl step s) := by
  induction acts with
  | nil => intro s hs; exact hs
  | cons a rest ih =>
      intro s hs
      rw [List.foldl_cons]
      exact ih _ (inv_step s a hs)

theorem inv_run (cfg : Cfg) (acts : List Act) : ExecInv (run cfg acts) :=
  inv_foldl acts _ (inv_initState cfg)

/-! ### Shape lemmas for queue advancement -/

theorem markTaskActivity_queue (s : ExecState) (tid : Nat) :
    (markTaskActivity s tid).queue = s.queue := by
  unfold markTaskActivity
  cases lookupRt s tid with
  | none => rfl
  | some rt =>
      simp only []
      split
      · rfl
      · rfl

theorem markTaskActivity_events (s : ExecState) (tid : Nat) :
    (markTaskActivity s tid).events = s.events := by
  unfold markTaskActivity
  cases lookupRt s tid with
  | none => rfl
  | some rt =>
      simp only []
      split
      · rfl
      · rfl

theorem markTaskActivity_count (s : ExecState) (tid : Nat) :
    (markTaskActivity s tid).runningCount = s.runningCount := by
  unfold markTaskActivity
  cases lookupRt s tid with
  | none => rfl
  | some rt =>
      simp only []
      split
      · rfl
      · rfl

theorem markTaskActivity_runningIds (s : ExecState) (tid : Nat) :
    runningIds (markTaskActivity s tid) = runningIds s := by
  unfold markTaskActivity
  cases lookupRt s tid with
  | none => rfl
  | some rt =>
      simp only []
      split
      · rfl
      · exact runningIds_updateRt s tid _

theorem markTaskActivity_nextId (s : ExecState) (tid : Nat) :
    (markTaskActivity s tid).nextId = s.nextId := by
  unfold markTaskActivity
  cases lookupRt s tid with
  | none => rfl
  | some rt =>
      simp only []
      split
      · rfl
      · rfl

theorem markTaskActivity_lookupInfo (s : ExecState) (tid t : Nat) :
    lookupInfo (markTaskActivity s tid) t = lookupInfo s t := by
  unfold markTaskActivity
  cases lookupRt s tid with
  | none => rfl
  | some rt =>
      simp only []
      split
      · rfl
      · rfl

/-- `startTask` with a successful spawn: marks the task running, appends it to
the running table, emits exactly the `started` event. -/
theorem startTask_ok_shape (s : ExecState) (tid : Nat) (info : TaskInfo)
    (hin : lookupInfo s tid = some info) :
    (startTask s tid true).queue = s.queue ∧
    (startTask s tid true).events = s.events ++ [Event.started tid] ∧
    runningIds (startTask s tid true) = runningIds s ++ [tid] ∧
    (lookupInfo (startTask s tid true) tid).map TaskInfo.status = some TStatus.running ∧
    (startTask s tid true).runningCount = s.runningCount + 1 ∧
    (startTask s tid true).nextId = s.nextId := by
  unfold startTask
  rw [hin]
  simp only [Bool.not_true, if_neg (by simp : ¬((false : Bool) = true))]
  refine ⟨?_, ?_, ?_, ?_, ?_, ?_⟩
  · rw [markTaskActivity_queue]; rfl
  · rw [markTaskActivity_events]; rfl
  · rw [markTaskActivity_runningIds, runningIds_pushRunning]
    simp [runningIds]
  · rw [markTaskActivity_lookupInfo]
    simp only [lookupInfo_pushRunning, lookupInfo_emitE, lookupInfo_bumpCount]
    rw [lookupInfo_updateInfo, if_pos rfl, hin]
    rfl
  · rw [markTaskActivity_count]; rfl
  · rw [markTaskActivity_nextId]; rfl

/-- `processQueue` with a free slot and a nonempty queue pops the head and
starts it. -/
theorem processQueue_pops (s : ExecState) (b : Bool) (h : Nat) (rest : List Nat)
    (hq : s.queue = h :: rest) (hcap : s.runningCount < s.maxConcurrent) :
    processQueue s b = startTask { s with queue := rest } h b := by
  unfold processQueue
  have hg : (s.queue.isEmpty || decide (s.runningCount ≥ s.maxConcurrent)) = false := by
    rw [hq]
    simp
    omega
  rw [if_neg (by rw [hg]; exact Bool.false_ne_true)]
  rw [hq]

/-- A genuine (first) finalization with a waiting queue head `h` and spawn
success pops `h` and starts it, restoring the running count. -/
theorem finalize_advances (s : ExecState) (tid : Nat) (rt : RMeta) (p : FinalizeParams)
    (hi : ExecInv s) (hrt : lookupRt s tid = some rt) (hfin : rt.finalized = false)
    (h : Nat) (rest : List Nat) (hq : s.queue = h :: rest) :
    (finalizeTask s tid rt p true).queue = rest ∧
    h ∈ runningIds (finalizeTask s tid rt p true) ∧
    (lookupInfo (finalizeTask s tid rt p true) h).map TaskInfo.status = some TStatus.running ∧
    Event.started h ∈ (finalizeTask s tid rt p true).events ∧
    (finalizeTask s tid rt p true).runningCount = s.runningCount := by
  have hmem : tid ∈ s.running.map Prod.fst :=
    (alLookup_isSome_iff s.running tid).mp
      (by rw [show alLookup s.running tid = lookupRt s tid from rfl, hrt]; rfl)
  have hlen1 : 1 ≤ s.running.length := by
    cases hr : s.running with
    | nil => rw [hr] at hmem; simp at hmem
    | cons _ _ => simp [hr]
  have hhq : h ∈ s.queue := by rw [hq]; exact List.mem_cons_self h rest
  have hne : h ≠ tid := by
    intro he
    exact hi.disj h hhq (he ▸ hmem)
  have hinfh := hi.queueInHeap h hhq
  rcases ho : lookupInfo s h with _ | info0
  · rw [ho] at hinfh; simp at hinfh
  have core : ∀ s3 : ExecState, s3.queue = h :: rest →
      s3.runningCount = s.runningCount → s3.maxConcurrent = s.maxConcurrent →
      lookupInfo s3 h = some info0 →
      (∃ dd, s3.events = s.events ++ dd) →
      (processQueue (cleanupTask s3 tid) true).queue = rest ∧
      h ∈ runningIds (processQueue (cleanupTask s3 tid) true) ∧
      (lookupInfo (processQueue (cleanupTask s3 tid) true) h).map TaskInfo.status
        = some TStatus.running ∧
      Event.started h ∈ (processQueue (cleanupTask s3 tid) true).events ∧
      (processQueue (cleanupTask s3 tid) true).runningCount = s.runningCount := by
    intro s3 hq3 hc3 hm3 hli3 ⟨dd, hev3⟩
    have hq4 : (cleanupTask s3 tid).queue = h :: rest := by
      rw [cleanupTask_queue, hq3]
    have hcap : (cleanupTask s3 tid).runningCount < (cleanupTask s3 tid).maxConcurrent := by
      rw [cleanupTask_count, cleanupTask_maxC, hc3, hm3]
      have h1 := hi.countEq
      have h2 := hi.countLe
      omega
    rw [processQueue_pops _ true h rest hq4 hcap]
    have hin4 : lookupInfo { cleanupTask s3 tid with queue := rest } h = some info0 := by
      rw [show lookupInfo { cleanupTask s3 tid with queue := rest } h
        = lookupInfo s3 h from rfl, hli3]
    rcases startTask_ok_shape _ h info0 hin4 with ⟨hsq, hse, hsr, hss, hsc, _⟩
    refine ⟨?_, ?_, ?_, ?_, ?_⟩
    · rw [hsq]
    · rw [hsr]
      exact List.mem_append_right _ (List.mem_singleton.mpr rfl)
    · exact hss
    · rw [hse]
      exact List.mem_append_right _ (List.mem_singleton.mpr rfl)
    · rw [hsc]
      show (cleanupTask s3 tid).runningCount + 1 = s.runningCount
      rw [cleanupTask_count, hc3]
      have h1 := hi.countEq
      omega
  unfold finalizeTask
  rw [if_neg (by rw [hfin]; exact Bool.false_ne_true)]
  simp only []
  by_cases hst1 : p.status = TStatus.completed
  · rw [if_pos hst1]
    refine core _ (by simp [hq]) (by simp) (by simp) ?_ ⟨[Event.completed tid], by simp⟩
    simp only [lookupInfo_emitE]
    rw [lookupInfo_updateInfo, if_neg (fun he => hne he.symm),
      lookupInfo_updateInfo, if_neg (fun he => hne he.symm),
      lookupInfo_updateRt, ho]
  · rw [if_neg hst1]
    by_cases hst2 : p.status = TStatus.failed
    · rw [if_pos hst2]
      refine core _ (by simp [hq]) (by simp) (by simp) ?_
        ⟨[Event.errored tid (p.error.getD "Unknown task error".toList)], by simp⟩
      simp only [lookupInfo_emitE]
      rw [lookupInfo_updateInfo, if_neg (fun he => hne he.symm),
        lookupInfo_updateInfo, if_neg (fun he => hne he.symm),
        lookupInfo_updateRt, ho]
    · rw [if_neg hst2]
      refine core _ (by simp [hq]) (by simp) (by simp) ?_ ⟨[], by simp⟩
      rw [lookupInfo_updateInfo, if_neg (fun he => hne he.symm),
        lookupInfo_updateInfo, if_neg (fun he => hne he.symm),
        lookupInfo_updateRt, ho]

/-- On a running task, the `close` handler always reaches `finalizeTask`
after flushing, with the flushed state related to the original by the output
frame. -/
theorem procClose_finalizes (s : ExecState) (tid : Nat) (code : Option Int) (b : Bool)
    (hi : ExecInv s) (hrun : tid ∈ runningIds s) :
    ∃ s1 rt1 p, procClose s tid code b = finalizeTask s1 tid rt1 p b ∧
      ExecInv s1 ∧ lookupRt s1 tid = some rt1 ∧ rt1.finalized = false ∧
      s1.queue = s.queue ∧ s1.runningCount = s.runningCount ∧
      runningIds s1 = runningIds s ∧
      (∃ dd, s1.events = s.events ++ dd ∧
        ∀ e ∈ dd, (∃ sid, e = Event.session tid sid) ∨ (∃ x, e = Event.progress tid x)) := by
  have hsome : (lookupRt s tid).isSome = true := (alLookup_isSome_iff s.running tid).mpr hrun
  rcases hrt0 : lookupRt s tid with _ | rt0
  · rw [hrt0] at hsome; simp at hsome
  unfold procClose
  rw [hrt0]
  simp only []
  have hfr := frame_flushStdoutBuffer tid s
  have hi1 : ExecInv (flushStdoutBuffer s tid) := frameW_preserves_inv hfr.toW hi
  have hrt1s : (lookupRt (flushStdoutBuffer s tid) tid).isSome = true := by
    have := hfr.rtMeta tid
    rw [hrt0] at this
    cases h1 : lookupRt (flushStdoutBuffer s tid) tid <;> rw [h1] at this <;> simp at this
    rfl
  rcases hrt1 : lookupRt (flushStdoutBuffer s tid) tid with _ | rt1
  · rw [hrt1] at hrt1s; simp at hrt1s
  have hfin1 : rt1.finalized = false := hi1.rtNotFinal tid rt1 hrt1
  have hruns1 : runningIds (flushStdoutBuffer s tid) = runningIds s := hfr.runIds
  have hinfo1 : (lookupInfo (flushStdoutBuffer s tid) tid).isSome = true :=
    hi1.runInHeap tid (by rw [hruns1]; exact hrun)
  rcases hinfo : lookupInfo (flushStdoutBuffer s tid) tid with _ | info
  · rw [hinfo] at hinfo1; simp at hinfo1
  simp only []
  rcases hfr.events with ⟨dd, hde, hdp⟩
  by_cases hc1 : info.status = TStatus.cancelled
  · rw [if_pos hc1]
    exact ⟨_, rt1, _, rfl, hi1, hrt1, hfin1, hfr.queue, hfr.count, hruns1, dd, hde, hdp⟩
  · rw [if_neg hc1]
    by_cases hc2 : code = some 0
    · rw [if_pos hc2]
      exact ⟨_, rt1, _, rfl, hi1, hrt1, hfin1, hfr.queue, hfr.count, hruns1, dd, hde, hdp⟩
    · rw [if_neg hc2]
      exact ⟨_, rt1, _, rfl, hi1, hrt1, hfin1, hfr.queue, hfr.count, hruns1, dd, hde, hdp⟩

/-- C10: cancelTask on a task id that is not currently running — unknown,
still queued, or already finalized — is a complete no-op (no event, no state
change); and queued tasks are never in the running table, so they cannot be
cancelled. -/
theorem c10_cancel_nonrunning_noop (cfg : Cfg) (acts : List Act) (tid : Nat) (reason : Str) :
    (tid ∉ runningIds (run cfg acts) →
      step (run cfg acts) (Act.cancel tid reason) = run cfg acts) ∧
    (tid ∈ (run cfg acts).queue → tid ∉ runningIds (run cfg acts)) := by
  constructor
  · intro h
    show cancelTask (run cfg acts) tid reason = run cfg acts
    unfold cancelTask
    rw [show lookupRt (run cfg acts) tid = alLookup (run cfg acts).running tid from rfl,
      alLookup_eq_none_of_not_mem _ tid h]
  · intro hq
    exact (inv_run cfg acts).disj tid hq

/-- Witness for C10 at a concrete run: task 1 is queued (limit 1) and task 7
is unknown; cancelling either changes nothing. -/
theorem c10_cancel_nonrunning_noop_witness :
    step (run { maxConcurrentTasks := 1, timeout := 0, progressStatusOnly := false }
        [Act.execute "a".toList true, Act.execute "b".toList true])
      (Act.cancel 1 "user_request".toList)
      = run { maxConcurrentTasks := 1, timeout := 0, progressStatusOnly := false }
        [Act.execute "a".toList true, Act.execute "b".toList true] ∧
    step (run { maxConcurrentTasks := 1, timeout := 0, progressStatusOnly := false }
        [Act.execute "a".toList true, Act.execute "b".toList true])
      (Act.cancel 7 "user_request".toList)
      = run { maxConcurrentTasks := 1, timeout := 0, progressStatusOnly := false }
        [Act.execute "a".toList true, Act.execute "b".toList true] := by
  constructor
  · exact (c10_cancel_nonrunning_noop _ _ 1 "user_request".toList).1 (by decide)
  · exact (c10_cancel_nonrunning_noop _ _ 7 "user_request".toList).1 (by decide)

/-- C2: at most `maxConcurrent` tasks run at any time; an `execute` at the
limit enqueues the fresh task at the back of the FIFO queue, fires `queued`,
and does not start it; and when a running task's process closes, the queue
head is dequeued and started. -/
theorem c2_concurrency_limit_fifo (cfg : Cfg) (acts : List Act) :
    ((run cfg acts).running.length ≤ (run cfg acts).maxConcurrent) ∧
    (∀ cmd b, (run cfg acts).runningCount ≥ (run cfg acts).maxConcurrent →
      (step (run cfg acts) (Act.execute cmd b)).queue
        = (run cfg acts).queue ++ [(run cfg acts).nextId] ∧
      (step (run cfg acts) (Act.execute cmd b)).events
        = (run cfg acts).events ++ [Event.queued (run cfg acts).nextId] ∧
      (step (run cfg acts) (Act.execute cmd b)).running = (run cfg acts).running ∧
      (lookupInfo (step (run cfg acts) (Act.execute cmd b)) (run cfg acts).nextId).map
        TaskInfo.status = some TStatus.pending) ∧
    (∀ tid code h rest, tid ∈ runningIds (run cfg acts) →
      (run cfg acts).queue = h :: rest →
      (step (run cfg acts) (Act.procClose tid code true)).queue = rest ∧
      h ∈ runningIds (step (run cfg acts) (Act.procClose tid code true)) ∧
      (lookupInfo (step (run cfg acts) (Act.procClose tid code true)) h).map
        TaskInfo.status = some TStatus.running ∧
      Event.started h ∈ (step (run cfg acts) (Act.procClose tid code true)).events) := by
  have hi := inv_run cfg acts
  refine ⟨hi.countLe, ?_, ?_⟩
  · intro cmd b hcap
    show _ ∧ _ ∧ _ ∧ _
    have hfresh : (run cfg acts).nextId ∉ (run cfg acts).heap.map Prod.fst := by
      intro hm
      exact absurd (hi.heapFresh _ hm) (lt_irrefl _)
    unfold step execute
    simp only []
    split
    · refine ⟨by simp, by simp, by simp, ?_⟩
      rw [lookupInfo_emitE, lookupInfo_pushQueue, lookupInfo_registerTask]
      rw [show lookupInfo (run cfg acts) (run cfg acts).nextId
        = alLookup (run cfg acts).heap (run cfg acts).nextId from rfl,
        alLookup_eq_none_of_not_mem _ _ hfresh]
      simp
    · rename_i hcon
      exfalso
      exact hcon (by simpa using hcap)
  · intro tid code h rest hruntid hq
    rcases procClose_finalizes (run cfg acts) tid code true hi hruntid with
      ⟨s1, rt1, p, heq, hi1, hrt1, hfin1, hq1, _, _, _⟩
    show (procClose (run cfg acts) tid code true).queue = rest ∧
      h ∈ runningIds (procClose (run cfg acts) tid code true) ∧
      (lookupInfo (procClose (run cfg acts) tid code true) h).map TaskInfo.status
        = some TStatus.running ∧
      Event.started h ∈ (procClose (run cfg acts) tid code true).events
    rw [heq]
    rcases finalize_advances s1 tid rt1 p hi1 hrt1 hfin1 h rest (by rw [hq1, hq]) with
      ⟨ha1, ha2, ha3, ha4, _⟩
    exact ⟨ha1, ha2, ha3, ha4⟩

/-- Witness for C2 at concrete runs: with limit 1, a second `execute` queues
task 1; closing task 0 then starts the queued task 1. -/
theorem c2_concurrency_limit_fifo_witness :
    (step (run { maxConcurrentTasks := 1, timeout := 0, progressStatusOnly := false }
        [Act.execute "a".toList true])
      (Act.execute "b".toList true)).queue = [1] ∧
    (step (run { maxConcurrentTasks := 1, timeout := 0, progressStatusOnly := false }
        [Act.execute "a".toList true, Act.execute "b".toList true])
      (Act.procClose 0 (some 0) true)).queue = [] ∧
    1 ∈ runningIds (step (run { maxConcurrentTasks := 1, timeout := 0, progressStatusOnly := false }
        [Act.execute "a".toList true, Act.execute "b".toList true])
      (Act.procClose 0 (some 0) true)) := by
  refine ⟨?_, ?_, ?_⟩
  · have h1 := (c2_concurrency_limit_fifo
      { maxConcurrentTasks := 1, timeout := 0, progressStatusOnly := false }
      [Act.execute "a".toList true]).2.1 "b".toList true (by decide)
    rw [h1.1]
    decide
  · have h2 := (c2_concurrency_limit_fifo
      { maxConcurrentTasks := 1, timeout := 0, progressStatusOnly := false }
      [Act.execute "a".toList true, Act.execute "b".toList true]).2.2 0 (some 0) 1 []
      (by decide) (by decide)
    exact h2.1
  · have h2 := (c2_concurrency_limit_fifo
      { maxConcurrentTasks := 1, timeout := 0, progressStatusOnly := false }
      [Act.execute "a".toList true, Act.execute "b".toList true]).2.2 0 (some 0) 1 []
      (by decide) (by decide)
    exact h2.2.1

/-- The `error`-event handler is exactly a failed finalization. -/
theorem procError_finalizes (s : ExecState) (tid : Nat) (msg : Str) (b : Bool) (rt : RMeta)
    (hrt : lookupRt s tid = some rt) :
    procError s tid msg b =
      finalizeTask s tid rt { status := TStatus.failed, code := none, error := some msg } b := by
  unfold procError
  rw [hrt]

/-- A genuine finalization with an empty queue releases the slot and leaves
the queue empty (nothing to advance). -/
theorem processQueue_empty (s4 : ExecState) (b : Bool) (h : s4.queue = []) :
    processQueue s4 b = s4 := by
  unfold processQueue
  rw [if_pos (by rw [h]; simp)]

/-- A genuine finalization with an empty queue releases the slot and leaves
the queue empty (nothing to advance). -/
theorem finalize_empty_queue (s : ExecState) (tid : Nat) (rt : RMeta) (p : FinalizeParams)
    (b : Bool) (hfin : rt.finalized = false) (hq : s.queue = []) :
    (finalizeTask s tid rt p b).runningCount = s.runningCount - 1 ∧
    (finalizeTask s tid rt p b).queue = [] := by
  unfold finalizeTask
  rw [if_neg (by rw [hfin]; exact Bool.false_ne_true)]
  simp only []
  by_cases hst1 : p.status = TStatus.completed
  · rw [if_pos hst1]
    constructor <;> simp [hq, processQueue_empty]
  · rw [if_neg hst1]
    by_cases hst2 : p.status = TStatus.failed
    · rw [if_pos hst2]
      constructor <;> simp [hq, processQueue_empty]
    · rw [if_neg hst2]
      constructor <;> simp [hq, processQueue_empty]

/-- C3 counterexample: a spawn failure at an explicit input does emit a
`started` event (the task transiently enters `running`) before the failure
event — refuting "no started event is emitted for it". -/
theorem c3_counterexample :
    (run { maxConcurrentTasks := 1, timeout := 0, progressStatusOnly := false }
      [Act.execute "x".toList false]).events
      = [Event.started 0, Event.errored 0 "spawn failed".toList] ∧
    Event.started 0 ∈ (run { maxConcurrentTasks := 1, timeout := 0, progressStatusOnly := false }
      [Act.execute "x".toList false]).events ∧
    (lookupInfo (run { maxConcurrentTasks := 1, timeout := 0, progressStatusOnly := false }
      [Act.execute "x".toList false]) 0).map TaskInfo.status = some TStatus.failed := by
  refine ⟨by decide, by decide, by decide⟩

set_option maxRecDepth 8000 in
/-- C3 amended: on spawn failure the task becomes `failed` immediately with a
failure event — but only after a `started` event (it transiently enters
`running` within the same synchronous call) — and the concurrency slot is
released synchronously: the running count and the running table are exactly
as before, and the queue is untouched. -/
theorem c3_spawn_failure_amended (cfg : Cfg) (acts : List Act) (cmd : Str)
    (hcap : (run cfg acts).runningCount < (run cfg acts).maxConcurrent) :
    (step (run cfg acts) (Act.execute cmd false)).events
      = (run cfg acts).events ++ [Event.started (run cfg acts).nextId,
          Event.errored (run cfg acts).nextId "spawn failed".toList] ∧
    (lookupInfo (step (run cfg acts) (Act.execute cmd false)) (run cfg acts).nextId).map
      TaskInfo.status = some TStatus.failed ∧
    (step (run cfg acts) (Act.execute cmd false)).runningCount = (run cfg acts).runningCount ∧
    (step (run cfg acts) (Act.execute cmd false)).running = (run cfg acts).running ∧
    (step (run cfg acts) (Act.execute cmd false)).queue = (run cfg acts).queue := by
  have hi := inv_run cfg acts
  have hfresh : (run cfg acts).nextId ∉ (run cfg acts).heap.map Prod.fst := by
    intro hm
    exact absurd (hi.heapFresh _ hm) (lt_irrefl _)
  have hreg : ∀ info : TaskInfo,
      lookupInfo (registerTask (run cfg acts) (run cfg acts).nextId info)
        (run cfg acts).nextId = some info := by
    intro info
    rw [lookupInfo_registerTask,
      show lookupInfo (run cfg acts) (run cfg acts).nextId
        = alLookup (run cfg acts).heap (run cfg acts).nextId from rfl,
      alLookup_eq_none_of_not_mem _ _ hfresh]
    simp
  unfold step execute
  simp only []
  split
  · rename_i hcon
    exfalso
    have : ¬ (run cfg acts).runningCount ≥ (run cfg acts).maxConcurrent := by omega
    exact this (by simpa using hcon)
  · unfold startTask
    rw [hreg]
    simp only [Bool.not_false, if_pos rfl]
    refine ⟨by simp, ?_, by simp, by simp, by simp⟩
    simp only [if_true, lookupInfo_emitE, lookupInfo_dropCount, lookupInfo_bumpCount,
      lookupInfo_updateInfo, if_pos rfl, hreg]
    rfl

/-- Witness for the amended C3 at a concrete input. -/
theorem c3_spawn_failure_amended_witness :
    (step (run { maxConcurrentTasks := 1, timeout := 0, progressStatusOnly := false } [])
      (Act.execute "x".toList false)).events
      = [Event.started 0, Event.errored 0 "spawn failed".toList] := by
  have h := c3_spawn_failure_amended
    { maxConcurrentTasks := 1, timeout := 0, progressStatusOnly := false } [] "x".toList
    (by decide)
  rw [h.1]
  decide

/-- C4 counterexample: after the trace below, task 0 completes; the queue head
(task 1) is dequeued and started with a failing spawn; that spawn-failure
terminal transition frees the slot again but does not re-run queue
advancement. The final state has a non-empty queue (task 2 still waiting,
still `pending`) while the running count (0) is strictly below the concurrency
limit (1) — refuting both "every terminal transition triggers queue
advancement" and "whenever the queue is non-empty the running count equals the
concurrency limit". -/
theorem c4_counterexample :
    (run { maxConcurrentTasks := 1, timeout := 0, progressStatusOnly := false }
      [Act.execute "a".toList true, Act.execute "b".toList true,
       Act.execute "c".toList true, Act.procClose 0 (some 0) false]).queue = [2] ∧
    (run { maxConcurrentTasks := 1, timeout := 0, progressStatusOnly := false }
      [Act.execute "a".toList true, Act.execute "b".toList true,
       Act.execute "c".toList true, Act.procClose 0 (some 0) false]).runningCount = 0 ∧
    (run { maxConcurrentTasks := 1, timeout := 0, progressStatusOnly := false }
      [Act.execute "a".toList true, Act.execute "b".toList true,
       Act.execute "c".toList true, Act.procClose 0 (some 0) false]).maxConcurrent = 1 ∧
    Event.errored 1 "spawn failed".toList ∈
      (run { maxConcurrentTasks := 1, timeout := 0, progressStatusOnly := false }
        [Act.execute "a".toList true, Act.execute "b".toList true,
         Act.execute "c".toList true, Act.procClose 0 (some 0) false]).events ∧
    (lookupInfo (run { maxConcurrentTasks := 1, timeout := 0, progressStatusOnly := false }
      [Act.execute "a".toList true, Act.execute "b".toList true,
       Act.execute "c".toList true, Act.procClose 0 (some 0) false]) 2).map TaskInfo.status
      = some TStatus.pending := by
  refine ⟨by decide, by decide, by decide, by decide, by decide⟩

/-- C4 amended: a genuine terminal transition delivered by the process close
event for a live running task frees the slot and queue advancement is
attempted right there: if the queue is non-empty and the next spawn succeeds,
the head is dequeued and started (the running count is restored); if the
queue is empty the running count simply drops by one. A spawn-failure
terminal transition, by contrast, does not re-run queue advancement. -/
theorem c4_terminal_transition_advances (cfg : Cfg) (acts : List Act) (tid : Nat)
    (code : Option Int) (htid : tid ∈ runningIds (run cfg acts)) :
    (∀ h rest, (run cfg acts).queue = h :: rest →
      (step (run cfg acts) (Act.procClose tid code true)).queue = rest ∧
      h ∈ runningIds (step (run cfg acts) (Act.procClose tid code true)) ∧
      (lookupInfo (step (run cfg acts) (Act.procClose tid code true)) h).map TaskInfo.status
        = some TStatus.running ∧
      Event.started h ∈ (step (run cfg acts) (Act.procClose tid code true)).events ∧
      (step (run cfg acts) (Act.procClose tid code true)).runningCount
        = (run cfg acts).runningCount) ∧
    ((run cfg acts).queue = [] → ∀ b,
      (step (run cfg acts) (Act.procClose tid code b)).runningCount
        = (run cfg acts).runningCount - 1 ∧
      (step (run cfg acts) (Act.procClose tid code b)).queue = []) := by
  have hi := inv_run cfg acts
  constructor
  · intro h rest hq
    have hstep : step (run cfg acts) (Act.procClose tid code true)
        = procClose (run cfg acts) tid code true := rfl
    rw [hstep]
    rcases procClose_finalizes (run cfg acts) tid code true hi htid with
      ⟨s1, rt1, p, heq, hi1, hrt1, hfin1, hq1, hc1, hridk, dd, hev1, hddk⟩
    rw [heq]
    have hadv := finalize_advances s1 tid rt1 p hi1 hrt1 hfin1 h rest (by rw [hq1, hq])
    refine ⟨hadv.1, hadv.2.1, hadv.2.2.1, hadv.2.2.2.1, ?_⟩
    rw [hadv.2.2.2.2, hc1]
  · intro hq b
    have hstep : step (run cfg acts) (Act.procClose tid code b)
        = procClose (run cfg acts) tid code b := rfl
    rw [hstep]
    rcases procClose_finalizes (run cfg acts) tid code b hi htid with
      ⟨s1, rt1, p, heq, hi1, hrt1, hfin1, hq1, hc1, hridk, dd, hev1, hddk⟩
    rw [heq]
    have hemp := finalize_empty_queue s1 tid rt1 p b hfin1 (by rw [hq1, hq])
    refine ⟨?_, hemp.2⟩
    rw [hemp.1, hc1]

/-- Witness for the amended C4 at concrete inputs: with limit 1, finishing
task 0 dequeues and starts the queued task 1, and finishing a lone task
simply frees the slot. -/
theorem c4_terminal_transition_advances_witness :
    (step (run { maxConcurrentTasks := 1, timeout := 0, progressStatusOnly := false }
        [Act.execute "a".toList true, Act.execute "b".toList true])
      (Act.procClose 0 (some 0) true)).queue = [] ∧
    1 ∈ runningIds (step (run { maxConcurrentTasks := 1, timeout := 0, progressStatusOnly := false }
        [Act.execute "a".toList true, Act.execute "b".toList true])
      (Act.procClose 0 (some 0) true)) ∧
    (step (run { maxConcurrentTasks := 1, timeout := 0, progressStatusOnly := false }
        [Act.execute "a".toList true])
      (Act.procClose 0 (some 0) true)).runningCount = 0 := by
  have h1 := c4_terminal_transition_advances
    { maxConcurrentTasks := 1, timeout := 0, progressStatusOnly := false }
    [Act.execute "a".toList true, Act.execute "b".toList true] 0 (some 0) (by decide)
  have h2 := c4_terminal_transition_advances
    { maxConcurrentTasks := 1, timeout := 0, progressStatusOnly := false }
    [Act.execute "a".toList true] 0 (some 0) (by decide)
  rcases h1.1 1 [] (by decide) with ⟨ha, hb, h3, h4, h5⟩
  rcases h2.2 (by decide) true with ⟨hc, h6⟩
  exact ⟨ha, hb, by rw [hc]; decide⟩

/-- C7 counterexample: feeding the stdout parser the single structured line
\x7b"type":"text","part":\x7b"text":"hello"\x7d\x7d for running task 0 emits
zero progress events, not one — `handleTaskOutput` only accumulates output and
updates the stored progress field; `emitProgress` is never reached on the
`text` path. -/
theorem c7_counterexample :
    countProgress 0 (run { maxConcurrentTasks := 1, timeout := 0, progressStatusOnly := false }
      [Act.execute "x".toList true,
       Act.stdoutChunk 0 "\x7b\"type\":\"text\",\"part\":\x7b\"text\":\"hello\"\x7d\x7d\n".toList]).events
      = 0 := by
  decide

/-- C7 amended: the structured `text` line updates the task silently — no
progress event is emitted (`countProgress` stays 0 and the whole event list is
just the `started` event), but the stored progress field becomes "hello" and
the accumulated output, joined, contains "hello". -/
theorem c7_stdout_text_line_amended :
    countProgress 0 (run { maxConcurrentTasks := 1, timeout := 0, progressStatusOnly := false }
      [Act.execute "x".toList true,
       Act.stdoutChunk 0 "\x7b\"type\":\"text\",\"part\":\x7b\"text\":\"hello\"\x7d\x7d\n".toList]).events
      = 0 ∧
    (run { maxConcurrentTasks := 1, timeout := 0, progressStatusOnly := false }
      [Act.execute "x".toList true,
       Act.stdoutChunk 0 "\x7b\"type\":\"text\",\"part\":\x7b\"text\":\"hello\"\x7d\x7d\n".toList]).events
      = [Event.started 0] ∧
    (lookupInfo (run { maxConcurrentTasks := 1, timeout := 0, progressStatusOnly := false }
      [Act.execute "x".toList true,
       Act.stdoutChunk 0 "\x7b\"type\":\"text\",\"part\":\x7b\"text\":\"hello\"\x7d\x7d\n".toList]) 0).map
        TaskInfo.progress = some (some "hello".toList) ∧
    (lookupInfo (run { maxConcurrentTasks := 1, timeout := 0, progressStatusOnly := false }
      [Act.execute "x".toList true,
       Act.stdoutChunk 0 "\x7b\"type\":\"text\",\"part\":\x7b\"text\":\"hello\"\x7d\x7d\n".toList]) 0).map
        (fun i => strIncludes (jsJoin "\n".toList i.output) "hello".toList) = some true := by
  refine ⟨by decide, by decide, by decide, by decide⟩

/-! ### The idle watchdog (claim C5): configuration constancy -/

theorem markTaskActivity_cfg (s : ExecState) (tid : Nat) :
    (markTaskActivity s tid).cfg = s.cfg := by
  unfold markTaskActivity
  cases lookupRt s tid with
  | none => rfl
  | some rt =>
      simp only []
      split
      · rfl
      · rfl

theorem startTask_cfg (s : ExecState) (tid : Nat) (b : Bool) :
    (startTask s tid b).cfg = s.cfg := by
  unfold startTask
  cases lookupInfo s tid with
  | none => rfl
  | some info =>
      simp only []
      split
      · rfl
      · rw [markTaskActivity_cfg]
        rfl

theorem processQueue_cfg (s : ExecState) (b : Bool) :
    (processQueue s b).cfg = s.cfg := by
  unfold processQueue
  split
  · rfl
  · split
    · rfl
    · rw [startTask_cfg]

theorem finalizeTask_cfg (s : ExecState) (tid : Nat) (rt : RMeta) (p : FinalizeParams)
    (b : Bool) : (finalizeTask s tid rt p b).cfg = s.cfg := by
  unfold finalizeTask
  split
  · rfl
  · simp only []
    rw [processQueue_cfg, cleanupTask_cfg]
    split
    · rfl
    · split
      · rfl
      · rfl

theorem cancelTask_cfg (s : ExecState) (tid : Nat) (reason : Str) :
    (cancelTask s tid reason).cfg = s.cfg := by
  unfold cancelTask
  cases lookupRt s tid with
  | none => rfl
  | some rt => rfl

theorem timerFire_cfg (s : ExecState) (tid : Nat) :
    (timerFire s tid).cfg = s.cfg := by
  unfold timerFire
  cases lookupRt s tid with
  | none => rfl
  | some rt =>
      simp only []
      cases rt.deadline with
      | none => rfl
      | some d =>
          simp only []
          split
          · rfl
          · split
            · rfl
            · rw [cancelTask_cfg]
              rfl

theorem procError_cfg (s : ExecState) (tid : Nat) (msg : Str) (b : Bool) :
    (procError s tid msg b).cfg = s.cfg := by
  unfold procError
  cases lookupRt s tid with
  | none => rfl
  | some rt => rw [finalizeTask_cfg]

theorem procClose_cfg (s : ExecState) (tid : Nat) (code : Option Int) (b : Bool) :
    (procClose s tid code b).cfg = s.cfg := by
  unfold procClose
  cases lookupRt s tid with
  | none => rfl
  | some rt =>
      simp only []
      split
      · rename_i rt1 info heq1 heq2
        split
        · rw [finalizeTask_cfg]
          exact (frame_flushStdoutBuffer tid s).cfg
        · split
          · rw [finalizeTask_cfg]
            exact (frame_flushStdoutBuffer tid s).cfg
          · rw [finalizeTask_cfg]
            exact (frame_flushStdoutBuffer tid s).cfg
      · exact (frame_flushStdoutBuffer tid s).cfg

theorem execute_cfg (s : ExecState) (cmd : Str) (b : Bool) :
    (execute s cmd b).cfg = s.cfg := by
  unfold execute
  simp only []
  split
  · rfl
  · rw [startTask_cfg]
    rfl

theorem step_cfg (s : ExecState) (a : Act) : (step s a).cfg = s.cfg := by
  cases a with
  | execute cmd b => exact execute_cfg s cmd b
  | cancel tid reason => exact cancelTask_cfg s tid reason
  | stdoutChunk tid data => exact (frameW_handleTaskStdout tid s data).cfg
  | stderrChunk tid data =>
      have hstep : step s (Act.stderrChunk tid data) =
          (match lookupRt s tid with
           | none => s
           | some _ => handleTaskStderr s tid data) := rfl
      rw [hstep]
      cases lookupRt s tid with
      | none => rfl
      | some rt => exact (frameW_handleTaskStderr tid s data).cfg
  | procError tid msg b => exact procError_cfg s tid msg b
  | procClose tid code b => exact procClose_cfg s tid code b
  | timerFire tid => exact timerFire_cfg s tid
  | tick dt => rfl

theorem run_cfg (cfg : Cfg) (acts : List Act) : (run cfg acts).cfg = cfg := by
  unfold run
  have hgo : ∀ (l : List Act) (s : ExecState), (l.foldl step s).cfg = s.cfg := by
    intro l
    induction l with
    | nil => intro s; rfl
    | cons a rest ih =>
        intro s
        rw [List.foldl_cons, ih, step_cfg]
  rw [hgo]
  rfl

/-! ### The idle watchdog (claim C5): deadline safety -/

theorem alLookup_mem {A : Type} (l : List (Nat × A)) (t : Nat) (v : A)
    (h : alLookup l t = some v) : (t, v) ∈ l := by
  induction l with
  | nil => simp [alLookup] at h
  | cons p rest ih =>
      obtain ⟨a, b⟩ := p
      rw [alLookup_cons] at h
      by_cases hp : a = t
      · rw [if_pos hp] at h
        simp only [Option.some.injEq] at h
        subst hp
        subst h
        exact List.mem_cons_self _ _
      · rw [if_neg hp] at h
        exact List.mem_cons_of_mem _ (ih h)

theorem alLookup_of_mem_nodup {A : Type} (l : List (Nat × A)) (t : Nat) (v : A)
    (hm : (t, v) ∈ l) (hnd : (l.map Prod.fst).Nodup) : alLookup l t = some v := by
  induction l with
  | nil => simp at hm
  | cons p rest ih =>
      rw [List.map_cons, List.nodup_cons] at hnd
      rw [alLookup_cons]
      rcases List.mem_cons.mp hm with heq | hmem
      · rw [← heq]
        simp
      · have hne : p.1 ≠ t := by
          intro he
          exact hnd.1 (by rw [he]; exact List.mem_map_of_mem Prod.fst hmem)
        rw [if_neg hne]
        exact ih hmem hnd.2

theorem deadOk_congr {s s' : ExecState} (hr : s'.running = s.running)
    (hnow : s'.now = s.now) (hd : DeadOk s) : DeadOk s' := by
  intro t rt d hrt hdl
  rw [hnow]
  refine hd t rt d ?_ hdl
  rw [show lookupRt s t = alLookup s.running t from rfl, ← hr]
  exact hrt

theorem deadOk_of_frame {tid : Nat} {s s' : ExecState} (hf : Frame tid s s')
    (hd : DeadOk s) : DeadOk s' := by
  intro t rt d hrt hdl
  have hm := hf.rtMeta t
  rw [hrt] at hm
  cases hs : lookupRt s t with
  | none => rw [hs] at hm; simp at hm
  | some rt0 =>
      rw [hs] at hm
      simp only [Option.map_some', Option.some.injEq, Prod.mk.injEq] at hm
      rw [hf.now]
      have h3 : rt0.deadline = some d := by rw [← hm.2.2, hdl]
      have := hd t rt0 d hs h3
      rw [hm.2.1]
      exact this

theorem frame_deadline {tid : Nat} {s s' : ExecState} (hf : Frame tid s s') (t : Nat) :
    (lookupRt s' t).map (fun r => r.deadline) = (lookupRt s t).map (fun r => r.deadline) := by
  have hm := hf.rtMeta t
  cases hs' : lookupRt s' t with
  | none =>
      rw [hs'] at hm
      cases hs : lookupRt s t with
      | none => rfl
      | some r0 => rw [hs] at hm; simp at hm
  | some r1 =>
      rw [hs'] at hm
      cases hs : lookupRt s t with
      | none => rw [hs] at hm; simp at hm
      | some r0 =>
          rw [hs] at hm
          simp only [Option.map_some', Option.some.injEq, Prod.mk.injEq] at hm
          simp [hm.2.2]

theorem noTO_snoc (evs : List Event) (e : Event) (hn : NoTO evs)
    (he : ∀ t, e ≠ Event.cancelled t timeoutReason) : NoTO (evs ++ [e]) := by
  intro t hm
  rcases List.mem_append.mp hm with h | h
  · exact hn t h
  · simp only [List.mem_singleton] at h
    exact he t h.symm

theorem noTO_of_frame {tid : Nat} {s s' : ExecState} (hf : Frame tid s s')
    (hn : NoTO s.events) : NoTO s'.events := by
  rcases hf.events with ⟨delta, heq, hdelta⟩
  rw [heq]
  intro t hm
  rcases List.mem_append.mp hm with h | h
  · exact hn t h
  · rcases hdelta _ h with ⟨sid, he⟩ | ⟨x, he⟩ <;> simp at he

theorem deadOk_updateRt_pres (s : ExecState) (tid : Nat) (f : RMeta → RMeta)
    (hf : ∀ r, (f r).timeoutMs = r.timeoutMs ∧
      ((f r).deadline = r.deadline ∨ (f r).deadline = none))
    (hd : DeadOk s) : DeadOk (updateRt s tid f) := by
  intro t rt d hrt hdl
  rw [lookupRt_updateRt] at hrt
  rw [updateRt_now]
  by_cases h : tid = t
  · rw [if_pos h] at hrt
    cases hs : lookupRt s t with
    | none => rw [hs] at hrt; simp at hrt
    | some rt0 =>
        rw [hs] at hrt
        simp only [Option.map_some', Option.some.injEq] at hrt
        rcases hf rt0 with ⟨ht, hdor⟩
        rcases hdor with hsame | hnone
        · have h3 : rt0.deadline = some d := by rw [← hsame, hrt, hdl]
          have := hd t rt0 d hs h3
          rw [← hrt, ht]
          exact this
        · rw [← hrt, hnone] at hdl
          simp at hdl
  · rw [if_neg h] at hrt
    exact hd t rt d hrt hdl

theorem deadOk_markTaskActivity (s : ExecState) (tid : Nat) (hd : DeadOk s) :
    DeadOk (markTaskActivity s tid) := by
  unfold markTaskActivity
  cases hrt : lookupRt s tid with
  | none => exact hd
  | some rt =>
      simp only []
      split
      · exact hd
      · rename_i hguard
        simp only [Bool.or_eq_true, not_or, decide_eq_true_eq] at hguard
        intro t rt' d hrt' hdl
        rw [lookupRt_updateRt] at hrt'
        rw [updateRt_now]
        by_cases h : tid = t
        · rw [if_pos h, ← h, hrt] at hrt'
          simp only [Option.map_some', Option.some.injEq] at hrt'
          rw [← hrt'] at hdl
          simp only [Option.some.injEq] at hdl
          rw [← hrt']
          simp only []
          constructor
          · omega
          · have := hguard.2
            omega
        · rw [if_neg h] at hrt'
          exact hd t rt' d hrt' hdl

theorem deadOk_pushRunning_none (s : ExecState) (tid : Nat) (rt : RMeta)
    (hdl : rt.deadline = none) (hd : DeadOk s) : DeadOk (pushRunning s tid rt) := by
  intro t rt' d hrt' hdl'
  rw [show lookupRt (pushRunning s tid rt) t = alLookup (s.running ++ [(tid, rt)]) t from rfl,
    alLookup_append] at hrt'
  rw [show (pushRunning s tid rt).now = s.now from rfl]
  cases hs : alLookup s.running t with
  | some v =>
      rw [hs] at hrt'
      simp only [] at hrt'
      simp only [Option.some.injEq] at hrt'
      rw [← hrt'] at hdl'
      rw [← hrt']
      exact hd t v d hs hdl'
  | none =>
      rw [hs] at hrt'
      simp only [] at hrt'
      rw [alLookup_cons] at hrt'
      by_cases h : tid = t
      · rw [if_pos h] at hrt'
        simp only [Option.some.injEq] at hrt'
        rw [← hrt', hdl] at hdl'
        simp at hdl'
      · rw [if_neg h] at hrt'
        simp [alLookup] at hrt'

theorem deadOk_cleanupTask (s : ExecState) (tid : Nat) (hd : DeadOk s) :
    DeadOk (cleanupTask s tid) := by
  intro t rt d hrt hdl
  rw [show lookupRt (cleanupTask s tid) t
    = alLookup (s.running.filter (fun p => p.1 ≠ tid)) t from rfl, alLookup_filterNe] at hrt
  rw [show (cleanupTask s tid).now = s.now from rfl]
  by_cases h : t = tid
  · rw [if_pos h] at hrt
    simp at hrt
  · rw [if_neg h] at hrt
    exact hd t rt d hrt hdl

theorem timerFire_of_deadOk (s : ExecState) (tid : Nat) (hd : DeadOk s) :
    timerFire s tid = s := by
  unfold timerFire
  cases hrt : lookupRt s tid with
  | none => rfl
  | some rt =>
      simp only []
      cases hdl : rt.deadline with
      | none => rfl
      | some d =>
          simp only []
          rw [if_pos (hd tid rt d hrt hdl).1]

/-! ### The idle watchdog (claim C5): step preservation -/

theorem deadOk_noTO_startTask (s : ExecState) (tid : Nat) (b : Bool) (hd : DeadOk s) :
    DeadOk (startTask s tid b) ∧
    (NoTO s.events → NoTO (startTask s tid b).events) := by
  unfold startTask
  cases hli : lookupInfo s tid with
  | none => exact ⟨hd, fun hn => hn⟩
  | some info =>
      simp only []
      split
      · constructor
        · exact deadOk_congr rfl rfl hd
        · intro hn
          simp only [emitE_events, dropCount_events, updateInfo_events, bumpCount_events]
          refine noTO_snoc _ _ ?_ (fun t => by simp)
          exact noTO_snoc _ _ hn (fun t => by simp)
      · constructor
        · apply deadOk_markTaskActivity
          apply deadOk_pushRunning_none _ _ _ rfl
          exact deadOk_congr rfl rfl hd
        · intro hn
          rw [markTaskActivity_events]
          simp only [pushRunning_events, emitE_events, bumpCount_events, updateInfo_events]
          exact noTO_snoc _ _ hn (fun t => by simp)

theorem deadOk_noTO_processQueue (s : ExecState) (b : Bool) (hd : DeadOk s) :
    DeadOk (processQueue s b) ∧
    (NoTO s.events → NoTO (processQueue s b).events) := by
  unfold processQueue
  split
  · exact ⟨hd, fun hn => hn⟩
  · split
    · exact ⟨hd, fun hn => hn⟩
    · exact deadOk_noTO_startTask _ _ _ (deadOk_congr rfl rfl hd)

theorem deadOk_noTO_finalizeTask (s : ExecState) (tid : Nat) (rt : RMeta)
    (p : FinalizeParams) (b : Bool) (hd : DeadOk s) :
    DeadOk (finalizeTask s tid rt p b) ∧
    (NoTO s.events → NoTO (finalizeTask s tid rt p b).events) := by
  unfold finalizeTask
  split
  · exact ⟨hd, fun hn => hn⟩
  · simp only []
    have hd1 : DeadOk (updateRt s tid (fun r => { r with finalized := true, deadline := none })) :=
      deadOk_updateRt_pres _ _ _ (fun r => ⟨rfl, Or.inr rfl⟩) hd
    refine (deadOk_noTO_processQueue _ _ ?_).imp id ?_
    · apply deadOk_cleanupTask
      split
      · exact deadOk_congr rfl rfl hd1
      · split
        · exact deadOk_congr rfl rfl hd1
        · exact deadOk_congr rfl rfl hd1
    · intro hpq hn
      apply hpq
      rw [cleanupTask_events]
      split
      · simp only [emitE_events, updateInfo_events, updateRt_events]
        exact noTO_snoc _ _ hn (fun t => by simp)
      · split
        · simp only [emitE_events, updateInfo_events, updateRt_events]
          exact noTO_snoc _ _ hn (fun t => by simp)
        · simp only [updateInfo_events, updateRt_events]
          exact hn

theorem deadOk_noTO_execute (s : ExecState) (cmd : Str) (b : Bool) (hd : DeadOk s) :
    DeadOk (execute s cmd b) ∧
    (NoTO s.events → NoTO (execute s cmd b).events) := by
  unfold execute
  simp only []
  split
  · constructor
    · exact deadOk_congr rfl rfl hd
    · intro hn
      simp only [emitE_events, pushQueue_events, registerTask_events]
      exact noTO_snoc _ _ hn (fun t => by simp)
  · exact deadOk_noTO_startTask _ _ _ (deadOk_congr rfl rfl hd)

theorem deadOk_cancelTask (s : ExecState) (tid : Nat) (reason : Str) (hd : DeadOk s) :
    DeadOk (cancelTask s tid reason) := by
  unfold cancelTask
  cases lookupRt s tid with
  | none => exact hd
  | some rt => exact deadOk_congr rfl rfl hd

theorem noTO_cancelTask (s : ExecState) (tid : Nat) (reason : Str)
    (hr : reason ≠ timeoutReason) (hn : NoTO s.events) :
    NoTO (cancelTask s tid reason).events := by
  unfold cancelTask
  cases lookupRt s tid with
  | none => exact hn
  | some rt =>
      simp only [emitE_events, updateInfo_events]
      refine noTO_snoc _ _ hn ?_
      intro t heq
      injection heq with h1 h2
      exact hr h2

theorem deadOk_noTO_handleTaskStdout (s : ExecState) (tid : Nat) (data : Str)
    (hd : DeadOk s) :
    DeadOk (handleTaskStdout s tid data) ∧
    (NoTO s.events → NoTO (handleTaskStdout s tid data).events) := by
  unfold handleTaskStdout
  split
  · exact ⟨hd, fun hn => hn⟩
  · cases hrt : lookupRt s tid with
    | none => exact ⟨hd, fun hn => hn⟩
    | some rt =>
        simp only []
        refine ⟨deadOk_of_frame (frame_foldl_lines tid _ _) ?_,
          fun hn => noTO_of_frame (frame_foldl_lines tid _ _) ?_⟩
        · exact deadOk_updateRt_pres _ _ _ (fun r => ⟨rfl, Or.inl rfl⟩)
            (deadOk_markTaskActivity s tid hd)
        · rw [updateRt_events, markTaskActivity_events]
          exact hn

theorem deadOk_noTO_handleTaskStderr (s : ExecState) (tid : Nat) (data : Str)
    (hd : DeadOk s) :
    DeadOk (handleTaskStderr s tid data) ∧
    (NoTO s.events → NoTO (handleTaskStderr s tid data).events) := by
  unfold handleTaskStderr
  simp only []
  split
  · have hfr : Frame tid (markTaskActivity s tid)
        (emitProgress (handleTaskOutput (markTaskActivity s tid) tid data) tid
          "⚠️ 收到错误输出，正在继续处理".toList) :=
      frame_trans tid _ _ _ (frame_handleTaskOutput tid _ data) (frame_emitProgress tid _ _)
    refine ⟨deadOk_of_frame hfr (deadOk_markTaskActivity s tid hd), fun hn => ?_⟩
    refine noTO_of_frame hfr ?_
    rw [markTaskActivity_events]
    exact hn
  · have hfr : Frame tid (markTaskActivity s tid)
        (handleTaskOutput (markTaskActivity s tid) tid data) :=
      frame_handleTaskOutput tid _ data
    refine ⟨deadOk_of_frame hfr (deadOk_markTaskActivity s tid hd), fun hn => ?_⟩
    refine noTO_of_frame hfr ?_
    rw [markTaskActivity_events]
    exact hn

theorem deadOk_noTO_procError (s : ExecState) (tid : Nat) (msg : Str) (b : Bool)
    (hd : DeadOk s) :
    DeadOk (procError s tid msg b) ∧
    (NoTO s.events → NoTO (procError s tid msg b).events) := by
  unfold procError
  cases lookupRt s tid with
  | none => exact ⟨hd, fun hn => hn⟩
  | some rt => exact deadOk_noTO_finalizeTask _ _ _ _ _ hd

theorem deadOk_noTO_procClose (s : ExecState) (tid : Nat) (code : Option Int) (b : Bool)
    (hd : DeadOk s) :
    DeadOk (procClose s tid code b) ∧
    (NoTO s.events → NoTO (procClose s tid code b).events) := by
  unfold procClose
  cases hrt : lookupRt s tid with
  | none => exact ⟨hd, fun hn => hn⟩
  | some rt =>
      simp only []
      have hfr := frame_flushStdoutBuffer tid s
      have hd1 := deadOk_of_frame hfr hd
      split
      · split
        · exact (deadOk_noTO_finalizeTask _ _ _ _ _ hd1).imp id
            (fun h hn => h (noTO_of_frame hfr hn))
        · split
          · exact (deadOk_noTO_finalizeTask _ _ _ _ _ hd1).imp id
              (fun h hn => h (noTO_of_frame hfr hn))
          · exact (deadOk_noTO_finalizeTask _ _ _ _ _ hd1).imp id
              (fun h hn => h (noTO_of_frame hfr hn))
      · exact ⟨hd1, fun hn => noTO_of_frame hfr hn⟩

theorem deadOk_noTO_step (s : ExecState) (a : Act) (hd : DeadOk s)
    (htick : ∀ dt, a = Act.tick dt → promptAct s a = true) :
    DeadOk (step s a) ∧
    (NoTO s.events → promptAct s a = true → NoTO (step s a).events) := by
  cases a with
  | execute cmd b =>
      exact (deadOk_noTO_execute s cmd b hd).imp id (fun h hn _ => h hn)
  | cancel tid reason =>
      refine ⟨deadOk_cancelTask s tid reason hd, fun hn hp => ?_⟩
      unfold promptAct at hp
      simp only [Bool.not_eq_true', beq_eq_false_iff_ne, ne_eq] at hp
      exact noTO_cancelTask s tid reason hp hn
  | stdoutChunk tid data =>
      exact (deadOk_noTO_handleTaskStdout s tid data hd).imp id (fun h hn _ => h hn)
  | stderrChunk tid data =>
      have hstep : step s (Act.stderrChunk tid data) =
          (match lookupRt s tid with
           | none => s
           | some _ => handleTaskStderr s tid data) := rfl
      rw [hstep]
      cases lookupRt s tid with
      | none => exact ⟨hd, fun hn _ => hn⟩
      | some rt =>
          exact (deadOk_noTO_handleTaskStderr s tid data hd).imp id (fun h hn _ => h hn)
  | procError tid msg b =>
      exact (deadOk_noTO_procError s tid msg b hd).imp id (fun h hn _ => h hn)
  | procClose tid code b =>
      exact (deadOk_noTO_procClose s tid code b hd).imp id (fun h hn _ => h hn)
  | timerFire tid =>
      rw [show step s (Act.timerFire tid) = timerFire s tid from rfl,
        timerFire_of_deadOk s tid hd]
      exact ⟨hd, fun hn _ => hn⟩
  | tick dt =>
      constructor
      · intro t rt d hrt hdl
        have hp := htick dt rfl
        unfold promptAct at hp
        rw [List.all_eq_true] at hp
        have hm := alLookup_mem s.running t rt hrt
        have hx := hp (t, rt) hm
        simp only [hdl, decide_eq_true_eq] at hx
        refine ⟨hx, (hd t rt d hrt hdl).2⟩
      · intro hn _
        exact hn

/-! ### The idle watchdog (claim C5): trace-level consequences -/

theorem deadOk_init (cfg : Cfg) : DeadOk (initState cfg) := by
  intro t rt d hrt hdl
  simp [lookupRt, initState, alLookup] at hrt

theorem noTO_init (cfg : Cfg) : NoTO (initState cfg).events := by
  intro t hm
  simp [initState] at hm

theorem deadOk_noTO_go (acts : List Act) :
    ∀ s : ExecState, DeadOk s → NoTO s.events → promptTrace s acts = true →
      DeadOk (acts.foldl step s) ∧ NoTO (acts.foldl step s).events := by
  induction acts with
  | nil => intro s hd hn _; exact ⟨hd, hn⟩
  | cons a rest ih =>
      intro s hd hn hp
      rw [List.foldl_cons]
      unfold promptTrace at hp
      rw [Bool.and_eq_true] at hp
      rcases deadOk_noTO_step s a hd (fun _ _ => hp.1) with ⟨hd', hn'⟩
      exact ih (step s a) hd' (hn' hn hp.1) hp.2

theorem deadOk_zero_go (cfg : Cfg) (hW : cfgTimeoutMs cfg = 0) (acts : List Act) :
    ∀ s : ExecState, ExecInv s → s.cfg = cfg → DeadOk s →
      DeadOk (acts.foldl step s) := by
  induction acts with
  | nil => intro s _ _ hd; exact hd
  | cons a rest ih =>
      intro s hi hcfg hd
      rw [List.foldl_cons]
      refine ih (step s a) (inv_step s a hi) (by rw [step_cfg, hcfg]) ?_
      refine (deadOk_noTO_step s a hd ?_).1
      intro dt ha
      subst ha
      unfold promptAct
      rw [List.all_eq_true]
      intro p hp
      have hl : lookupRt s p.1 = some p.2 := by
        apply alLookup_of_mem_nodup
        · exact hp
        · exact hi.runNodup
      cases hdl : p.2.deadline with
      | none => simp [hdl]
      | some d =>
          exfalso
          have h2 := (hd p.1 p.2 d hl hdl).2
          have h3 := hi.rtTimeout p.1 p.2 hl
          rw [hcfg, hW] at h3
          omega

theorem deadOk_run_zero (cfg : Cfg) (acts : List Act) (hW : cfgTimeoutMs cfg = 0) :
    DeadOk (run cfg acts) := by
  unfold run
  refine deadOk_zero_go cfg hW acts (initState cfg) ?_ rfl (deadOk_init cfg)
  exact inv_run cfg []

theorem rearm_markTaskActivity (s : ExecState) (tid : Nat) (rt : RMeta)
    (hrt : lookupRt s tid = some rt) (hfin : rt.finalized = false)
    (htm : 0 < rt.timeoutMs) :
    (lookupRt (markTaskActivity s tid) tid).map (fun r => r.deadline)
      = some (some (s.now + rt.timeoutMs)) := by
  unfold markTaskActivity
  rw [hrt]
  simp only []
  rw [if_neg (by rw [hfin]; simp; omega)]
  rw [lookupRt_updateRt, if_pos rfl, hrt]
  rfl

theorem rearm_handleTaskStdout (s : ExecState) (tid : Nat) (rt : RMeta) (data : Str)
    (hrt : lookupRt s tid = some rt) (hfin : rt.finalized = false)
    (htm : 0 < rt.timeoutMs) (hdata : data ≠ []) :
    (lookupRt (handleTaskStdout s tid data) tid).map (fun r => r.deadline)
      = some (some (s.now + rt.timeoutMs)) := by
  unfold handleTaskStdout
  rw [if_neg (by simp [hdata])]
  rw [hrt]
  simp only []
  rw [frame_deadline (frame_foldl_lines tid _ _) tid]
  rw [lookupRt_updateRt, if_pos rfl]
  have h1 := rearm_markTaskActivity s tid rt hrt hfin htm
  cases h2 : lookupRt (markTaskActivity s tid) tid with
  | none => rw [h2] at h1; simp at h1
  | some r1 =>
      rw [h2] at h1
      simp only [Option.map_some', Option.some.injEq] at h1
      simp only [Option.map_some', Option.some.injEq]
      exact h1

theorem rearm_handleTaskStderr (s : ExecState) (tid : Nat) (rt : RMeta) (data : Str)
    (hrt : lookupRt s tid = some rt) (hfin : rt.finalized = false)
    (htm : 0 < rt.timeoutMs) :
    (lookupRt (handleTaskStderr s tid data) tid).map (fun r => r.deadline)
      = some (some (s.now + rt.timeoutMs)) := by
  unfold handleTaskStderr
  simp only []
  have h1 := rearm_markTaskActivity s tid rt hrt hfin htm
  split
  · rw [frame_deadline (frame_trans tid _ _ _ (frame_handleTaskOutput tid _ data)
      (frame_emitProgress tid _ _)) tid]
    exact h1
  · rw [frame_deadline (frame_handleTaskOutput tid _ data) tid]
    exact h1

theorem timerFire_expired (s : ExecState) (tid : Nat) (rt : RMeta) (d : Nat)
    (hrt : lookupRt s tid = some rt) (hdl : rt.deadline = some d) (hexp : d ≤ s.now)
    (hfin : rt.finalized = false) (hinfo : (lookupInfo s tid).isSome = true) :
    (timerFire s tid).events = s.events ++ [Event.cancelled tid timeoutReason] ∧
    (lookupInfo (timerFire s tid) tid).map TaskInfo.status = some TStatus.cancelled := by
  unfold timerFire
  rw [hrt]
  simp only []
  rw [hdl]
  simp only []
  rw [if_neg (by omega)]
  rw [if_neg (by rw [hfin]; exact Bool.false_ne_true)]
  unfold cancelTask
  rw [lookupRt_updateRt, if_pos rfl, hrt]
  simp only [Option.map_some']
  constructor
  · simp [timeoutReason]
  · rw [lookupInfo_emitE, lookupInfo_updateInfo, if_pos rfl, lookupInfo_updateRt]
    cases hli : lookupInfo s tid with
    | none => rw [hli] at hinfo; simp at hinfo
    | some info => rfl

/-- C5: the idle watchdog. With a positive configured idle window W: (i) a
stdout or stderr chunk for a live running task re-arms its deadline to
now + W; (ii) once the armed deadline is reached without further output, the
timer callback cancels the task with the `timeout_no_progress` reason and
emits the cancellation event, regardless of total elapsed time; (iii) along
any trace whose clock advances never reach an armed deadline (output keeps
arriving within the window) and whose environment never cancels with the
reserved reason, no watchdog cancellation is ever emitted, no matter how long
the trace runs; (iv) when the configured window is zero (or the raw timeout
is non-positive), no deadline is ever armed and the timer callback is a
no-op. -/
theorem c5_idle_watchdog (cfg : Cfg) (acts : List Act) :
    (∀ tid data, tid ∈ runningIds (run cfg acts) → 0 < cfgTimeoutMs cfg → data ≠ [] →
      (lookupRt (step (run cfg acts) (Act.stdoutChunk tid data)) tid).map
          (fun r => r.deadline)
        = some (some ((run cfg acts).now + cfgTimeoutMs cfg)) ∧
      (lookupRt (step (run cfg acts) (Act.stderrChunk tid data)) tid).map
          (fun r => r.deadline)
        = some (some ((run cfg acts).now + cfgTimeoutMs cfg))) ∧
    (∀ tid rt d, lookupRt (run cfg acts) tid = some rt → rt.deadline = some d →
      d ≤ (run cfg acts).now →
      (step (run cfg acts) (Act.timerFire tid)).events
        = (run cfg acts).events ++ [Event.cancelled tid timeoutReason] ∧
      (lookupInfo (step (run cfg acts) (Act.timerFire tid)) tid).map TaskInfo.status
        = some TStatus.cancelled) ∧
    (promptTrace (initState cfg) acts = true →
      ∀ tid, Event.cancelled tid timeoutReason ∉ (run cfg acts).events) ∧
    (cfgTimeoutMs cfg = 0 →
      (∀ tid rt, lookupRt (run cfg acts) tid = some rt → rt.deadline = none) ∧
      (∀ tid, step (run cfg acts) (Act.timerFire tid) = run cfg acts)) := by
  refine ⟨?_, ?_, ?_, ?_⟩
  · intro tid data htid hW hdata
    have hi := inv_run cfg acts
    have hsome : (lookupRt (run cfg acts) tid).isSome = true :=
      (alLookup_isSome_iff _ _).mpr htid
    rcases hrt : lookupRt (run cfg acts) tid with _ | rt
    · rw [hrt] at hsome; simp at hsome
    have hfin := hi.rtNotFinal tid rt hrt
    have htm : rt.timeoutMs = cfgTimeoutMs cfg := by
      have h := hi.rtTimeout tid rt hrt
      rw [run_cfg] at h
      exact h
    constructor
    · rw [show step (run cfg acts) (Act.stdoutChunk tid data)
        = handleTaskStdout (run cfg acts) tid data from rfl]
      rw [rearm_handleTaskStdout _ _ rt data hrt hfin (by omega) hdata, htm]
    · rw [show step (run cfg acts) (Act.stderrChunk tid data)
        = (match lookupRt (run cfg acts) tid with
           | none => run cfg acts
           | some _ => handleTaskStderr (run cfg acts) tid data) from rfl]
      rw [hrt]
      simp only []
      rw [rearm_handleTaskStderr _ _ rt data hrt hfin (by omega), htm]
  · intro tid rt d hrt hdl hexp
    have hi := inv_run cfg acts
    have hfin := hi.rtNotFinal tid rt hrt
    have hmem : tid ∈ runningIds (run cfg acts) := by
      refine (alLookup_isSome_iff _ _).mp ?_
      rw [show alLookup (run cfg acts).running tid = lookupRt (run cfg acts) tid from rfl, hrt]
      rfl
    have hinfo := hi.runInHeap tid hmem
    rw [show step (run cfg acts) (Act.timerFire tid)
      = timerFire (run cfg acts) tid from rfl]
    exact timerFire_expired _ _ rt d hrt hdl hexp hfin hinfo
  · intro hp tid
    exact (deadOk_noTO_go acts (initState cfg) (deadOk_init cfg) (noTO_init cfg) hp).2 tid
  · intro hW
    have hdo := deadOk_run_zero cfg acts hW
    constructor
    · intro tid rt hrt
      cases hdl : rt.deadline with
      | none => rfl
      | some d =>
          exfalso
          have h2 := (hdo tid rt d hrt hdl).2
          have h3 := (inv_run cfg acts).rtTimeout tid rt hrt
          rw [run_cfg, hW] at h3
          omega
    · intro tid
      rw [show step (run cfg acts) (Act.timerFire tid)
        = timerFire (run cfg acts) tid from rfl]
      exact timerFire_of_deadOk _ _ hdo

/-- Witness for C5 at concrete inputs: with a 5ms window, a chunk at time 0
re-arms the deadline to 5; after ticking to time 5 with no output the timer
callback emits the watchdog cancellation; a trace that keeps producing output
within the window is never watchdog-cancelled; with window 0 the timer
callback is a no-op. -/
theorem c5_idle_watchdog_witness :
    (lookupRt (step (run { maxConcurrentTasks := 1, timeout := 5, progressStatusOnly := false }
        [Act.execute "x".toList true]) (Act.stdoutChunk 0 "y".toList)) 0).map
          (fun r => r.deadline)
      = some (some ((run { maxConcurrentTasks := 1, timeout := 5, progressStatusOnly := false }
          [Act.execute "x".toList true]).now
        + cfgTimeoutMs { maxConcurrentTasks := 1, timeout := 5, progressStatusOnly := false })) ∧
    (step (run { maxConcurrentTasks := 1, timeout := 5, progressStatusOnly := false }
        [Act.execute "x".toList true, Act.tick 5]) (Act.timerFire 0)).events
      = (run { maxConcurrentTasks := 1, timeout := 5, progressStatusOnly := false }
          [Act.execute "x".toList true, Act.tick 5]).events
        ++ [Event.cancelled 0 timeoutReason] ∧
    Event.cancelled 0 timeoutReason ∉
      (run { maxConcurrentTasks := 1, timeout := 5, progressStatusOnly := false }
        [Act.execute "x".toList true, Act.tick 3, Act.stdoutChunk 0 "y\n".toList,
         Act.tick 3, Act.timerFire 0]).events ∧
    step (run { maxConcurrentTasks := 1, timeout := 0, progressStatusOnly := false }
        [Act.execute "x".toList true]) (Act.timerFire 0)
      = run { maxConcurrentTasks := 1, timeout := 0, progressStatusOnly := false }
        [Act.execute "x".toList true] := by
  refine ⟨?_, ?_, ?_, ?_⟩
  · exact ((c5_idle_watchdog
      { maxConcurrentTasks := 1, timeout := 5, progressStatusOnly := false }
      [Act.execute "x".toList true]).1 0 "y".toList (by decide) (by decide)
      (by decide)).1
  · exact ((c5_idle_watchdog
      { maxConcurrentTasks := 1, timeout := 5, progressStatusOnly := false }
      [Act.execute "x".toList true, Act.tick 5]).2.1 0 ⟨0, 5, some 5, false, [], [], []⟩ 5
      (by decide) (by decide) (by decide)).1
  · exact (c5_idle_watchdog
      { maxConcurrentTasks := 1, timeout := 5, progressStatusOnly := false }
      [Act.execute "x".toList true, Act.tick 3, Act.stdoutChunk 0 "y\n".toList,
       Act.tick 3, Act.timerFire 0]).2.2.1 (by decide) 0
  · exact ((c5_idle_watchdog
      { maxConcurrentTasks := 1, timeout := 0, progressStatusOnly := false }
      [Act.execute "x".toList true]).2.2.2 (by decide)).2 0

/-! ### Terminal-event accounting (claim C1) -/

theorem isCE_eventFor (tid : Nat) (e : Event) (h : isCE tid e = true) :
    eventFor tid e = true := by
  cases e <;> simp [isCE, eventFor] at h ⊢ <;> exact h

theorem countCE_append (tid : Nat) (l1 l2 : List Event) :
    countCE tid (l1 ++ l2) = countCE tid l1 + countCE tid l2 := by
  simp [countCE, List.filter_append]

theorem countCE_eq_zero (tid : Nat) (l : List Event)
    (h : ∀ e ∈ l, eventFor tid e = false) : countCE tid l = 0 := by
  induction l with
  | nil => rfl
  | cons e rest ih =>
      have he := h e (List.mem_cons_self e rest)
      have hce : isCE tid e = false := by
        cases hc : isCE tid e
        · rfl
        · rw [isCE_eventFor tid e hc] at he
          exact absurd he (by simp)
      unfold countCE
      rw [List.filter_cons, if_neg (by rw [hce]; exact Bool.false_ne_true)]
      exact ih (fun e' he' => h e' (List.mem_cons_of_mem e he'))

theorem hasCE_iff (tid : Nat) (evs : List Event) :
    hasCE tid evs = true ↔ 0 < countCE tid evs := by
  constructor
  · intro h
    rcases List.any_eq_true.mp h with ⟨e, he, hie⟩
    have hm : e ∈ evs.filter (isCE tid) := List.mem_filter.mpr ⟨he, hie⟩
    exact List.length_pos.mpr (List.ne_nil_of_mem hm)
  · intro h
    rcases List.exists_mem_of_length_pos h with ⟨e, he⟩
    have := List.mem_filter.mp he
    exact List.any_eq_true.mpr ⟨e, this.1, this.2⟩

theorem startTask_delta (tid tid' : Nat) (s : ExecState) (b : Bool) :
    ∃ delta, (startTask s tid' b).events = s.events ++ delta ∧
      countCE tid delta ≤ 1 ∧
      (∀ e ∈ delta, eventFor tid e = true → tid = tid') := by
  unfold startTask
  cases lookupInfo s tid' with
  | none => exact ⟨[], by simp, by simp [countCE], by simp⟩
  | some info =>
      simp only []
      split
      · refine ⟨[Event.started tid', Event.errored tid' "spawn failed".toList], ?_, ?_, ?_⟩
        · simp only [emitE_events, dropCount_events, updateInfo_events, bumpCount_events]
          rw [List.append_assoc]
          rfl
        · cases h : tid' == tid <;> simp [countCE, isCE, List.filter, h]
        · intro e he hef
          simp only [List.mem_cons, List.not_mem_nil, or_false] at he
          rcases he with he | he <;>
            (subst he; simp only [eventFor, beq_iff_eq] at hef; exact hef.symm)
      · refine ⟨[Event.started tid'], ?_, ?_, ?_⟩
        · rw [markTaskActivity_events]
          simp only [pushRunning_events, emitE_events, bumpCount_events, updateInfo_events]
        · simp [countCE, isCE, List.filter]
        · intro e he hef
          simp only [List.mem_cons, List.not_mem_nil, or_false] at he
          subst he
          simp only [eventFor, beq_iff_eq] at hef
          exact hef.symm

theorem processQueue_delta (tid : Nat) (s : ExecState) (b : Bool) :
    ∃ delta, (processQueue s b).events = s.events ++ delta ∧
      countCE tid delta ≤ 1 ∧
      (∀ e ∈ delta, eventFor tid e = true → tid ∈ s.queue) := by
  unfold processQueue
  split
  · exact ⟨[], by simp, by simp [countCE], by simp⟩
  · split
    · exact ⟨[], by simp, by simp [countCE], by simp⟩
    · rename_i next rest hq
      rcases startTask_delta tid next { s with queue := rest } b with ⟨δ, h1, h2, h3⟩
      refine ⟨δ, h1, h2, ?_⟩
      intro e he hef
      rw [hq, h3 e he hef]
      exact List.mem_cons_self next rest

theorem cleanup_processQueue_delta (tid tid' : Nat) (x : ExecState) (b : Bool) :
    ∃ delta, (processQueue (cleanupTask x tid') b).events = x.events ++ delta ∧
      countCE tid delta ≤ 1 ∧
      (∀ e ∈ delta, eventFor tid e = true → tid ∈ x.queue) := by
  rcases processQueue_delta tid (cleanupTask x tid') b with ⟨δ, h1, h2, h3⟩
  refine ⟨δ, ?_, h2, ?_⟩
  · rw [h1, cleanupTask_events]
  · intro e he hef
    have := h3 e he hef
    rw [cleanupTask_queue] at this
    exact this

theorem finalizeTask_delta (tid tid' : Nat) (s : ExecState) (rt : RMeta)
    (p : FinalizeParams) (b : Bool) (hdisj : tid' ∉ s.queue) :
    ∃ delta, (finalizeTask s tid' rt p b).events = s.events ++ delta ∧
      countCE tid delta ≤ 1 ∧
      (∀ e ∈ delta, eventFor tid e = true → tid = tid' ∨ tid ∈ s.queue) := by
  unfold finalizeTask
  split
  · exact ⟨[], by simp, by simp [countCE], by simp⟩
  · simp only []
    split
    · obtain ⟨δ2, g1, g2, g3⟩ := cleanup_processQueue_delta tid tid' _ b
      refine ⟨Event.completed tid' :: δ2, ?_, ?_, ?_⟩
      · rw [g1]
        simp [List.append_assoc]
      · by_cases hc : tid = tid'
        · have hz : countCE tid δ2 = 0 := by
            apply countCE_eq_zero
            intro e he
            cases hef : eventFor tid e
            · rfl
            · exfalso
              have hq := g3 e he hef
              have hq' : tid ∈ s.queue := hq
              rw [hc] at hq'
              exact hdisj hq'
          unfold countCE
          rw [List.filter_cons, if_pos (by simp [isCE, hc])]
          have hz' : (List.filter (isCE tid) δ2).length = 0 := hz
          simp only [List.length_cons, hz']
          omega
        · unfold countCE
          rw [List.filter_cons,
            if_neg (by simp only [isCE, beq_iff_eq]; exact fun h => hc h.symm)]
          exact g2
      · intro e he hef
        rcases List.mem_cons.mp he with he | he
        · subst he
          simp only [eventFor, beq_iff_eq] at hef
          exact Or.inl hef.symm
        · exact Or.inr (g3 e he hef)
    · split
      · obtain ⟨δ2, g1, g2, g3⟩ := cleanup_processQueue_delta tid tid' _ b
        refine ⟨Event.errored tid' (p.error.getD "Unknown task error".toList) :: δ2, ?_, ?_, ?_⟩
        · rw [g1]
          simp [List.append_assoc]
        · by_cases hc : tid = tid'
          · have hz : countCE tid δ2 = 0 := by
              apply countCE_eq_zero
              intro e he
              cases hef : eventFor tid e
              · rfl
              · exfalso
                have hq := g3 e he hef
                have hq' : tid ∈ s.queue := hq
                rw [hc] at hq'
                exact hdisj hq'
            unfold countCE
            rw [List.filter_cons, if_pos (by simp [isCE, hc])]
            have hz' : (List.filter (isCE tid) δ2).length = 0 := hz
            simp only [List.length_cons, hz']
            omega
          · unfold countCE
            rw [List.filter_cons,
              if_neg (by simp only [isCE, beq_iff_eq]; exact fun h => hc h.symm)]
            exact g2
        · intro e he hef
          rcases List.mem_cons.mp he with he | he
          · subst he
            simp only [eventFor, beq_iff_eq] at hef
            exact Or.inl hef.symm
          · exact Or.inr (g3 e he hef)
      · obtain ⟨δ2, g1, g2, g3⟩ := cleanup_processQueue_delta tid tid' _ b
        refine ⟨δ2, ?_, g2, ?_⟩
        · rw [g1]
          simp only [updateInfo_events, updateRt_events]
        · intro e he hef
          exact Or.inr (g3 e he hef)

theorem countCE_eq_zero_of_noCE (tid : Nat) (l : List Event)
    (h : ∀ e ∈ l, isCE tid e = false) : countCE tid l = 0 := by
  induction l with
  | nil => rfl
  | cons e rest ih =>
      unfold countCE
      rw [List.filter_cons,
        if_neg (by rw [h e (List.mem_cons_self e rest)]; exact Bool.false_ne_true)]
      exact ih (fun e' he' => h e' (List.mem_cons_of_mem e he'))

theorem frameW_delta (tid tid' : Nat) {s s' : ExecState} (hf : FrameW tid' s s') :
    ∃ delta, s'.events = s.events ++ delta ∧ countCE tid delta = 0 ∧
      (∀ e ∈ delta, eventFor tid e = true → tid = tid') := by
  rcases hf.events with ⟨δ, h1, h2⟩
  refine ⟨δ, h1, ?_, ?_⟩
  · apply countCE_eq_zero_of_noCE
    intro e he
    rcases h2 e he with ⟨sid, he2⟩ | ⟨x, he2⟩ <;> (subst he2; rfl)
  · intro e he hef
    rcases h2 e he with ⟨sid, he2⟩ | ⟨x, he2⟩ <;>
      (subst he2; simp only [eventFor, beq_iff_eq] at hef; exact hef.symm)

theorem lookupRt_mem_runningIds (s : ExecState) (tid : Nat) (rt : RMeta)
    (hrt : lookupRt s tid = some rt) : tid ∈ runningIds s := by
  refine (alLookup_isSome_iff _ _).mp ?_
  rw [show alLookup s.running tid = lookupRt s tid from rfl, hrt]
  rfl

theorem cancelTask_delta (tid tid' : Nat) (s : ExecState) (reason : Str) :
    ∃ delta, (cancelTask s tid' reason).events = s.events ++ delta ∧
      countCE tid delta ≤ 1 ∧
      (∀ e ∈ delta, eventFor tid e = true → tid' ∈ runningIds s ∧ tid = tid') := by
  unfold cancelTask
  cases hrt : lookupRt s tid' with
  | none => exact ⟨[], by simp, by simp [countCE], by simp⟩
  | some rt =>
      refine ⟨[Event.cancelled tid' reason], by simp, by simp [countCE, isCE, List.filter], ?_⟩
      intro e he hef
      simp only [List.mem_singleton] at he
      subst he
      simp only [eventFor, beq_iff_eq] at hef
      exact ⟨lookupRt_mem_runningIds s tid' rt hrt, hef.symm⟩

theorem timerFire_delta (tid tid' : Nat) (s : ExecState) :
    ∃ delta, (timerFire s tid').events = s.events ++ delta ∧
      countCE tid delta ≤ 1 ∧
      (∀ e ∈ delta, eventFor tid e = true → tid ∈ runningIds s) := by
  unfold timerFire
  cases hrt : lookupRt s tid' with
  | none => exact ⟨[], by simp, by simp [countCE], by simp⟩
  | some rt =>
      simp only []
      cases rt.deadline with
      | none => exact ⟨[], by simp, by simp [countCE], by simp⟩
      | some d =>
          simp only []
          split
          · exact ⟨[], by simp, by simp [countCE], by simp⟩
          · split
            · exact ⟨[], by simp, by simp [countCE], by simp⟩
            · rcases cancelTask_delta tid tid'
                (updateRt s tid' (fun r => { r with deadline := none }))
                "timeout_no_progress".toList with ⟨δ, h1, h2, h3⟩
              refine ⟨δ, ?_, h2, ?_⟩
              · rw [h1, updateRt_events]
              · intro e he hef
                rcases h3 e he hef with ⟨hm, heq⟩
                rw [runningIds_updateRt] at hm
                rw [heq]
                exact hm

theorem procError_delta (tid tid' : Nat) (s : ExecState) (msg : Str) (b : Bool)
    (hi : ExecInv s) :
    ∃ delta, (procError s tid' msg b).events = s.events ++ delta ∧
      countCE tid delta ≤ 1 ∧
      (∀ e ∈ delta, eventFor tid e = true → tid ∈ runningIds s ∨ tid ∈ s.queue) := by
  unfold procError
  cases hrt : lookupRt s tid' with
  | none => exact ⟨[], by simp, by simp [countCE], by simp⟩
  | some rt =>
      have hmem := lookupRt_mem_runningIds s tid' rt hrt
      have hdisj : tid' ∉ s.queue := fun hq => hi.disj tid' hq hmem
      rcases finalizeTask_delta tid tid' s rt
        { status := TStatus.failed, code := none, error := some msg } b hdisj with ⟨δ, h1, h2, h3⟩
      refine ⟨δ, h1, h2, ?_⟩
      intro e he hef
      rcases h3 e he hef with heq | hq
      · exact Or.inl (by rw [heq]; exact hmem)
      · exact Or.inr hq

theorem procClose_delta (tid tid' : Nat) (s : ExecState) (code : Option Int) (b : Bool)
    (hi : ExecInv s) :
    ∃ delta, (procClose s tid' code b).events = s.events ++ delta ∧
      countCE tid delta ≤ 1 ∧
      (∀ e ∈ delta, eventFor tid e = true → tid ∈ runningIds s ∨ tid ∈ s.queue) := by
  unfold procClose
  cases hrt : lookupRt s tid' with
  | none => exact ⟨[], by simp, by simp [countCE], by simp⟩
  | some rt =>
      simp only []
      have hfr := frame_flushStdoutBuffer tid' s
      rcases frameW_delta tid tid' hfr.toW with ⟨δ0, f1, f2, f3⟩
      have hmem := lookupRt_mem_runningIds s tid' rt hrt
      have hdisj : tid' ∉ s.queue := fun hq => hi.disj tid' hq hmem
      have hdisj1 : tid' ∉ (flushStdoutBuffer s tid').queue := by
        rw [hfr.queue]
        exact hdisj
      split
      · rename_i rt1 info heq1 heq2
        have hfin : ∀ p : FinalizeParams,
            ∃ delta, (finalizeTask (flushStdoutBuffer s tid') tid' rt1 p b).events
                = s.events ++ delta ∧
              countCE tid delta ≤ 1 ∧
              (∀ e ∈ delta, eventFor tid e = true → tid ∈ runningIds s ∨ tid ∈ s.queue) := by
          intro p
          rcases finalizeTask_delta tid tid' (flushStdoutBuffer s tid') rt1 p b hdisj1 with
            ⟨δ1, g1, g2, g3⟩
          refine ⟨δ0 ++ δ1, ?_, ?_, ?_⟩
          · rw [g1, f1, List.append_assoc]
          · rw [countCE_append, f2]
            simpa using g2
          · intro e he hef
            rcases List.mem_append.mp he with h | h
            · exact Or.inl (by rw [f3 e h hef]; exact hmem)
            · rcases g3 e h hef with heq | hq
              · exact Or.inl (by rw [heq]; exact hmem)
              · rw [hfr.queue] at hq
                exact Or.inr hq
        split
        · exact hfin _
        · split
          · exact hfin _
          · exact hfin _
      · refine ⟨δ0, f1, by simp [f2], ?_⟩
        intro e he hef
        exact Or.inl (by rw [f3 e he hef]; exact hmem)

theorem execute_delta (tid : Nat) (s : ExecState) (cmd : Str) (b : Bool) :
    ∃ delta, (execute s cmd b).events = s.events ++ delta ∧
      countCE tid delta ≤ 1 ∧
      (∀ e ∈ delta, eventFor tid e = true → tid = s.nextId) := by
  unfold execute
  simp only []
  split
  · refine ⟨[Event.queued s.nextId], by simp, by simp [countCE, isCE, List.filter], ?_⟩
    intro e he hef
    simp only [List.mem_singleton] at he
    subst he
    simp only [eventFor, beq_iff_eq] at hef
    exact hef.symm
  · obtain ⟨δ, h1, h2, h3⟩ := startTask_delta tid s.nextId _ b
    refine ⟨δ, ?_, h2, h3⟩
    rw [h1]
    simp only [registerTask_events]

theorem step_delta (tid : Nat) (s : ExecState) (a : Act) (hi : ExecInv s) :
    ∃ delta, (step s a).events = s.events ++ delta ∧
      countCE tid delta ≤ 1 ∧
      (∀ e ∈ delta, eventFor tid e = true →
        tid ∈ runningIds s ∨ tid ∈ s.queue ∨ tid = s.nextId) := by
  cases a with
  | execute cmd b =>
      rcases execute_delta tid s cmd b with ⟨δ, h1, h2, h3⟩
      exact ⟨δ, h1, h2, fun e he hef => Or.inr (Or.inr (h3 e he hef))⟩
  | cancel tid2 reason =>
      rcases cancelTask_delta tid tid2 s reason with ⟨δ, h1, h2, h3⟩
      refine ⟨δ, h1, h2, ?_⟩
      intro e he hef
      rcases h3 e he hef with ⟨hm, heq⟩
      exact Or.inl (by rw [heq]; exact hm)
  | stdoutChunk tid2 data =>
      cases hrt : lookupRt s tid2 with
      | none =>
          have hid : handleTaskStdout s tid2 data = s := by
            unfold handleTaskStdout
            split
            · rfl
            · rw [hrt]
          rw [show step s (Act.stdoutChunk tid2 data)
            = handleTaskStdout s tid2 data from rfl, hid]
          exact ⟨[], by simp, by simp [countCE], by simp⟩
      | some rt =>
          rcases frameW_delta tid tid2 (frameW_handleTaskStdout tid2 s data) with
            ⟨δ, h1, h2, h3⟩
          refine ⟨δ, h1, by simp [h2], ?_⟩
          intro e he hef
          exact Or.inl (by rw [h3 e he hef]; exact lookupRt_mem_runningIds s tid2 rt hrt)
  | stderrChunk tid2 data =>
      have hstep : step s (Act.stderrChunk tid2 data) =
          (match lookupRt s tid2 with
           | none => s
           | some _ => handleTaskStderr s tid2 data) := rfl
      rw [hstep]
      cases hrt : lookupRt s tid2 with
      | none => exact ⟨[], by simp, by simp [countCE], by simp⟩
      | some rt =>
          rcases frameW_delta tid tid2 (frameW_handleTaskStderr tid2 s data) with
            ⟨δ, h1, h2, h3⟩
          refine ⟨δ, h1, by simp [h2], ?_⟩
          intro e he hef
          exact Or.inl (by rw [h3 e he hef]; exact lookupRt_mem_runningIds s tid2 rt hrt)
  | procError tid2 msg b =>
      rcases procError_delta tid tid2 s msg b hi with ⟨δ, h1, h2, h3⟩
      exact ⟨δ, h1, h2, fun e he hef => (h3 e he hef).imp id Or.inl⟩
  | procClose tid2 code b =>
      rcases procClose_delta tid tid2 s code b hi with ⟨δ, h1, h2, h3⟩
      exact ⟨δ, h1, h2, fun e he hef => (h3 e he hef).imp id Or.inl⟩
  | timerFire tid2 =>
      rcases timerFire_delta tid tid2 s with ⟨δ, h1, h2, h3⟩
      exact ⟨δ, h1, h2, fun e he hef => Or.inl (h3 e he hef)⟩
  | tick dt =>
      exact ⟨[], by rw [List.append_nil]; rfl, by simp [countCE], by simp⟩

theorem ceBound_go (tid : Nat) (acts : List Act) :
    ∀ s : ExecState, ExecInv s → countCE tid s.events ≤ 1 →
      countCE tid (acts.foldl step s).events ≤ 1 := by
  induction acts with
  | nil => intro s _ h; exact h
  | cons a rest ih =>
      intro s hi hc
      rw [List.foldl_cons]
      refine ih (step s a) (inv_step s a hi) ?_
      rcases step_delta tid s a hi with ⟨δ, h1, h2, h3⟩
      rw [h1, countCE_append]
      by_cases hz : countCE tid s.events = 0
      · omega
      · have hce : hasCE tid s.events = true := (hasCE_iff tid s.events).mpr (by omega)
        rcases hi.ceGone tid hce with ⟨hlt, hnr, hnq⟩
        have hδ : countCE tid δ = 0 := by
          apply countCE_eq_zero
          intro e he
          cases hef : eventFor tid e
          · rfl
          · exfalso
            rcases h3 e he hef with h | h | h
            · exact hnr h
            · exact hnq h
            · omega
        omega

/-- C1 counterexample: cancelling a running task twice emits two terminal
(cancelled) events for it — `cancelTask` has no finalized/status guard — and
with `progressStatusOnly` a stderr chunk arriving after the cancellation emits
a progress event for the task after its terminal event.  Both refute "exactly
one terminal event and nothing after it". -/
theorem c1_counterexample :
    (run { maxConcurrentTasks := 1, timeout := 0, progressStatusOnly := false }
      [Act.execute "x".toList true, Act.cancel 0 "a".toList,
       Act.cancel 0 "b".toList]).events
      = [Event.started 0, Event.cancelled 0 "a".toList, Event.cancelled 0 "b".toList] ∧
    countTerminal 0 (run { maxConcurrentTasks := 1, timeout := 0, progressStatusOnly := false }
      [Act.execute "x".toList true, Act.cancel 0 "a".toList,
       Act.cancel 0 "b".toList]).events = 2 ∧
    (run { maxConcurrentTasks := 1, timeout := 0, progressStatusOnly := true }
      [Act.execute "x".toList true, Act.cancel 0 "a".toList,
       Act.stderrChunk 0 "e".toList]).events
      = [Event.started 0, Event.cancelled 0 "a".toList,
         Event.progress 0 "⚠️ 收到错误输出，正在继续处理".toList] := by
  refine ⟨by decide, by decide, by decide⟩

/-- C1 amended: for the terminal events emitted by `finalizeTask` (completed
and failed), the guarantee does hold: every task sees at most one such event
along any run; once one has been emitted, no further event of any kind is
emitted for that task by any subsequent action; and a finalize attempt on
already-finalized bookkeeping is a strict no-op.  (Cancellation events are
emitted by `cancelTask` outside this discipline — see the counterexample.) -/
theorem c1_terminal_events_amended (cfg : Cfg) (acts : List Act) :
    (∀ tid, countCE tid (run cfg acts).events ≤ 1) ∧
    (∀ tid a e, hasCE tid (run cfg acts).events = true →
      e ∈ (step (run cfg acts) a).events → eventFor tid e = true →
      e ∈ (run cfg acts).events) ∧
    (∀ tid rt p b, rt.finalized = true →
      finalizeTask (run cfg acts) tid rt p b = run cfg acts) := by
  refine ⟨?_, ?_, ?_⟩
  · intro tid
    have h0 : countCE tid (initState cfg).events ≤ 1 := by simp [countCE, initState]
    exact ceBound_go tid acts (initState cfg) (inv_run cfg []) h0
  · intro tid a e hce he hef
    have hi := inv_run cfg acts
    rcases step_delta tid (run cfg acts) a hi with ⟨δ, h1, h2, h3⟩
    rw [h1] at he
    rcases List.mem_append.mp he with h | h
    · exact h
    · exfalso
      rcases hi.ceGone tid hce with ⟨hlt, hnr, hnq⟩
      rcases h3 e h hef with h' | h' | h'
      · exact hnr h'
      · exact hnq h'
      · omega
  · intro tid rt p b hfin
    unfold finalizeTask
    rw [if_pos hfin]

/-- Witness for the amended C1 at a concrete input: after task 0 completes,
its terminal count is (at most) one, a later cancel action adds no event for
it, and re-finalizing is a no-op. -/
theorem c1_terminal_events_amended_witness :
    countCE 0 (run { maxConcurrentTasks := 1, timeout := 0, progressStatusOnly := false }
      [Act.execute "x".toList true, Act.procClose 0 (some 0) true]).events ≤ 1 ∧
    Event.completed 0 ∈ (run { maxConcurrentTasks := 1, timeout := 0, progressStatusOnly := false }
      [Act.execute "x".toList true, Act.procClose 0 (some 0) true]).events ∧
    finalizeTask (run { maxConcurrentTasks := 1, timeout := 0, progressStatusOnly := false }
        [Act.execute "x".toList true, Act.procClose 0 (some 0) true])
        0 ⟨0, 0, none, true, [], [], []⟩
        { status := TStatus.completed, code := none, error := none } true
      = run { maxConcurrentTasks := 1, timeout := 0, progressStatusOnly := false }
        [Act.execute "x".toList true, Act.procClose 0 (some 0) true] := by
  refine ⟨?_, ?_, ?_⟩
  · exact (c1_terminal_events_amended
      { maxConcurrentTasks := 1, timeout := 0, progressStatusOnly := false }
      [Act.execute "x".toList true, Act.procClose 0 (some 0) true]).1 0
  · exact (c1_terminal_events_amended
      { maxConcurrentTasks := 1, timeout := 0, progressStatusOnly := false }
      [Act.execute "x".toList true, Act.procClose 0 (some 0) true]).2.1
      0 (Act.cancel 0 "a".toList) (Event.completed 0) (by decide) (by decide) (by decide)
  · exact (c1_terminal_events_amended
      { maxConcurrentTasks := 1, timeout := 0, progressStatusOnly := false }
      [Act.execute "x".toList true, Act.procClose 0 (some 0) true]).2.2
      0 ⟨0, 0, none, true, [], [], []⟩
      { status := TStatus.completed, code := none, error := none } true rfl

/-! ### Concise-transform idempotence (claim C9) -/

theorem takeWhile_length_lt {p : Char → Bool} (l : Str) (c : Char) (hc : c ∈ l)
    (hp : p c = false) : (l.takeWhile p).length < l.length := by
  induction l with
  | nil => simp at hc
  | cons a as ih =>
      cases ha : p a with
      | false =>
          rw [List.takeWhile_cons_of_neg (by simp [ha])]
          simp
      | true =>
          rw [List.takeWhile_cons_of_pos (by simp [ha])]
          simp only [List.length_cons]
          have hca : c ≠ a := fun he => by rw [he, ha] at hp; exact absurd hp (by simp)
          have hcas : c ∈ as := by
            rcases List.mem_cons.mp hc with h | h
            · exact absurd h hca
            · exact h
          exact Nat.succ_lt_succ (ih hcas)

theorem suffix_getLast? {X s : Str} (hs : X <:+ s) (hne : X ≠ []) :
    X.getLast? = s.getLast? := by
  rcases hs with ⟨pre, hpre⟩
  rw [← hpre]
  exact (List.getLast?_append_of_ne_nil pre hne).symm

theorem stripListMarker_suffix (l : Str) : stripListMarker l <:+ l := by
  unfold stripListMarker
  split
  · simp only []
    split
    · exact (List.drop_suffix _ _).trans (List.drop_suffix 1 l)
    · exact (List.drop_suffix _ _).trans (List.drop_suffix _ l)
  · exact List.suffix_refl l

theorem stripHeading_suffix (n : Nat) (l : Str) : stripHeading n l <:+ l := by
  unfold stripHeading
  split
  · exact (List.drop_suffix _ _).trans (List.drop_suffix _ l)
  · exact List.suffix_refl l

theorem drop_takeWhile_ne_nil {p : Char → Bool} (l : Str) (c : Char) (hc : c ∈ l)
    (hp : p c = false) : l.drop (l.takeWhile p).length ≠ [] := by
  intro h
  rw [List.drop_eq_nil_iff] at h
  exact absurd (takeWhile_length_lt l c hc hp) (by omega)

theorem stripListMarker_ne_nil (l : Str)
    (hlast : ∀ c, l.getLast? = some c → jsWs c = false) (hne : l ≠ []) :
    stripListMarker l ≠ [] := by
  have hgl : l.getLast? = some (l.getLast hne) := List.getLast?_eq_getLast l hne
  have hws : jsWs (l.getLast hne) = false := hlast _ hgl
  unfold stripListMarker
  split
  · rename_i ht
    simp only []
    split
    · rename_i hds
      set rest := l.drop 1 with hrest
      have hsuf : rest <:+ l := List.drop_suffix 1 l
      have hrne : rest ≠ [] := by
        unfold testListMarker at ht
        rw [if_neg (by rw [hds]; simp)] at ht
        cases hl : l with
        | nil => rw [hl] at ht; simp at ht
        | cons c0 cs =>
            rw [hl] at ht
            simp only [Bool.and_eq_true, Bool.not_eq_true'] at ht
            have h2 := ht.2
            intro hnil
            rw [hrest, hl] at hnil
            simp only [List.drop_one, List.tail_cons] at hnil
            rw [hnil] at h2
            simp at h2
      have hglr : rest.getLast? = l.getLast? := suffix_getLast? hsuf hrne
      have hmem : rest.getLast hrne ∈ rest := List.getLast_mem hrne
      have hwsr : jsWs (rest.getLast hrne) = false := by
        have : rest.getLast? = some (rest.getLast hrne) := List.getLast?_eq_getLast rest hrne
        rw [hglr] at this
        exact hlast _ this
      exact drop_takeWhile_ne_nil rest _ hmem hwsr
    · rename_i hds
      set rest := l.drop ((l.takeWhile Char.isDigit).length + 1) with hrest
      have hsuf : rest <:+ l := List.drop_suffix _ l
      have hrne : rest ≠ [] := by
        unfold testListMarker at ht
        rw [if_pos (by rw [Bool.not_eq_true']; simpa using hds)] at ht
        cases hdrop : l.drop (l.takeWhile Char.isDigit).length with
        | nil => rw [hdrop] at ht; simp at ht
        | cons c0 cs =>
            rw [hdrop] at ht
            simp only [Bool.and_eq_true, Bool.not_eq_true'] at ht
            have h2 := ht.2
            have hcs : cs = rest := by
              rw [hrest, ← List.drop_drop]
              rw [hdrop]
              rfl
            intro hnil
            rw [hcs, hnil] at h2
            simp [List.takeWhile] at h2
      have hglr : rest.getLast? = l.getLast? := suffix_getLast? hsuf hrne
      have hmem : rest.getLast hrne ∈ rest := List.getLast_mem hrne
      have hwsr : jsWs (rest.getLast hrne) = false := by
        have : rest.getLast? = some (rest.getLast hrne) := List.getLast?_eq_getLast rest hrne
        rw [hglr] at this
        exact hlast _ this
      exact drop_takeWhile_ne_nil rest _ hmem hwsr
  · exact hne

theorem stripHeading_ne_nil (n : Nat) (l : Str)
    (hlast : ∀ c, l.getLast? = some c → jsWs c = false) (hne : l ≠ []) :
    stripHeading n l ≠ [] := by
  unfold stripHeading
  split
  · rename_i ht
    simp only []
    set rest := l.drop (l.takeWhile (fun c => c = '#')).length with hrest
    have hsuf : rest <:+ l := List.drop_suffix _ l
    have hrne : rest ≠ [] := by
      unfold testHeading at ht
      simp only [Bool.and_eq_true, Bool.not_eq_true'] at ht
      have h2 := ht.2
      intro hnil
      rw [hrest] at hnil
      rw [hnil] at h2
      simp [List.takeWhile] at h2
    have hglr : rest.getLast? = l.getLast? := suffix_getLast? hsuf hrne
    have hmem : rest.getLast hrne ∈ rest := List.getLast_mem hrne
    have hwsr : jsWs (rest.getLast hrne) = false := by
      have : rest.getLast? = some (rest.getLast hrne) := List.getLast?_eq_getLast rest hrne
      rw [hglr] at this
      exact hlast _ this
    exact drop_takeWhile_ne_nil rest _ hmem hwsr
  · exact hne

theorem head?_take (l : Str) (n : Nat) (hn : 0 < n) : (l.take n).head? = l.head? := by
  cases l with
  | nil => simp
  | cons a as =>
      cases n with
      | zero => omega
      | succ m => rfl

theorem jsTrim_ne_nil_of_mem (l : Str) (c : Char) (hc : c ∈ l) (hws : jsWs c = false) :
    jsTrim l ≠ [] := by
  intro h
  rw [jsTrim_eq_nil_iff] at h
  rw [h c hc] at hws
  exact absurd hws (by simp)

theorem normalizeHighlightLine_ne_nil (s : Str)
    (hlast : ∀ c, s.getLast? = some c → jsWs c = false) (hne : s ≠ []) :
    normalizeHighlightLine s ≠ [] := by
  have h1 : stripListMarker s ≠ [] := stripListMarker_ne_nil s hlast hne
  have hgl1 : (stripListMarker s).getLast? = s.getLast? :=
    suffix_getLast? (stripListMarker_suffix s) h1
  have hlast1 : ∀ c, (stripListMarker s).getLast? = some c → jsWs c = false := by
    intro c hc
    rw [hgl1] at hc
    exact hlast c hc
  have h2 : stripHeading 6 (stripListMarker s) ≠ [] :=
    stripHeading_ne_nil 6 _ hlast1 h1
  have hgl2 : (stripHeading 6 (stripListMarker s)).getLast? = (stripListMarker s).getLast? :=
    suffix_getLast? (stripHeading_suffix 6 _) h2
  set X := stripHeading 6 (stripListMarker s) with hX
  have hmem : X.getLast h2 ∈ X := List.getLast_mem h2
  have hwsX : jsWs (X.getLast h2) = false := by
    have hgl : X.getLast? = some (X.getLast h2) := List.getLast?_eq_getLast X h2
    rw [hgl2, hgl1] at hgl
    exact hlast _ hgl
  have hex : ∃ c ∈ collapseWs X, jsWs c = false :=
    collapseWsGo_exists false X ⟨X.getLast h2, hmem, hwsX⟩
  rcases hex with ⟨c, hcmem, hcws⟩
  have hstripped : jsTrim (collapseWs X) ≠ [] := jsTrim_ne_nil_of_mem _ c hcmem hcws
  unfold normalizeHighlightLine
  simp only []
  rw [if_neg (by simpa using hstripped)]
  split
  · exact hstripped
  · simp

theorem normalizeHighlightLine_props (v : Str) :
    normalizeHighlightLine v = [] ∨
    (normalizeHighlightLine v ≠ [] ∧
      jsTrim (normalizeHighlightLine v) = normalizeHighlightLine v ∧
      (normalizeHighlightLine v).length ≤ 143 ∧
      '\n' ∉ normalizeHighlightLine v) := by
  unfold normalizeHighlightLine
  simp only []
  split
  · exact Or.inl rfl
  · rename_i hne
    rw [Bool.not_eq_true] at hne
    split
    · rename_i hlen
      refine Or.inr ⟨by simpa using hne, jsTrim_idem _, by omega, ?_⟩
      intro hmem
      have hsub := (jsTrim_sublist (collapseWs (stripHeading 6 (stripListMarker v)))).subset hmem
      exact collapseWs_no_nl _ hsub
    · rename_i hlen
      set stripped := jsTrim (collapseWs (stripHeading 6 (stripListMarker v))) with hstr
      have hlen' : 140 < stripped.length := by omega
      refine Or.inr ⟨by simp, ?_, ?_, ?_⟩
      · refine jsTrim_eq_self _ ?_ ?_
        · intro c hc
          cases hs : stripped with
          | nil => rw [hs] at hlen'; simp at hlen'
          | cons a as =>
              have hc' : c = a := by
                rw [hs, show (140 : Nat) = 139 + 1 from rfl, List.take_succ_cons] at hc
                simp at hc
                exact hc.symm
              have hhead : stripped.head? = some c := by rw [hs, hc']; rfl
              exact jsTrim_head_not_ws _ c (hstr ▸ hhead)
        · intro c hc
          rw [List.getLast?_append_of_ne_nil _ (by simp : "...".toList ≠ [])] at hc
          simp only [show "...".toList = ['.', '.', '.'] from rfl] at hc
          simp at hc
          rw [← hc]
          rfl
      · rw [List.length_append, List.length_take]
        simp
      · intro hmem
        rcases List.mem_append.mp hmem with h | h
        · have hsub := (List.take_sublist 140 stripped).subset h
          have hsub2 : '\n' ∈ jsTrim (collapseWs (stripHeading 6 (stripListMarker v))) := by
            rw [← hstr]
            exact hsub
          exact collapseWs_no_nl _ ((jsTrim_sublist _).subset hsub2)
        · simp [show "...".toList = ['.', '.', '.'] from rfl] at h

theorem highlightPush_props (hl : List Str) (v : Str)
    (h : ∀ e ∈ hl, e ≠ [] ∧ jsTrim e = e ∧ e.length ≤ 143 ∧ '\n' ∉ e) :
    ∀ e ∈ highlightPush hl v, e ≠ [] ∧ jsTrim e = e ∧ e.length ≤ 143 ∧ '\n' ∉ e := by
  unfold highlightPush
  simp only []
  split
  · exact h
  · split
    · exact h
    · rename_i hne hcon
      intro e he
      rcases List.mem_append.mp he with hm | hm
      · exact h e hm
      · simp only [List.mem_singleton] at hm
        subst hm
        rcases normalizeHighlightLine_props v with h0 | h0
        · rw [h0] at hne
          simp at hne
        · exact h0

theorem highlightPush_len (hl : List Str) (v : Str) :
    hl.length ≤ (highlightPush hl v).length ∧
    (highlightPush hl v).length ≤ hl.length + 1 := by
  unfold highlightPush
  simp only []
  split
  · omega
  · split
    · omega
    · simp

theorem highlightPush_ne_nil (hl : List Str) (v : Str)
    (hv : normalizeHighlightLine v ≠ []) : highlightPush hl v ≠ [] := by
  unfold highlightPush
  simp only []
  rw [if_neg (by simpa using hv)]
  split
  · rename_i hcon
    intro h
    rw [h] at hcon
    simp at hcon
  · simp

theorem highlightLinePhase_props (n : Nat) (lines : List Str) :
    ∀ hl, (∀ e ∈ hl, e ≠ [] ∧ jsTrim e = e ∧ e.length ≤ 143 ∧ '\n' ∉ e) →
      ∀ e ∈ highlightLinePhase n lines hl,
        e ≠ [] ∧ jsTrim e = e ∧ e.length ≤ 143 ∧ '\n' ∉ e := by
  induction lines with
  | nil => intro hl h; exact h
  | cons line rest ih =>
      intro hl h
      unfold highlightLinePhase
      split
      · exact h
      · split
        · exact ih _ (highlightPush_props hl line h)
        · exact ih _ h

theorem highlightLinePhase_len (n : Nat) (lines : List Str) :
    ∀ hl, hl.length ≤ n → (highlightLinePhase n lines hl).length ≤ n := by
  induction lines with
  | nil => intro hl h; exact h
  | cons line rest ih =>
      intro hl h
      unfold highlightLinePhase
      split
      · exact h
      · rename_i hlt
        have hlt' : hl.length < n := by omega
        split
        · refine ih _ ?_
          have := (highlightPush_len hl line).2
          omega
        · exact ih _ h

theorem highlightSentencePhase_props (n : Nat) (sents : List Str) :
    ∀ hl, (∀ e ∈ hl, e ≠ [] ∧ jsTrim e = e ∧ e.length ≤ 143 ∧ '\n' ∉ e) →
      ∀ e ∈ highlightSentencePhase n sents hl,
        e ≠ [] ∧ jsTrim e = e ∧ e.length ≤ 143 ∧ '\n' ∉ e := by
  induction sents with
  | nil => intro hl h; exact h
  | cons v rest ih =>
      intro hl h
      unfold highlightSentencePhase
      split
      · exact h
      · exact ih _ (highlightPush_props hl v h)

theorem highlightSentencePhase_len (n : Nat) (sents : List Str) :
    ∀ hl, hl.length ≤ n → (highlightSentencePhase n sents hl).length ≤ n := by
  induction sents with
  | nil => intro hl h; exact h
  | cons v rest ih =>
      intro hl h
      unfold highlightSentencePhase
      split
      · exact h
      · rename_i hlt
        have hlt' : hl.length < n := by omega
        refine ih _ ?_
        have := (highlightPush_len hl v).2
        omega

theorem highlightSentencePhase_mono (n : Nat) (sents : List Str) :
    ∀ hl, hl.length ≤ (highlightSentencePhase n sents hl).length := by
  induction sents with
  | nil => intro hl; exact le_refl _
  | cons v rest ih =>
      intro hl
      unfold highlightSentencePhase
      split
      · exact le_refl _
      · have h1 := (highlightPush_len hl v).1
        have h2 := ih (highlightPush hl v)
        omega

theorem extractHighlights_props (out : Str) :
    ∀ e ∈ extractHighlights out conciseMaxLines,
      e ≠ [] ∧ jsTrim e = e ∧ e.length ≤ 143 ∧ '\n' ∉ e := by
  unfold extractHighlights
  split
  · simp
  · simp only []
    split
    · exact highlightLinePhase_props _ _ [] (by simp)
    · exact highlightSentencePhase_props _ _ _
        (highlightLinePhase_props _ _ [] (by simp))

theorem extractHighlights_len (out : Str) :
    (extractHighlights out conciseMaxLines).length ≤ conciseMaxLines := by
  unfold extractHighlights
  split
  · simp
  · simp only []
    split
    · exact highlightLinePhase_len _ _ [] (by simp)
    · exact highlightSentencePhase_len _ _ _ (highlightLinePhase_len _ _ [] (by simp))

theorem splitSentGo_ne_nil (l : Str) : ∀ b1 b2, splitSentGo b1 b2 l ≠ [] := by
  induction l with
  | nil => intro b1 b2; simp [splitSentGo]
  | cons c cs ih =>
      intro b1 b2
      unfold splitSentGo
      split
      · exact ih false true
      · split
        · simp
        · split
          · simp
          · simp

theorem splitSentGo_head (c : Char) (cs : Str) :
    ∃ p ps, splitSentGo false false (c :: cs) = (c :: p) :: ps := by
  unfold splitSentGo
  rw [if_neg (by simp), if_neg (by simp)]
  cases h : splitSentGo (isSentenceEnder c) false cs with
  | nil => exact ⟨[], [], rfl⟩
  | cons p ps => exact ⟨p, ps, rfl⟩

theorem highlightSentencePhase_ne_nil (n : Nat) (v : Str) (rest : List Str) (hl : List Str)
    (hlt : ¬ hl.length ≥ n) (hv : normalizeHighlightLine v ≠ []) :
    highlightSentencePhase n (v :: rest) hl ≠ [] := by
  unfold highlightSentencePhase
  rw [if_neg hlt]
  have hpush := highlightPush_ne_nil hl v hv
  have hmono := highlightSentencePhase_mono n rest (highlightPush hl v)
  intro hres
  rw [hres] at hmono
  simp only [List.length_nil, Nat.le_zero] at hmono
  exact hpush (List.length_eq_zero.mp hmono)

theorem extractHighlights_ne_nil (out : Str) (htrim : jsTrim out = out) (hne : out ≠ []) :
    extractHighlights out conciseMaxLines ≠ [] := by
  unfold extractHighlights
  rw [if_neg (by simpa using hne)]
  simp only []
  split
  · rename_i hge
    intro h
    rw [h] at hge
    simp [conciseMaxLines] at hge
  · rename_i hlt
    obtain ⟨c0, cs0, hout⟩ : ∃ c cs, out = c :: cs := by
      cases hout : out with
      | nil => exact absurd hout hne
      | cons a as => exact ⟨a, as, rfl⟩
    have hc0ws : jsWs c0 = false := by
      apply jsTrim_head_not_ws out
      rw [htrim, hout]
      rfl
    have hcmem : c0 ∈ out := by rw [hout]; exact List.mem_cons_self _ _
    rcases collapseWsGo_exists false out ⟨c0, hcmem, hc0ws⟩ with ⟨c1, hc1mem, hc1ws⟩
    have hcompact : jsTrim (collapseWs out) ≠ [] := jsTrim_ne_nil_of_mem _ c1 hc1mem hc1ws
    obtain ⟨c2, cs2, hc2⟩ : ∃ c cs, jsTrim (collapseWs out) = c :: cs := by
      cases hcc : jsTrim (collapseWs out) with
      | nil => exact absurd hcc hcompact
      | cons a as => exact ⟨a, as, rfl⟩
    have hc2ws : jsWs c2 = false := by
      apply jsTrim_head_not_ws (collapseWs out)
      rw [hc2]
      rfl
    rcases splitSentGo_head c2 cs2 with ⟨p, ps, hsp⟩
    have hsent : splitSentences (jsTrim (collapseWs out)) = (c2 :: p) :: ps := by
      unfold splitSentences
      rw [hc2]
      exact hsp
    have hfirst : jsTrim (c2 :: p) ≠ [] :=
      jsTrim_ne_nil_of_mem _ c2 (List.mem_cons_self _ _) hc2ws
    rw [hsent, List.map_cons, List.filter_cons, if_pos (by simpa using hfirst)]
    have hnorm : normalizeHighlightLine (jsTrim (c2 :: p)) ≠ [] := by
      apply normalizeHighlightLine_ne_nil _ _ hfirst
      intro c hc
      exact jsTrim_getLast_not_ws _ c hc
    exact highlightSentencePhase_ne_nil _ _ _ _ hlt hnorm

theorem numberHighlights_length : ∀ (hs : List Str) (i : Nat),
    (numberHighlights i hs).length = hs.length := by
  intro hs
  induction hs with
  | nil => intro i; rfl
  | cons x t ih => intro i; simp [numberHighlights, ih]

theorem numberHighlights_mem : ∀ (hs : List Str) (i : Nat) (e : Str),
    e ∈ numberHighlights i hs →
    ∃ j h, h ∈ hs ∧ i ≤ j ∧ j < i + hs.length ∧
      e = natToStr (j + 1) ++ ". ".toList ++ h := by
  intro hs
  induction hs with
  | nil => intro i e he; simp [numberHighlights] at he
  | cons x t ih =>
      intro i e he
      unfold numberHighlights at he
      rcases List.mem_cons.mp he with h | h
      · exact ⟨i, x, List.mem_cons_self _ _, le_refl i, by simp, h⟩
      · rcases ih (i + 1) e h with ⟨j, y, hy, hij, hlt, heq⟩
        refine ⟨j, y, List.mem_cons_of_mem _ hy, by omega, ?_, heq⟩
        simp only [List.length_cons]
        omega

theorem natToStr_digit (n : Nat) (h1 : 1 ≤ n) (h2 : n ≤ 6) :
    (natToStr n).length = 1 ∧ '\n' ∉ natToStr n := by
  interval_cases n <;> exact ⟨rfl, by decide⟩

theorem concise_out_props (out : Str) (htrim : jsTrim out = out) (hne : out ≠ []) :
    jsTrim (jsJoin ['\n'] (numberHighlights 0 (extractHighlights out conciseMaxLines)))
      = jsJoin ['\n'] (numberHighlights 0 (extractHighlights out conciseMaxLines)) ∧
    jsJoin ['\n'] (numberHighlights 0 (extractHighlights out conciseMaxLines)) ≠ [] ∧
    (jsJoin ['\n'] (numberHighlights 0 (extractHighlights out conciseMaxLines))).length
      ≤ conciseMaxLength ∧
    (linesOf (jsJoin ['\n'] (numberHighlights 0 (extractHighlights out conciseMaxLines)))).length
      ≤ conciseMaxLines := by
  set hs := extractHighlights out conciseMaxLines with hhs
  have hprops := extractHighlights_props out
  have hlen6 := extractHighlights_len out
  have hsne : hs ≠ [] := extractHighlights_ne_nil out htrim hne
  obtain ⟨h1, t1, hht⟩ : ∃ h t, hs = h :: t := by
    cases hcs : hs with
    | nil => exact absurd hcs hsne
    | cons a as => exact ⟨a, as, rfl⟩
  set es := numberHighlights 0 hs with hes
  have hes1 : es = (natToStr 1 ++ ". ".toList ++ h1) :: numberHighlights 1 t1 := by
    rw [hes, hht]
    rfl
  have hemem : ∀ e ∈ es, e ≠ [] ∧ e.length ≤ 146 ∧ '\n' ∉ e ∧
      (∀ c, e.getLast? = some c → jsWs c = false) := by
    intro e he
    rcases numberHighlights_mem hs 0 e he with ⟨j, h, hh, _, hjlt, heq⟩
    have hp := hprops h hh
    have hj6 : j + 1 ≤ 6 := by
      have h6 : hs.length ≤ 6 := by simpa [conciseMaxLines] using hlen6
      omega
    have hd := natToStr_digit (j + 1) (by omega) hj6
    refine ⟨?_, ?_, ?_, ?_⟩
    · rw [heq]
      intro h0
      have := congrArg List.length h0
      simp [hd.1] at this
    · rw [heq]
      simp only [List.length_append, hd.1]
      have hh143 := hp.2.2.1
      have : ". ".toList.length = 2 := rfl
      omega
    · rw [heq]
      intro hm
      rcases List.mem_append.mp hm with hm | hm
      · rcases List.mem_append.mp hm with hm | hm
        · exact hd.2 hm
        · simp [show ". ".toList = ['.', ' '] from rfl] at hm
      · exact hp.2.2.2 hm
    · intro c hc
      rw [heq, List.getLast?_append_of_ne_nil _ hp.1] at hc
      apply jsTrim_getLast_not_ws h c
      rw [hp.2.1]
      exact hc
  have heslen : es.length = hs.length := numberHighlights_length hs 0
  have hesne : es ≠ [] := by rw [hes1]; simp
  have hx1 : natToStr 1 ++ ". ".toList ++ h1 ≠ [] := by
    intro h0
    have := congrArg List.length h0
    simp [show (natToStr 1).length = 1 from rfl] at this
  have hhead : (jsJoin ['\n'] es).head? = some '1' := by
    rw [hes1, jsJoin_head? _ _ _ hx1]
    rfl
  refine ⟨?_, ?_, ?_, ?_⟩
  · apply jsTrim_eq_self
    · intro c hc
      rw [hhead] at hc
      injection hc with hc
      rw [← hc]
      rfl
    · intro c hc
      rw [jsJoin_getLast? ['\n'] es hesne
        ((hemem _ (List.getLast_mem hesne)).1)] at hc
      exact (hemem _ (List.getLast_mem hesne)).2.2.2 c hc
  · intro h0
    rw [h0] at hhead
    simp at hhead
  · have hb := jsJoin_length_le ['\n'] es 146 (fun e he => (hemem e he).2.1)
    have h6 : es.length ≤ 6 := by
      rw [heslen]
      simpa [conciseMaxLines] using hlen6
    have hsep : (146 + (['\n'] : Str).length) = 147 := rfl
    rw [hsep] at hb
    have : es.length * 147 ≤ 6 * 147 := Nat.mul_le_mul_right 147 h6
    simp only [conciseMaxLength]
    omega
  · have hsplit : splitNl (jsJoin ['\n'] es) = es :=
      splitNl_jsJoin es (fun p hp => (hemem p hp).2.2.1) hesne
    unfold linesOf
    rw [hsplit]
    calc ((es.map jsTrim).filter (fun l => !l.isEmpty)).length
        ≤ (es.map jsTrim).length := List.length_filter_le _ _
      _ = es.length := by simp
      _ ≤ conciseMaxLines := by rw [heslen]; exact hlen6

theorem toConciseResult_short (o : Str) (h1 : jsTrim o = o) (hne : o ≠ [])
    (h3 : o.length ≤ conciseMaxLength) (h4 : (linesOf o).length ≤ conciseMaxLines) :
    toConciseResult o = o := by
  unfold toConciseResult
  simp only []
  rw [h1]
  rw [if_neg (by simpa using hne)]
  rw [if_pos (by simp [h3, h4])]

theorem toConciseResult_out (t : Str) :
    toConciseResult t = [] ∨
    (jsTrim (toConciseResult t) = toConciseResult t ∧ toConciseResult t ≠ [] ∧
      (toConciseResult t).length ≤ conciseMaxLength ∧
      (linesOf (toConciseResult t)).length ≤ conciseMaxLines) := by
  unfold toConciseResult
  simp only []
  split
  · exact Or.inl rfl
  · rename_i hnem
    have htne : jsTrim t ≠ [] := by simpa using hnem
    split
    · rename_i hcond
      simp only [Bool.and_eq_true, decide_eq_true_eq] at hcond
      exact Or.inr ⟨jsTrim_idem t, htne, hcond.1, hcond.2⟩
    · have hhs := extractHighlights_ne_nil (jsTrim t) (jsTrim_idem t) htne
      rw [if_pos (by simpa using hhs)]
      have hp := concise_out_props (jsTrim t) (jsTrim_idem t) htne
      exact Or.inr ⟨hp.1, hp.2.1, hp.2.2.1, hp.2.2.2⟩

/-- C9: the concise transform is idempotent — applying `toConciseResult` to
its own output returns that output unchanged: the output is always either
empty or a trimmed string within the 900-character/6-line budget, which the
second application returns via its short-circuit branch. -/
theorem c9_concise_idempotent (text : Str) :
    toConciseResult (toConciseResult text) = toConciseResult text := by
  rcases toConciseResult_out text with h | ⟨h1, h2, h3, h4⟩
  · rw [h]
    rfl
  · exact toConciseResult_short _ h1 h2 h3 h4
